import Mathlib

/-! A verification development for `vm.c` (bkerley/ruby).

Shallow embedding of the parts of `vm.c` that manage control frames, promote
stack scopes to heap environments, materialize procs from blocks and unwind
through catch tables, followed by theorems about them.

Conventions of the embedding:

* A `VALUE` is a machine word, a natural number.  Pointers are byte addresses;
  `p[i]` is the word at `p + SIZEOF_VALUE * i`, and `p[-n + i]` with `i ≤ n` is
  the word at `p - SIZEOF_VALUE * (n - i)`.
* The control frame array of a thread is the list `frames`; a frame pointer is
  an index into it, `cfp + 1` is the previous (older) frame and
  `frames.length` is the end of the array.
* Heap objects (environments, procs, throw objects, instruction sequences) live
  in tables indexed by their handle.  The allocator is a bump allocator starting
  at `brk`; theorems that depend on where fresh memory lies assume that `brk` is
  not below the end of the thread's value stack.
* A C function that can abort, read outside an array, or loop forever returns
  a `Res`; recursion that need not terminate takes fuel.
-/

namespace RubyVM

/-! ## Values, constants and macros of the headers -/

abbrev VALUE := Nat

/-- Modelled from the spec: `sizeof(VALUE)` of the platform, one machine word of
eight bytes (ruby.h is not part of the sources). -/
def SIZEOF_VALUE : Nat := 8

/-- Modelled from the spec: the special constant `Qnil` of ruby.h. -/
def Qnil : VALUE := 4

/-- Modelled from the spec: the special constant `Qundef` of ruby.h. -/
def Qundef : VALUE := 6

/-- Modelled from the spec: `GC_GUARDED_PTR(p)` of vm_core.h, the pointer with
its mark bit set (`block_ptr | 0x01` in the frame layout comment of vm.c). -/
def GC_GUARDED_PTR (p : Nat) : VALUE := p ||| 1

/-- Modelled from the spec: `GC_GUARDED_PTR_REF(v)` of vm_core.h, the pointer
with its two guard bits stripped (`v & ~0x03`). -/
def GC_GUARDED_PTR_REF (v : VALUE) : Nat := v - v % 4

/-- Modelled from the spec: the frame kind tag `VM_FRAME_MAGIC_METHOD` of vm_core.h (method frame). -/
def VM_FRAME_MAGIC_METHOD : Nat := 0x11

/-- Modelled from the spec: the frame kind tag `VM_FRAME_MAGIC_BLOCK` of vm_core.h (block frame). -/
def VM_FRAME_MAGIC_BLOCK : Nat := 0x21

/-- Modelled from the spec: the frame kind tag `VM_FRAME_MAGIC_CLASS` of vm_core.h (class body frame). -/
def VM_FRAME_MAGIC_CLASS : Nat := 0x31

/-- Modelled from the spec: the frame kind tag `VM_FRAME_MAGIC_TOP` of vm_core.h (top-level frame). -/
def VM_FRAME_MAGIC_TOP : Nat := 0x41

/-- Modelled from the spec: the frame kind tag `VM_FRAME_MAGIC_FINISH` of vm_core.h (finish sentinel frame). -/
def VM_FRAME_MAGIC_FINISH : Nat := 0x51

/-- Modelled from the spec: the frame kind tag `VM_FRAME_MAGIC_CFUNC` of vm_core.h (native call frame). -/
def VM_FRAME_MAGIC_CFUNC : Nat := 0x61

/-- Modelled from the spec: the frame kind tag `VM_FRAME_MAGIC_PROC` of vm_core.h (proc frame). -/
def VM_FRAME_MAGIC_PROC : Nat := 0x71

/-- Modelled from the spec: the frame kind tag `VM_FRAME_MAGIC_IFUNC` of vm_core.h (synthetic iterator frame). -/
def VM_FRAME_MAGIC_IFUNC : Nat := 0x81

/-- Modelled from the spec: the frame kind tag `VM_FRAME_MAGIC_EVAL` of vm_core.h (eval frame). -/
def VM_FRAME_MAGIC_EVAL : Nat := 0x91

/-- Modelled from the spec: the frame kind tag `VM_FRAME_MAGIC_LAMBDA` of vm_core.h (lambda frame). -/
def VM_FRAME_MAGIC_LAMBDA : Nat := 0xa1

/-- Modelled from the spec: the mask `VM_FRAME_MAGIC_MASK` of vm_core.h that selects the frame kind tag in `cfp->flag`. -/
def VM_FRAME_MAGIC_MASK : Nat := 0xff

/-- Modelled from the spec: the unwind tag `TAG_RETURN` of eval_intern.h (return). -/
def TAG_RETURN : Nat := 1

/-- Modelled from the spec: the unwind tag `TAG_BREAK` of eval_intern.h (break). -/
def TAG_BREAK : Nat := 2

/-- Modelled from the spec: the unwind tag `TAG_NEXT` of eval_intern.h (next). -/
def TAG_NEXT : Nat := 3

/-- Modelled from the spec: the unwind tag `TAG_RETRY` of eval_intern.h (retry). -/
def TAG_RETRY : Nat := 4

/-- Modelled from the spec: the unwind tag `TAG_REDO` of eval_intern.h (redo). -/
def TAG_REDO : Nat := 5

/-- Modelled from the spec: the unwind tag `TAG_RAISE` of eval_intern.h (raise). -/
def TAG_RAISE : Nat := 6

/-- Modelled from the spec: the unwind tag `TAG_THROW` of eval_intern.h (throw). -/
def TAG_THROW : Nat := 7

/-- Modelled from the spec: the unwind tag `TAG_FATAL` of eval_intern.h (fatal). -/
def TAG_FATAL : Nat := 8

/-- Modelled from the spec: the catch table entry kind `CATCH_TYPE_RESCUE` of iseq.h, `INT2FIX(1)`. -/
def CATCH_TYPE_RESCUE : Nat := 3

/-- Modelled from the spec: the catch table entry kind `CATCH_TYPE_ENSURE` of iseq.h, `INT2FIX(2)`. -/
def CATCH_TYPE_ENSURE : Nat := 5

/-- Modelled from the spec: the catch table entry kind `CATCH_TYPE_RETRY` of iseq.h, `INT2FIX(3)`. -/
def CATCH_TYPE_RETRY : Nat := 7

/-- Modelled from the spec: the catch table entry kind `CATCH_TYPE_BREAK` of iseq.h, `INT2FIX(4)`. -/
def CATCH_TYPE_BREAK : Nat := 9

/-- Modelled from the spec: the catch table entry kind `CATCH_TYPE_REDO` of iseq.h, `INT2FIX(5)`. -/
def CATCH_TYPE_REDO : Nat := 11

/-- Modelled from the spec: the catch table entry kind `CATCH_TYPE_NEXT` of iseq.h, `INT2FIX(6)`. -/
def CATCH_TYPE_NEXT : Nat := 13

/-! ## Data model -/

/-- One entry of `iseq->catch_table`. -/
structure iseq_catch_table_entry where
  type : Nat
  iseq : VALUE
  start : Nat
  end_ : Nat
  cont : Nat
  sp : Nat
  deriving DecidableEq, Repr

/-- One entry of `iseq->insn_info_table`. -/
structure iseq_insn_info_entry where
  position : Nat
  line_no : Nat
  deriving DecidableEq, Repr

/-- The fields of `rb_iseq_t` that vm.c reads.  `catch_table_size` and
`insn_info_size` are the lengths of the two lists; `filename` is the string
object with the name of the source file. -/
structure rb_iseq_t where
  type : Nat
  local_size : Nat
  stack_max : Nat
  iseq_encoded : Nat
  catch_table : List iseq_catch_table_entry
  insn_info_table : List iseq_insn_info_entry
  filename : VALUE := 0
  deriving DecidableEq, Repr

/-- What an `rb_iseq_t *` stored in a frame or block points to: nothing, a
`NODE` (an ifunc, `BUILTIN_TYPE(ptr) == T_NODE`), or an instruction
sequence. -/
inductive iseq_ptr where
  | null
  | ifunc (node : VALUE)
  | iseq (i : rb_iseq_t)
  deriving DecidableEq, Repr

/-- Modelled from the spec: `RUBY_VM_NORMAL_ISEQ_P(ptr)` of vm_core.h, true iff
the pointer is non-null and not an ifunc node. -/
def RUBY_VM_NORMAL_ISEQ_P : iseq_ptr → Bool
  | .iseq _ => true
  | _ => false

/-- The struct `rb_control_frame_t` (see the layout comment above `vm_exec`). -/
structure rb_control_frame_t where
  pc : Nat
  sp : Nat
  bp : Nat
  iseq : iseq_ptr
  flag : Nat
  self : VALUE
  lfp : Nat
  dfp : Nat
  block_iseq : iseq_ptr
  proc : VALUE
  me : Nat
  deriving DecidableEq, Repr

/-- The struct `rb_block_t`; inside a control frame it is the five fields from
`self` to `proc`. -/
structure rb_block_t where
  self : VALUE
  lfp : Nat
  dfp : Nat
  iseq : iseq_ptr
  proc : VALUE
  deriving DecidableEq, Repr

/-- The struct `rb_env_t`. -/
structure rb_env_t where
  env : Nat
  env_size : Nat
  local_size : Nat
  prev_envval : VALUE
  block : rb_block_t
  deriving DecidableEq, Repr

/-- The struct `rb_proc_t`. -/
structure rb_proc_t where
  block : rb_block_t
  envval : VALUE
  blockprocval : VALUE
  safe_level : Nat
  is_from_method : Bool
  is_lambda : Bool
  deriving DecidableEq, Repr

/-- A throw object (`NEW_THROW_OBJECT(val, pt, st)`): a node whose three
words are the payload, the catch point and the state. -/
structure throw_object where
  val : VALUE
  catch_point : Nat
  state : Nat
  deriving DecidableEq, Repr

/-- The thread `rb_thread_t` together with the memory it works on.

`stack`, `stack_size`, `cfp`, `state`, `errinfo`, `safe_level` and `top_self`
are the fields of the C struct.  `frames` is the control frame array, `mem` the word
memory (value stack and heap buffers), `envs`, `procs`, `throwobjs` and `iseqs`
(what `GetISeqPtr` yields) the heap objects by handle, and `brk` the allocation
frontier of the heap: every word at or above it is unallocated.
`finish_insn_seq` is the address of the static finish instruction. -/
structure rb_thread_t where
  stack : Nat
  stack_size : Nat
  cfp : Nat
  frames : List rb_control_frame_t
  state : Nat
  errinfo : VALUE
  safe_level : Nat
  mem : Nat → VALUE
  envs : VALUE → Option rb_env_t
  procs : VALUE → Option rb_proc_t
  throwobjs : VALUE → throw_object
  iseqs : VALUE → Option rb_iseq_t
  brk : Nat
  finish_insn_seq : Nat
  top_self : VALUE := 0

/-- Outcome of a C function of the embedding: it returns a value, aborts through
`rb_bug`, has undefined behaviour (it reads outside the frame array or follows
a pointer to nothing), or the fuel of the embedding ran out. -/
inductive Res (α : Type) where
  | ok (a : α)
  | rb_bug
  | undefined
  | out_of_fuel

/-- The memory `m` after `*a = v`. -/
def store (m : Nat → VALUE) (a : Nat) (v : VALUE) : Nat → VALUE :=
  fun x => if x = a then v else m x

/-- Modelled from the spec: `VM_FRAME_TYPE(cfp)` of vm_core.h,
`cfp->flag & VM_FRAME_MAGIC_MASK`. -/
def VM_FRAME_TYPE (f : rb_control_frame_t) : Nat := f.flag &&& VM_FRAME_MAGIC_MASK

/-! ## Env: promotion of stack scopes -/

/-- The macro `ENV_IN_HEAP_P(th, env)`. -/
def ENV_IN_HEAP_P (th : rb_thread_t) (env : Nat) : Bool :=
  !(decide (th.stack < env) && decide (env < th.stack + SIZEOF_VALUE * th.stack_size))

/-- The macro `ENV_VAL(env)`, the word `env[1]`. -/
def ENV_VAL (th : rb_thread_t) (env : Nat) : VALUE :=
  th.mem (env + SIZEOF_VALUE * 1)

/-- Modelled from the spec: `TypedData_Make_Struct(rb_cEnv, rb_env_t, ...)` of
ruby.h obtains a fresh, zero-filled `rb_env_t` object from the allocator (not
part of the sources); the handle is the frontier address. -/
def TypedData_Make_Struct_env (th : rb_thread_t) : rb_thread_t × VALUE :=
  let obj := th.brk
  ({ th with
      brk := th.brk + SIZEOF_VALUE,
      envs := fun v => if v = obj then
        some { env := 0, env_size := 0, local_size := 0, prev_envval := 0,
               block := { self := 0, lfp := 0, dfp := 0, iseq := .null, proc := 0 } }
        else th.envs v }, obj)

/-- The function `env_alloc`: make the object, then `env->env = 0;
env->prev_envval = 0; env->block.iseq = 0`. -/
def env_alloc (th : rb_thread_t) : rb_thread_t × VALUE :=
  let (th1, obj) := TypedData_Make_Struct_env th
  ({ th1 with
      envs := fun v => if v = obj then
        (th1.envs obj).map fun env =>
          { env with env := 0, prev_envval := 0, block := { env.block with iseq := .null } }
        else th1.envs v }, obj)

/-- Modelled from the spec: `ALLOC_N(VALUE, n)` hands out `n` fresh words at
the allocation frontier (the allocator is not part of the sources). -/
def ALLOC_N (th : rb_thread_t) (n : Nat) : rb_thread_t × Nat :=
  ({ th with brk := th.brk + SIZEOF_VALUE * n }, th.brk)

/-- The loop `while (pcfp->dfp != penvptr) { pcfp++; if (pcfp->dfp == 0) rb_bug }`
of `vm_make_env_each`.  Reading past the end of the frame array is
undefined. -/
def find_pcfp (frames : List rb_control_frame_t) (penvptr : Nat) :
    Nat → Nat → Res Nat
  | 0, _ => .out_of_fuel
  | fuel + 1, pcfp =>
    match frames[pcfp]? with
    | none => .undefined
    | some f =>
      if f.dfp ≠ penvptr then
        match frames[pcfp + 1]? with
        | none => .undefined
        | some g => if g.dfp = 0 then .rb_bug else find_pcfp frames penvptr fuel (pcfp + 1)
      else .ok pcfp

/-- The copy loop `for (i = 0; i <= local_size; i++) env->env[i] =
envptr[-local_size + i]` of `vm_make_env_each`, from index `i` on. -/
def copy_locals (buf envptr local_size : Nat) : Nat → Nat → (Nat → VALUE) → (Nat → VALUE)
  | 0, _, m => m
  | n + 1, i, m =>
    copy_locals buf envptr local_size n (i + 1)
      (store m (buf + SIZEOF_VALUE * i) (m (envptr - SIZEOF_VALUE * (local_size - i))))

/-- The `local_size` that `vm_make_env_each` computes for a frame:
`cfp->iseq->local_size` for a normal instruction sequence, otherwise 2. -/
def frame_local_size (f : rb_control_frame_t) : Nat :=
  if RUBY_VM_NORMAL_ISEQ_P f.iseq then
    match f.iseq with
    | .iseq i => i.local_size
    | _ => 0
  else 2

/-- The second half of `vm_make_env_each`, from `/* allocate env */` to the
end: allocate the environment, copy `local_size + 1` words, write the two
trailer words, redirect `*envptr` and reset the frame's `dfp` (and `lfp`). -/
def vm_make_env_alloc (th : rb_thread_t) (cfp envptr endptr : Nat) (penvval : VALUE) :
    Res (rb_thread_t × VALUE) :=
  match th.frames[cfp]? with
  | none => .undefined
  | some f =>
    let (th1, envval) := env_alloc th
    let local_size := frame_local_size f
    let env_size := local_size + 1 + 2
    let (th2, buf) := ALLOC_N th1 env_size
    let m1 := copy_locals buf envptr local_size (local_size + 1) 0 th2.mem
    let m2 := store m1 envptr envval
    let nenvptr := buf + SIZEOF_VALUE * local_size
    let m3 := store m2 (nenvptr + SIZEOF_VALUE * 1) envval
    let m4 := store m3 (nenvptr + SIZEOF_VALUE * 2) penvval
    let f1 : rb_control_frame_t :=
      { f with dfp := nenvptr, lfp := if envptr = endptr then nenvptr else f.lfp }
    let env : rb_env_t :=
      { env := buf, env_size := env_size, local_size := local_size, prev_envval := penvval,
        block := { self := f1.self, lfp := f1.lfp, dfp := f1.dfp,
                   iseq := if RUBY_VM_NORMAL_ISEQ_P f1.iseq then f1.iseq else .null,
                   proc := 0 } }
    .ok ({ th2 with
            mem := m4,
            frames := th2.frames.set cfp f1,
            envs := fun v => if v = envval then some env else th2.envs v }, envval)

/-- The function `vm_make_env_each`.  The recursion follows the lexical chain
and need not terminate on a malformed chain, hence the fuel. -/
def vm_make_env_each : Nat → rb_thread_t → Nat → Nat → Nat → Res (rb_thread_t × VALUE)
  | 0, _, _, _, _ => .out_of_fuel
  | fuel + 1, th, cfp, envptr, endptr =>
    if ENV_IN_HEAP_P th envptr then .ok (th, ENV_VAL th envptr)
    else if envptr ≠ endptr then
      let penvptr := GC_GUARDED_PTR_REF (th.mem envptr)
      if ENV_IN_HEAP_P th penvptr then
        vm_make_env_alloc th cfp envptr endptr (ENV_VAL th penvptr)
      else
        match find_pcfp th.frames penvptr (th.frames.length + 1) cfp with
        | .ok pcfp =>
          match vm_make_env_each fuel th pcfp penvptr endptr with
          | .ok (th1, penvval) =>
            match th1.frames[pcfp]?, th1.frames[cfp]? with
            | some pf, some f =>
              let th2 : rb_thread_t :=
                { th1 with
                    frames := th1.frames.set cfp { f with lfp := pf.lfp },
                    mem := store th1.mem envptr (GC_GUARDED_PTR pf.dfp) }
              vm_make_env_alloc th2 cfp envptr endptr penvval
            | _, _ => .undefined
          | .rb_bug => .rb_bug
          | .undefined => .undefined
          | .out_of_fuel => .out_of_fuel
        | .rb_bug => .rb_bug
        | .undefined => .undefined
        | .out_of_fuel => .out_of_fuel
    else vm_make_env_alloc th cfp envptr endptr 0

/-- The function `rb_vm_make_env_object`. -/
def rb_vm_make_env_object (fuel : Nat) (th : rb_thread_t) (cfp : Nat) :
    Res (rb_thread_t × VALUE) :=
  match th.frames[cfp]? with
  | none => .undefined
  | some f =>
    let cfp1 := if VM_FRAME_TYPE f = VM_FRAME_MAGIC_FINISH then cfp + 1 else cfp
    match th.frames[cfp1]? with
    | none => .undefined
    | some f1 => vm_make_env_each fuel th cfp1 f1.dfp f1.lfp

/-! ## Proc: materializing closures from blocks -/

/-- Number of words of an `rb_control_frame_t` (eleven fields, see the layout
comment above `vm_exec`). -/
def CONTROL_FRAME_WORDS : Nat := 11

/-- Modelled from the spec: `RUBY_VM_END_CONTROL_FRAME(th)` of vm_core.h, the
end of the control frame array, which is the end of the thread's stack
region. -/
def RUBY_VM_END_CONTROL_FRAME (th : rb_thread_t) : Nat :=
  th.stack + SIZEOF_VALUE * th.stack_size

/-- The address of the control frame with index `i`: the frame array ends at
`RUBY_VM_END_CONTROL_FRAME(th)` and `frames.length` is its end index. -/
def cfp_addr (th : rb_thread_t) (i : Nat) : Nat :=
  RUBY_VM_END_CONTROL_FRAME th -
    SIZEOF_VALUE * CONTROL_FRAME_WORDS * (th.frames.length - i)

/-- What an `rb_block_t *` points to: the block embedded in a control frame
(its fields `self` .. `proc`) or the block embedded in a proc. -/
inductive block_ptr where
  | cfp (i : Nat)
  | proc (procval : VALUE)
  deriving DecidableEq, Repr

/-- The address of a block.  A frame's block starts at its sixth word
(`cfp[5]`, `self`); a proc's block is the first member of `rb_proc_t`, and a
proc handle is identified with the address of its struct. -/
def block_addr (th : rb_thread_t) : block_ptr → Nat
  | .cfp i => cfp_addr th i + SIZEOF_VALUE * 5
  | .proc p => p

/-- The block an address points to, if any: the inverse of `block_addr`. -/
def block_of_addr (th : rb_thread_t) (a : Nat) : Option block_ptr :=
  if (th.procs a).isSome then some (.proc a)
  else ((List.range th.frames.length).find?
      (fun i => cfp_addr th i + SIZEOF_VALUE * 5 = a)).map block_ptr.cfp

/-- Reading `*block`. -/
def block_get (th : rb_thread_t) : block_ptr → Option rb_block_t
  | .cfp i => (th.frames[i]?).map fun f =>
      { self := f.self, lfp := f.lfp, dfp := f.dfp, iseq := f.block_iseq, proc := f.proc }
  | .proc p => (th.procs p).map fun pr => pr.block

/-- The assignment `block->proc = v`. -/
def block_set_proc (th : rb_thread_t) (b : block_ptr) (v : VALUE) : rb_thread_t :=
  match b with
  | .cfp i =>
    match th.frames[i]? with
    | some f => { th with frames := th.frames.set i { f with proc := v } }
    | none => th
  | .proc p =>
    { th with procs := fun x =>
        if x = p then (th.procs p).map fun pr => { pr with block := { pr.block with proc := v } }
        else th.procs x }

/-- Modelled from the spec: `rb_proc_alloc(klass)` of proc.c obtains a fresh,
zero-filled proc object from the allocator; the handle is the frontier
address. -/
def rb_proc_alloc (th : rb_thread_t) (_klass : VALUE) : rb_thread_t × VALUE :=
  let obj := th.brk
  ({ th with
      brk := th.brk + SIZEOF_VALUE * 10,
      procs := fun v => if v = obj then
        some { block := { self := 0, lfp := 0, dfp := 0, iseq := .null, proc := 0 },
               envval := 0, blockprocval := 0, safe_level := 0,
               is_from_method := false, is_lambda := false }
        else th.procs v }, obj)

/-- The body of `vm_make_proc_from_block`, with the call of `rb_vm_make_proc`
passed in as `make_proc` (the two C functions are mutually recursive). -/
def vm_make_proc_from_block_with
    (make_proc : rb_thread_t → block_ptr → Res (rb_thread_t × VALUE))
    (th : rb_thread_t) (block : block_ptr) : Res (rb_thread_t × VALUE) :=
  match block_get th block with
  | none => .undefined
  | some b =>
    if b.proc ≠ 0 then .ok (th, b.proc)
    else
      match make_proc th block with
      | .ok (th1, proc) => .ok (block_set_proc th1 block proc, proc)
      | .rb_bug => .rb_bug
      | .undefined => .undefined
      | .out_of_fuel => .out_of_fuel

/-- The function `rb_vm_make_proc`.  The fuel bounds the recursion along the
chain of passed blocks and the promotion of the scope. -/
def rb_vm_make_proc : Nat → rb_thread_t → block_ptr → VALUE → Res (rb_thread_t × VALUE)
  | 0, _, _, _ => .out_of_fuel
  | fuel + 1, th, block, klass =>
    match block_get th block with
    | none => .undefined
    | some b =>
      if b.proc ≠ 0 then .rb_bug
      else
        match block with
        | .proc _ => .undefined
        | .cfp cfp =>
          let passed : Res (rb_thread_t × VALUE) :=
            if GC_GUARDED_PTR_REF (th.mem b.lfp) ≠ 0 then
              match block_of_addr th (GC_GUARDED_PTR_REF (th.mem b.lfp)) with
              | none => .undefined
              | some pb =>
                match vm_make_proc_from_block_with
                    (fun t bl => rb_vm_make_proc fuel t bl 0) th pb with
                | .ok (th1, blockprocval) =>
                  match th1.frames[cfp]? with
                  | none => .undefined
                  | some f1 =>
                    .ok ({ th1 with mem := store th1.mem f1.lfp (GC_GUARDED_PTR blockprocval) },
                         blockprocval)
                | .rb_bug => .rb_bug
                | .undefined => .undefined
                | .out_of_fuel => .out_of_fuel
            else .ok (th, 0)
          match passed with
          | .ok (th1, blockprocval) =>
            match rb_vm_make_env_object fuel th1 cfp with
            | .ok (th2, envval) =>
              match block_get th2 block with
              | none => .undefined
              | some b2 =>
                let (th3, procval) := rb_proc_alloc th2 klass
                let proc : rb_proc_t :=
                  { block := { self := b2.self, lfp := b2.lfp, dfp := b2.dfp, iseq := b2.iseq,
                               proc := procval },
                    envval := envval, blockprocval := blockprocval,
                    safe_level := th3.safe_level, is_from_method := false, is_lambda := false }
                .ok ({ th3 with procs := fun v => if v = procval then some proc else th3.procs v },
                     procval)
            | .rb_bug => .rb_bug
            | .undefined => .undefined
            | .out_of_fuel => .out_of_fuel
          | .rb_bug => .rb_bug
          | .undefined => .undefined
          | .out_of_fuel => .out_of_fuel

/-- The function `vm_make_proc_from_block` (it passes `rb_cProc`, whose value
plays no role here, as class). -/
def vm_make_proc_from_block (fuel : Nat) (th : rb_thread_t) (block : block_ptr) :
    Res (rb_thread_t × VALUE) :=
  vm_make_proc_from_block_with (fun t bl => rb_vm_make_proc fuel t bl 0) th block

/-! ## The unwind protocol of `vm_exec`

`vm_exec_core` is outside the sources; what is embedded is the code of
`vm_exec` from the label `exception_handler` on, as a function of the thread
state and of the local variables `state`, `err` and `escape_dfp`.  The build
option `OPT_STACK_CACHING` is off, so a caught payload is pushed on the frame's
stack.  Event hooks (`EXEC_EVENT_HOOK`) are not part of the state. -/

/-- Modelled from the spec: `vm_push_frame` of vm_insnhelper.c (not part of the
sources).  It takes the slot below `th->cfp`, fails with a stack overflow error
(`none`) when `sp + local_size` reaches that slot, nil-initializes `local_size`
words from `sp`, stores the guarded `specval` behind them, and fills the frame:
`lfp` is the given pointer, or the new scope cell if it is null; `dfp` is the
new scope cell; `sp` and `bp` start one word above it. -/
def vm_push_frame (th : rb_thread_t) (iseq : iseq_ptr) (type : Nat) (self specval : VALUE)
    (pc sp lfp : Nat) (local_size : Int) : Option rb_thread_t :=
  if th.cfp = 0 ∨ (cfp_addr th (th.cfp - 1) : Int) ≤ (sp : Int) + SIZEOF_VALUE * local_size then
    none
  else
    let n := local_size.toNat
    let m1 := (List.range n).foldl (fun m i => store m (sp + SIZEOF_VALUE * i) Qnil) th.mem
    let sp1 := sp + SIZEOF_VALUE * n
    let m2 := store m1 sp1 (GC_GUARDED_PTR specval)
    let f : rb_control_frame_t :=
      { pc := pc, sp := sp1 + SIZEOF_VALUE, bp := sp1 + SIZEOF_VALUE, iseq := iseq,
        flag := type, self := self, lfp := if lfp = 0 then sp1 else lfp, dfp := sp1,
        block_iseq := .null, proc := 0, me := 0 }
    some { th with cfp := th.cfp - 1, frames := th.frames.set (th.cfp - 1) f, mem := m2 }

/-- Modelled from the spec: `vm_pop_frame` of vm_insnhelper.c, which removes
the top frame (`th->cfp = RUBY_VM_PREVIOUS_CONTROL_FRAME(th->cfp)`). -/
def vm_pop_frame (th : rb_thread_t) : rb_thread_t :=
  { th with cfp := th.cfp + 1 }

/-- Where `vm_exec` continues after `exception_handler`: at `vm_loop_start`
(the interpreter loop resumes in `th->cfp`), at `finish_vme` (it returns
`result`), with `JUMP_TAG(state)` (the tag is re-raised to the native caller),
or with the stack overflow error raised by `vm_push_frame`. -/
inductive vm_exec_exit where
  | vm_loop_start (th : rb_thread_t)
  | finish_vme (th : rb_thread_t) (result : VALUE)
  | JUMP_TAG (th : rb_thread_t) (state : Nat)
  | sysstack_error (th : rb_thread_t)

/-- The local variables `catch_iseqval`, `cont_pc` and `cont_sp` of
`vm_exec`. -/
structure catch_vars where
  catch_iseqval : VALUE
  cont_pc : Nat
  cont_sp : Nat
  deriving DecidableEq, Repr

/-- The test `entry->start < epc && entry->end >= epc`. -/
def entry_covers (e : iseq_catch_table_entry) (epc : Nat) : Bool :=
  decide (e.start < epc) && decide (e.end_ ≥ epc)

/-- The catch table loops of `vm_exec` that look for an ensure entry only
(a return caught below the finish frame, and the final `else` branch). -/
def scan_ensure (epc : Nat) : List iseq_catch_table_entry → catch_vars → catch_vars
  | [], c => c
  | e :: es, c =>
    if entry_covers e epc then
      if e.type = CATCH_TYPE_ENSURE then ⟨e.iseq, e.cont, e.sp⟩
      else scan_ensure epc es c
    else scan_ensure epc es c

/-- The catch table loop of `vm_exec` for `state == TAG_RAISE`. -/
def scan_raise (epc : Nat) : List iseq_catch_table_entry → catch_vars → catch_vars
  | [], c => c
  | e :: es, c =>
    if entry_covers e epc then
      if e.type = CATCH_TYPE_RESCUE ∨ e.type = CATCH_TYPE_ENSURE then ⟨e.iseq, e.cont, e.sp⟩
      else scan_raise epc es c
    else scan_raise epc es c

/-- How a catch table loop that can restart the frame ends: it falls through
to the dispatch test with the catch variables, or it found the entry at which
the frame restarts. -/
inductive scan_result where
  | through (c : catch_vars)
  | restart (e : iseq_catch_table_entry)
  deriving DecidableEq, Repr

/-- The catch table loop of `vm_exec` for `state == TAG_RETRY`; `dfp` is
`cfp->dfp` and `catch_point` is `GET_THROWOBJ_CATCH_POINT(err)`. -/
def scan_retry (epc dfp catch_point : Nat) :
    List iseq_catch_table_entry → catch_vars → scan_result
  | [], c => .through c
  | e :: es, c =>
    if entry_covers e epc then
      if e.type = CATCH_TYPE_ENSURE then .through ⟨e.iseq, e.cont, e.sp⟩
      else if e.type = CATCH_TYPE_RETRY then
        if dfp = catch_point then .restart e
        else scan_retry epc dfp catch_point es c
      else scan_retry epc dfp catch_point es c
    else scan_retry epc dfp catch_point es c

/-- The catch table loop of `vm_exec` at `search_restart_point`, looking for
an ensure entry or an entry of kind `type`. -/
def scan_restart (epc type : Nat) : List iseq_catch_table_entry → catch_vars → scan_result
  | [], c => .through c
  | e :: es, c =>
    if entry_covers e epc then
      if e.type = CATCH_TYPE_ENSURE then .through ⟨e.iseq, e.cont, e.sp⟩
      else if e.type = type then .restart e
      else scan_restart epc type es c
    else scan_restart epc type es c

/-- The loop `while (th->cfp->pc == 0 || th->cfp->iseq == 0) th->cfp =
RUBY_VM_PREVIOUS_CONTROL_FRAME(th->cfp)` at `exception_handler`.  Reading past
the end of the frame array is undefined (`none`). -/
def skip_frames : Nat → rb_thread_t → Option rb_thread_t
  | 0, _ => none
  | fuel + 1, th =>
    match th.frames[th.cfp]? with
    | none => none
    | some f =>
      if f.pc = 0 ∨ f.iseq = .null then skip_frames fuel { th with cfp := th.cfp + 1 }
      else some th

/-- The outcome of the first part of the handler, the block `if (state ==
TAG_BREAK || state == TAG_RETURN)`: it leaves `vm_exec`'s handler, or falls
through with the thread, `state`, `escape_dfp` and the catch variables. -/
inductive caught_result where
  | exit (e : vm_exec_exit)
  | through (th : rb_thread_t) (state : Nat) (escape_dfp : Nat) (c : catch_vars)

/-- The block `if (state == TAG_BREAK || state == TAG_RETURN) { ... }` of
`vm_exec` at the frame `f = th->cfp` with instruction sequence `iseq`. -/
def handle_break_return (th : rb_thread_t) (f : rb_control_frame_t) (iseq : rb_iseq_t)
    (epc state : Nat) (err : VALUE) (escape_dfp : Nat) : Res caught_result :=
  if state = TAG_BREAK ∨ state = TAG_RETURN then
    let escape_dfp := (th.throwobjs err).catch_point
    if f.dfp = escape_dfp then
      if state = TAG_RETURN then
        match th.frames[th.cfp + 1]? with
        | none => .undefined
        | some pf =>
          if pf.pc ≠ th.finish_insn_seq then
            let th1 : rb_thread_t :=
              { th with throwobjs := fun v =>
                  if v = err then
                    { (th.throwobjs err) with catch_point := pf.dfp, state := TAG_BREAK }
                  else th.throwobjs v }
            .ok (.through th1 TAG_BREAK escape_dfp ⟨0, 0, 0⟩)
          else
            let c := scan_ensure epc iseq.catch_table ⟨0, 0, 0⟩
            if c.catch_iseqval = 0 then
              .ok (.exit (.finish_vme { th with errinfo := Qnil, cfp := th.cfp + 2 }
                (th.throwobjs err).val))
            else .ok (.through th state escape_dfp c)
      else
        .ok (.exit (.vm_loop_start
          { th with
              mem := store th.mem f.sp (th.throwobjs err).val,
              frames := th.frames.set th.cfp { f with sp := f.sp + SIZEOF_VALUE },
              errinfo := Qnil }))
    else .ok (.through th state escape_dfp ⟨0, 0, 0⟩)
  else .ok (.through th state escape_dfp ⟨0, 0, 0⟩)

/-- The chain `if (state == TAG_RAISE) ... else if (state == TAG_RETRY) ...
else ...` of catch table lookups in `vm_exec`. -/
def catch_table_lookup (th : rb_thread_t) (f : rb_control_frame_t) (iseq : rb_iseq_t)
    (epc state : Nat) (err : VALUE) (escape_dfp : Nat) (c : catch_vars) : scan_result :=
  if state = TAG_RAISE then .through (scan_raise epc iseq.catch_table c)
  else if state = TAG_RETRY then
    scan_retry epc f.dfp (th.throwobjs err).catch_point iseq.catch_table c
  else if state = TAG_BREAK ∧ escape_dfp - escape_dfp % 4 = 0 then
    scan_restart epc CATCH_TYPE_BREAK iseq.catch_table c
  else if state = TAG_REDO then scan_restart epc CATCH_TYPE_REDO iseq.catch_table c
  else if state = TAG_NEXT then scan_restart epc CATCH_TYPE_NEXT iseq.catch_table c
  else .through (scan_ensure epc iseq.catch_table c)

/-- The frame restart of `vm_exec` at a matching entry: for a retry only the
`pc` is set; otherwise `pc` and `sp` are set and the payload is pushed unless
the state is redo.  The pending error is cleared. -/
def restart_frame (th : rb_thread_t) (f : rb_control_frame_t) (iseq : rb_iseq_t)
    (state : Nat) (err : VALUE) (e : iseq_catch_table_entry) : rb_thread_t :=
  if state = TAG_RETRY then
    { th with
        frames := th.frames.set th.cfp
          { f with pc := iseq.iseq_encoded + SIZEOF_VALUE * e.cont },
        errinfo := Qnil }
  else if state ≠ TAG_REDO then
    { th with
        mem := store th.mem (f.bp + SIZEOF_VALUE * e.sp) (th.throwobjs err).val,
        frames := th.frames.set th.cfp
          { f with pc := iseq.iseq_encoded + SIZEOF_VALUE * e.cont,
                   sp := f.bp + SIZEOF_VALUE * e.sp + SIZEOF_VALUE },
        errinfo := Qnil }
  else
    { th with
        frames := th.frames.set th.cfp
          { f with pc := iseq.iseq_encoded + SIZEOF_VALUE * e.cont,
                   sp := f.bp + SIZEOF_VALUE * e.sp },
        errinfo := Qnil }

/-- One pass of `vm_exec` from `exception_handler` to one of its jumps: it
leaves the handler, or jumps back to `exception_handler` with a new thread
state and new values of `state` and `escape_dfp`. -/
inductive handler_step where
  | exit (e : vm_exec_exit)
  | again (th : rb_thread_t) (state : Nat) (escape_dfp : Nat)

/-- The branch `if (catch_iseqval != 0)` of `vm_exec`: enter the catch scope
and push a block frame that runs the handler. -/
def dispatch_handler (th : rb_thread_t) (f : rb_control_frame_t) (iseq : rb_iseq_t)
    (err : VALUE) (c : catch_vars) : Res handler_step :=
  match th.iseqs c.catch_iseqval with
  | none => .undefined
  | some catch_iseq =>
    let f1 : rb_control_frame_t :=
      { f with sp := f.bp + SIZEOF_VALUE * c.cont_sp,
               pc := iseq.iseq_encoded + SIZEOF_VALUE * c.cont_pc }
    let th1 : rb_thread_t :=
      { th with frames := th.frames.set th.cfp f1, mem := store th.mem f1.sp err }
    match vm_push_frame th1 (.iseq catch_iseq) VM_FRAME_MAGIC_BLOCK f1.self f1.dfp
        catch_iseq.iseq_encoded (f1.sp + SIZEOF_VALUE) f1.lfp
        ((catch_iseq.local_size : Int) - 1) with
    | none => .ok (.exit (.sysstack_error th1))
    | some th2 => .ok (.exit (.vm_loop_start { th2 with state := 0, errinfo := Qnil }))

/-- The branch `/* skip frame */` of `vm_exec`: step to the previous frame;
unless it is the finish frame, unwinding goes on there, otherwise the finish
frame is popped and the tag is re-raised to the native caller. -/
def skip_frame (th : rb_thread_t) (state : Nat) (err : VALUE) (escape_dfp : Nat) :
    Res handler_step :=
  let th1 : rb_thread_t := { th with cfp := th.cfp + 1 }
  match th1.frames[th1.cfp]? with
  | none => .undefined
  | some pf =>
    if VM_FRAME_TYPE pf ≠ VM_FRAME_MAGIC_FINISH then .ok (.again th1 state escape_dfp)
    else .ok (.exit (.JUMP_TAG { vm_pop_frame th1 with errinfo := err } state))

/-- The code of `vm_exec` between the frame skipping loop and the next jump,
at the frame `f = th->cfp` with instruction sequence `iseq`. -/
def handle_frame (th : rb_thread_t) (f : rb_control_frame_t) (iseq : rb_iseq_t)
    (state : Nat) (err : VALUE) (escape_dfp : Nat) : Res handler_step :=
  let epc := (f.pc - iseq.iseq_encoded) / SIZEOF_VALUE
  match handle_break_return th f iseq epc state err escape_dfp with
  | .ok (.exit e) => .ok (.exit e)
  | .ok (.through th1 state1 escape_dfp1 c) =>
    match catch_table_lookup th1 f iseq epc state1 err escape_dfp1 c with
    | .restart e =>
      .ok (.exit (.vm_loop_start (restart_frame th1 f iseq state1 err e)))
    | .through c1 =>
      if c1.catch_iseqval ≠ 0 then dispatch_handler th1 f iseq err c1
      else skip_frame th1 state1 err escape_dfp1
  | .rb_bug => .rb_bug
  | .undefined => .undefined
  | .out_of_fuel => .out_of_fuel

/-- One pass of `vm_exec` from the label `exception_handler`: skip the frames
without a live `pc` or without an instruction sequence, then handle the unwind
at the frame reached.  Reading the fields of an ifunc node as an instruction
sequence is undefined. -/
def exception_handler_pass (th0 : rb_thread_t) (state : Nat) (err : VALUE)
    (escape_dfp : Nat) : Res handler_step :=
  match skip_frames (th0.frames.length + 1) th0 with
  | none => .undefined
  | some th =>
    match th.frames[th.cfp]? with
    | none => .undefined
    | some f =>
      match f.iseq with
      | .iseq iseq => handle_frame th f iseq state err escape_dfp
      | _ => .undefined

/-- The code of `vm_exec` from the label `exception_handler` on, iterating the
passes until the handler is left.  Each further pass starts at an older frame,
so `frames.length + 1` passes always suffice. -/
def exception_handler : Nat → rb_thread_t → Nat → VALUE → Nat → Res vm_exec_exit
  | 0, _, _, _, _ => .out_of_fuel
  | fuel + 1, th, state, err, escape_dfp =>
    match exception_handler_pass th state err escape_dfp with
    | .ok (.exit e) => .ok e
    | .ok (.again th1 state1 escape_dfp1) => exception_handler fuel th1 state1 err escape_dfp1
    | .rb_bug => .rb_bug
    | .undefined => .undefined
    | .out_of_fuel => .out_of_fuel

/-! ## Jumps: local jump errors, `yield` and protected proc calls -/

/-- Modelled from the spec: what `rb_iv_set` stores in an instance variable here:
a plain `VALUE`, or the symbol `ID2SYM(id)` of the identifier with the given
name. -/
inductive ivar_value where
  | value (v : VALUE)
  | sym (name : String)
  deriving DecidableEq, Repr

/-- Modelled from the spec: an exception object of the object runtime as far as
vm.c builds it: its class, its message and its instance variables. -/
structure rb_exc where
  klass : String
  mesg : String
  ivars : List (String × ivar_value)
  deriving DecidableEq, Repr

/-- Modelled from the spec: the class `rb_eLocalJumpError` of the object
runtime. -/
def rb_eLocalJumpError : String := "LocalJumpError"

/-- Modelled from the spec: `rb_exc_new2(klass, mesg)` of error.c makes an
exception of class `klass` with message `mesg`. -/
def rb_exc_new2 (klass mesg : String) : rb_exc :=
  { klass := klass, mesg := mesg, ivars := [] }

/-- Modelled from the spec: `rb_iv_set(obj, name, val)` of variable.c sets the
instance variable `name`, replacing an earlier value. -/
def rb_iv_set (exc : rb_exc) (name : String) (val : ivar_value) : rb_exc :=
  { exc with ivars := (name, val) :: exc.ivars.filter (fun p => p.1 != name) }

/-- Modelled from the spec: `rb_iv_get(obj, name)` of variable.c reads the
instance variable `name`. -/
def rb_iv_get (exc : rb_exc) (name : String) : Option ivar_value :=
  (exc.ivars.find? (fun p => p.1 == name)).map Prod.snd

/-- A `VALUE` that vm.c hands to `rb_exc_raise` or returns as an error: a plain
word such as `Qnil`, or a reference to an exception object. -/
inductive error_value where
  | value (v : VALUE)
  | exc (e : rb_exc)
  deriving DecidableEq, Repr

/-- How a function that does not return leaves: through `rb_exc_raise(exc)`, the
raise path of the object runtime, or through `JUMP_TAG(state)`, which throws the
raw tag. -/
inductive jump where
  | rb_exc_raise (exc : error_value)
  | JUMP_TAG (state : Nat)
  deriving DecidableEq, Repr

/-- The function `make_localjump_error`. -/
def make_localjump_error (mesg : String) (value : VALUE) (reason : Nat) : rb_exc :=
  let exc := rb_exc_new2 rb_eLocalJumpError mesg
  let id : String :=
    if reason = TAG_BREAK then "break"
    else if reason = TAG_REDO then "redo"
    else if reason = TAG_RETRY then "retry"
    else if reason = TAG_NEXT then "next"
    else if reason = TAG_RETURN then "return"
    else "noreason"
  let exc1 := rb_iv_set exc "@exit_value" (.value value)
  rb_iv_set exc1 "@reason" (.sym id)

/-- The function `rb_vm_localjump_error`. -/
def rb_vm_localjump_error (mesg : String) (value : VALUE) (reason : Nat) : jump :=
  .rb_exc_raise (.exc (make_localjump_error mesg value reason))

/-- The function `rb_vm_make_jump_tag_but_local_jump`; `retval` is the value of
`GET_THREAD()->tag->retval`. -/
def rb_vm_make_jump_tag_but_local_jump (retval : VALUE) (state : Nat) (val : VALUE) :
    error_value :=
  let val := if val = Qundef then retval else val
  if state = 0 then .value Qnil
  else if state = TAG_RETURN then .exc (make_localjump_error "unexpected return" val state)
  else if state = TAG_BREAK then .exc (make_localjump_error "unexpected break" val state)
  else if state = TAG_NEXT then .exc (make_localjump_error "unexpected next" val state)
  else if state = TAG_REDO then .exc (make_localjump_error "unexpected redo" Qnil state)
  else if state = TAG_RETRY then
    .exc (make_localjump_error "retry outside of rescue clause" Qnil state)
  else .value Qnil

/-- The function `rb_vm_jump_tag_but_local_jump`. -/
def rb_vm_jump_tag_but_local_jump (retval : VALUE) (state : Nat) (val : VALUE) : jump :=
  if val ≠ Qnil then .rb_exc_raise (rb_vm_make_jump_tag_but_local_jump retval state val)
  else .JUMP_TAG state

/-- How a call made inside a protected region `if ((state = EXEC_TAG()) == 0)
{ ... }` ends, with the thread state it leaves behind: the call returns a
value, or a tag is thrown to the region (by `JUMP_TAG` or by a raise) and
`EXEC_TAG()` yields it as `state`. -/
inductive call_result where
  | returned (th : rb_thread_t) (val : VALUE)
  | thrown (th : rb_thread_t) (state : Nat)

/-- The thread state a call leaves behind. -/
def call_result.thread : call_result → rb_thread_t
  | .returned th _ => th
  | .thrown th _ => th

/-- The behaviour of `invoke_block_from_c(th, block, self, argc, argv, blockptr,
cref)`.  The function runs the block through `vm_exec`, whose interpreter loop
`vm_exec_core` is outside the sources, so the functions that call it take its
behaviour as a parameter: any function of the thread state and the
arguments. -/
abbrev block_invoker : Type :=
  rb_thread_t → block_ptr → VALUE → List VALUE → Option block_ptr → Nat → call_result

/-- What `check_block` does: it returns the block pointer or leaves through
`rb_vm_localjump_error`. -/
inductive checked_block where
  | blockptr (p : Nat)
  | raised (j : jump)
  deriving DecidableEq, Repr

/-- The function `check_block`.  Reading `th->cfp` outside the frame array is
undefined. -/
def check_block (th : rb_thread_t) : Res checked_block :=
  match th.frames[th.cfp]? with
  | none => .undefined
  | some f =>
    let blockptr := GC_GUARDED_PTR_REF (th.mem f.lfp)
    if blockptr = 0 then .ok (.raised (rb_vm_localjump_error "no block given" Qnil 0))
    else .ok (.blockptr blockptr)

/-- How `vm_yield` ends: `check_block` raised with the thread as it was, or the
block was invoked. -/
inductive yield_result where
  | raised (th : rb_thread_t) (j : jump)
  | invoked (r : call_result)

/-- The function `vm_yield_with_cref`.  A block pointer that points to no block
is undefined. -/
def vm_yield_with_cref (invoke_block_from_c : block_invoker) (th : rb_thread_t)
    (argv : List VALUE) (cref : Nat) : Res yield_result :=
  match check_block th with
  | .ok (.raised j) => .ok (.raised th j)
  | .ok (.blockptr p) =>
    match block_of_addr th p with
    | none => .undefined
    | some blockptr =>
      match block_get th blockptr with
      | none => .undefined
      | some b => .ok (.invoked (invoke_block_from_c th blockptr b.self argv none cref))
  | .rb_bug => .rb_bug
  | .undefined => .undefined
  | .out_of_fuel => .out_of_fuel

/-- The function `vm_yield`. -/
def vm_yield (invoke_block_from_c : block_invoker) (th : rb_thread_t) (argv : List VALUE) :
    Res yield_result :=
  match check_block th with
  | .ok (.raised j) => .ok (.raised th j)
  | .ok (.blockptr p) =>
    match block_of_addr th p with
    | none => .undefined
    | some blockptr =>
      match block_get th blockptr with
      | none => .undefined
      | some b => .ok (.invoked (invoke_block_from_c th blockptr b.self argv none 0))
  | .rb_bug => .rb_bug
  | .undefined => .undefined
  | .out_of_fuel => .out_of_fuel

/-- The function `rb_vm_invoke_proc`; `procval` is the handle of `proc`.  The
result is a return with `val`, or `JUMP_TAG(state)` (`thrown`). -/
def rb_vm_invoke_proc (invoke_block_from_c : block_invoker) (th : rb_thread_t)
    (procval : VALUE) (self : VALUE) (argv : List VALUE) (blockptr : Option block_ptr) :
    Res call_result :=
  match th.procs procval with
  | none => .undefined
  | some proc =>
    let stored_safe := th.safe_level
    let th1 : rb_thread_t :=
      if !proc.is_from_method then { th with safe_level := proc.safe_level } else th
    let r := invoke_block_from_c th1 (.proc procval) self argv blockptr 0
    match r.thread.procs procval with
    | none => .undefined
    | some proc2 =>
      let th2 : rb_thread_t :=
        if !proc2.is_from_method then { r.thread with safe_level := stored_safe } else r.thread
      match r with
      | .returned _ val => .ok (.returned th2 val)
      | .thrown _ state => if state ≠ 0 then .ok (.thrown th2 state) else .ok (.returned th2 Qundef)

/-! ## Frame walks: the Ruby-level frame, special variables, source lines -/

/-- Modelled from the spec: `RUBY_VM_CONTROL_FRAME_STACK_OVERFLOW_P(th, cfp)` of
vm_core.h, true iff `cfp` is not below `RUBY_VM_END_CONTROL_FRAME(th)`, the end
of the frame array. -/
def RUBY_VM_CONTROL_FRAME_STACK_OVERFLOW_P (th : rb_thread_t) (cfp : Nat) : Bool :=
  decide (th.frames.length ≤ cfp)

/-- The function `rb_vm_get_ruby_level_next_cfp`; `none` is the null pointer.
Each turn of the loop steps to the previous frame, hence the fuel. -/
def rb_vm_get_ruby_level_next_cfp : Nat → rb_thread_t → Nat → Res (Option Nat)
  | 0, _, _ => .out_of_fuel
  | fuel + 1, th, cfp =>
    if RUBY_VM_CONTROL_FRAME_STACK_OVERFLOW_P th cfp then .ok none
    else
      match th.frames[cfp]? with
      | none => .undefined
      | some f =>
        if RUBY_VM_NORMAL_ISEQ_P f.iseq then .ok (some cfp)
        else rb_vm_get_ruby_level_next_cfp fuel th (cfp + 1)

/-- The loop `for (i = 1; i < iseq->insn_info_size; i++)` of
`rb_vm_get_sourceline` from index `i` on, with the assignment after it.  `pos`
is a `size_t`; a table position is an unsigned short and equals it only if the
two are the same number.  Reading outside the table is undefined. -/
def sourceline_scan (tbl : List iseq_insn_info_entry) (pos : Int) : Nat → Nat → Res Nat
  | 0, _ => .out_of_fuel
  | fuel + 1, i =>
    if i < tbl.length then
      match tbl[i]? with
      | none => .undefined
      | some e =>
        if (e.position : Int) = pos then
          match tbl[i - 1]? with
          | none => .undefined
          | some p => .ok p.line_no
        else sourceline_scan tbl pos fuel (i + 1)
    else
      match tbl[i - 1]? with
      | none => .undefined
      | some p => .ok p.line_no

/-- The pointer difference `cfp->pc - cfp->iseq->iseq_encoded`, in words. -/
def pc_offset (f : rb_control_frame_t) (iseq : rb_iseq_t) : Int :=
  ((f.pc : Int) - (iseq.iseq_encoded : Int)) / (SIZEOF_VALUE : Int)

/-- The function `rb_vm_get_sourceline`.  The loop runs at most
`insn_info_size` times. -/
def rb_vm_get_sourceline (f : rb_control_frame_t) : Res Nat :=
  match f.iseq with
  | .iseq iseq =>
    if 0 < iseq.insn_info_table.length then
      match iseq.insn_info_table[0]? with
      | none => .undefined
      | some e0 =>
        if (e0.position : Int) = pc_offset f iseq then .ok 0
        else sourceline_scan iseq.insn_info_table (pc_offset f iseq)
          iseq.insn_info_table.length 1
    else .ok 0
  | _ => .ok 0

/-- The function `rb_sourcefile`, for the thread `GET_THREAD()`; the result 0
is the null pointer.  `RSTRING_PTR` of ruby.h, the address of the bytes of a
string, is not part of the sources and is passed in. -/
def rb_sourcefile (RSTRING_PTR : VALUE → Nat) (fuel : Nat) (th : rb_thread_t) : Res Nat :=
  match rb_vm_get_ruby_level_next_cfp fuel th th.cfp with
  | .ok (some cfp) =>
    match th.frames[cfp]? with
    | some f =>
      match f.iseq with
      | .iseq iseq => .ok (RSTRING_PTR iseq.filename)
      | _ => .undefined
    | none => .undefined
  | .ok none => .ok 0
  | .rb_bug => .rb_bug
  | .undefined => .undefined
  | .out_of_fuel => .out_of_fuel

/-- The function `rb_sourceline`, for the thread `GET_THREAD()`. -/
def rb_sourceline (fuel : Nat) (th : rb_thread_t) : Res Nat :=
  match rb_vm_get_ruby_level_next_cfp fuel th th.cfp with
  | .ok (some cfp) =>
    match th.frames[cfp]? with
    | some f => rb_vm_get_sourceline f
    | none => .undefined
  | .ok none => .ok 0
  | .rb_bug => .rb_bug
  | .undefined => .undefined
  | .out_of_fuel => .out_of_fuel

/-- Modelled from the spec: `ISEQ_TYPE_TOP`, the first member of
`enum iseq_type` of vm_core.h. -/
def ISEQ_TYPE_TOP : Nat := 0

/-- Modelled from the spec: `sizeof(rb_control_frame_t)`, eleven words. -/
def SIZEOF_CONTROL_FRAME : Nat := SIZEOF_VALUE * CONTROL_FRAME_WORDS

/-- Modelled from the spec: the test of `CHECK_STACK_OVERFLOW(cfp, margin)` of
vm_core.h, `(VALUE *)((char *)(cfp->sp + margin) + sizeof(rb_control_frame_t))
>= (VALUE *)cfp`; the macro raises the stack overflow error when it holds. -/
def CHECK_STACK_OVERFLOW (th : rb_thread_t) (f : rb_control_frame_t) (margin : Nat) : Bool :=
  decide (cfp_addr th th.cfp ≤ f.sp + SIZEOF_VALUE * margin + SIZEOF_CONTROL_FRAME)

/-- How a function that can raise ends: it returns, or it raises an exception
of the named class (`rb_raise`, `rb_exc_raise`); the thread is as the function
left it. -/
inductive raise_result where
  | returned (th : rb_thread_t)
  | raised (klass : String) (mesg : String) (th : rb_thread_t)

/-- The function `rb_vm_set_finish_env`; `none` is the stack overflow error of
`vm_push_frame`. -/
def rb_vm_set_finish_env (th : rb_thread_t) : Res (Option rb_thread_t) :=
  match th.frames[th.cfp]? with
  | none => .undefined
  | some f =>
    match vm_push_frame th .null VM_FRAME_MAGIC_FINISH Qnil (th.mem f.lfp) 0 f.sp 0 1 with
    | none => .ok none
    | some th1 =>
      match th1.frames[th1.cfp]? with
      | none => .undefined
      | some f1 =>
        .ok (some { th1 with frames := th1.frames.set th1.cfp { f1 with pc := th1.finish_insn_seq } })

/-- The function `vm_set_top_stack`. -/
def vm_set_top_stack (th : rb_thread_t) (iseqval : VALUE) : Res raise_result :=
  match th.iseqs iseqval with
  | none => .undefined
  | some iseq =>
    if iseq.type ≠ ISEQ_TYPE_TOP then
      .ok (.raised "TypeError" "Not a toplevel InstructionSequence" th)
    else
      match rb_vm_set_finish_env th with
      | .ok none => .ok (.raised "SystemStackError" "stack level too deep" th)
      | .ok (some th1) =>
        match th1.frames[th1.cfp]? with
        | none => .undefined
        | some f1 =>
          match vm_push_frame th1 (.iseq iseq) VM_FRAME_MAGIC_TOP th1.top_self 0
              iseq.iseq_encoded f1.sp 0 iseq.local_size with
          | none => .ok (.raised "SystemStackError" "stack level too deep" th1)
          | some th2 =>
            match th2.frames[th2.cfp]? with
            | none => .undefined
            | some f2 =>
              if CHECK_STACK_OVERFLOW th2 f2 iseq.stack_max then
                .ok (.raised "SystemStackError" "stack level too deep" th2)
              else .ok (.returned th2)
      | .rb_bug => .rb_bug
      | .undefined => .undefined
      | .out_of_fuel => .out_of_fuel

/-! ## VM-specific storage and the pool of recycled stacks -/

/-- Modelled from the spec: the value of an `int` expression whose mathematical
value is `x`, on a machine with 32-bit two's complement `int`. -/
def int_wrap (x : Int) : Int := (x + 2 ^ 31) % 2 ^ 32 - 2 ^ 31

/-- The expression `x & ~7` on two's complement integers. -/
def and_not_7 (x : Int) : Int := x - x % 8

/-- The member `specific_storage` of `rb_vm_t` with the array it points to:
`ptr` (0 is the null pointer), `len`, and the words `ptr[0]`, `ptr[1]`, ... -/
structure specific_storage where
  ptr : Nat
  len : Int
  slots : Nat → VALUE

/-- The function `rb_vm_specific_ptr_for_specific_vm`; it returns the storage
and the address `&ptr[key]`.  Modelled from the spec: `realloc` returns the
block at `newptr`, which starts with the words of the old block and goes on
with the indeterminate words `junk`; `MEMZERO` with a negative count or a start
before the block is undefined. -/
def rb_vm_specific_ptr_for_specific_vm (newptr : Nat) (junk : Nat → VALUE)
    (st : specific_storage) (key : Int) : Res (specific_storage × Int) :=
  if st.ptr = 0 ∨ st.len ≤ key then
    let newlen : Int := and_not_7 (int_wrap (key + 8))
    let slots1 : Nat → VALUE := fun i =>
      if st.ptr ≠ 0 ∧ (i : Int) < st.len ∧ (i : Int) < newlen then st.slots i else junk i
    if st.len < 0 ∨ newlen - st.len < 0 then .undefined
    else
      .ok ({ ptr := newptr, len := newlen,
             slots := fun i => if st.len ≤ (i : Int) ∧ (i : Int) < newlen then 0 else slots1 i },
           (newptr : Int) + (SIZEOF_VALUE : Int) * key)
  else .ok (st, (st.ptr : Int) + (SIZEOF_VALUE : Int) * key)

/-- The constant `RECYCLE_MAX`. -/
def RECYCLE_MAX : Nat := 64

/-- The static variables `thread_recycle_stack_slot` and
`thread_recycle_stack_count`. -/
structure recycle_pool where
  thread_recycle_stack_slot : List VALUE
  thread_recycle_stack_count : Int

/-- The function `thread_recycle_stack`; it returns the stack.  `malloc` is
passed in.  An index outside the array is undefined. -/
def thread_recycle_stack (malloc : Nat → VALUE) (pool : recycle_pool) (size : Nat) :
    Res (recycle_pool × VALUE) :=
  if pool.thread_recycle_stack_count ≠ 0 then
    let count := pool.thread_recycle_stack_count - 1
    if count < 0 then .undefined
    else
      match pool.thread_recycle_stack_slot[count.toNat]? with
      | none => .undefined
      | some stack => .ok ({ pool with thread_recycle_stack_count := count }, stack)
  else .ok (pool, malloc (SIZEOF_VALUE * size))

/-- The function `rb_thread_recycle_stack_release`; it returns the pool and
whether the stack was freed.  An index outside the array is undefined. -/
def rb_thread_recycle_stack_release (pool : recycle_pool) (stack : VALUE) :
    Res (recycle_pool × Bool) :=
  if pool.thread_recycle_stack_count < RECYCLE_MAX then
    if pool.thread_recycle_stack_count < 0 ∨
        pool.thread_recycle_stack_slot.length ≤ pool.thread_recycle_stack_count.toNat then
      .undefined
    else
      .ok ({ thread_recycle_stack_slot :=
               pool.thread_recycle_stack_slot.set pool.thread_recycle_stack_count.toNat stack,
             thread_recycle_stack_count := pool.thread_recycle_stack_count + 1 }, false)
  else .ok (pool, true)

/-! ## Definitions used in the statements -/

/-- A frame with its two scope pointers erased. -/
def erase_ptrs (f : rb_control_frame_t) : rb_control_frame_t :=
  { f with lfp := 0, dfp := 0 }

/-- What promotion may change between two thread states: the stack bounds stay,
the heap frontier only grows, frames change only in `lfp`/`dfp`, a changed `dfp`
points into memory allocated since, and words below the old frontier that no
frame's `dfp` addressed keep their value. -/
structure env_each_post (th th' : rb_thread_t) : Prop where
  stack : th'.stack = th.stack
  size : th'.stack_size = th.stack_size
  brk : th.brk ≤ th'.brk
  shape : th'.frames.map erase_ptrs = th.frames.map erase_ptrs
  dfp : ∀ (i : Nat) (f' : rb_control_frame_t), th'.frames[i]? = some f' →
    ∃ f : rb_control_frame_t, th.frames[i]? = some f ∧ (f'.dfp = f.dfp ∨ th.brk ≤ f'.dfp)
  mem : ∀ a, a < th.brk → (∀ f ∈ th.frames, f.dfp ≠ a) → th'.mem a = th.mem a

/-- The lexical chains of a thread are well formed: the previous-scope pointer
of every stack-resident block-level scope (`dfp != lfp`) is in the heap, or is
the `dfp` of an older frame with the same `lfp`, the frames in between having
other, non-null `dfp`s. -/
def lexical_chain_ok (th : rb_thread_t) : Prop :=
  ∀ (i : Nat) (f : rb_control_frame_t), th.frames[i]? = some f →
    ENV_IN_HEAP_P th f.dfp = false → f.dfp ≠ f.lfp →
    ENV_IN_HEAP_P th (GC_GUARDED_PTR_REF (th.mem f.dfp)) = true ∨
    ∃ (j : Nat) (g : rb_control_frame_t), i < j ∧ th.frames[j]? = some g ∧
      g.dfp = GC_GUARDED_PTR_REF (th.mem f.dfp) ∧ g.lfp = f.lfp ∧
      (∀ (k : Nat) (h : rb_control_frame_t), i ≤ k → k < j → th.frames[k]? = some h →
        h.dfp ≠ GC_GUARDED_PTR_REF (th.mem f.dfp)) ∧
      (∀ (k : Nat) (h : rb_control_frame_t), i < k → k ≤ j → th.frames[k]? = some h →
        h.dfp ≠ 0)

/-- The value of a result, or `d` when there is none. -/
def Res.getD {α : Type} (r : Res α) (d : α) : α :=
  match r with
  | .ok a => a
  | _ => d

/-- An instruction sequence with `ls` locals and an empty catch table. -/
def sample_iseq (ls : Nat) : rb_iseq_t :=
  { type := 0, local_size := ls, stack_max := 4, iseq_encoded := 96, catch_table := [],
    insn_info_table := [] }

/-- A frame of kind `magic` running `sample_iseq ls` with the given scope
pointers. -/
def sample_frame (magic dfp lfp ls : Nat) : rb_control_frame_t :=
  { pc := 104, sp := dfp + 8, bp := dfp + 8, iseq := .iseq (sample_iseq ls), flag := magic,
    self := 77, lfp := lfp, dfp := dfp, block_iseq := .null, proc := 0, me := 0 }

/-- A thread with a block frame (two locals, scope at 1080) on top of a method
frame (two locals, scope at 1040); the value stack is `[1000, 1800)` and the
heap starts at 2000. -/
def sample_thread : rb_thread_t :=
  { stack := 1000, stack_size := 100, cfp := 0,
    frames := [sample_frame VM_FRAME_MAGIC_BLOCK 1080 1040 2,
               sample_frame VM_FRAME_MAGIC_METHOD 1040 1040 2],
    state := 0, errinfo := Qnil, safe_level := 0,
    mem := fun a => if a = 1080 then 1041 else if a = 1064 then 11 else if a = 1072 then 12
      else if a = 1024 then 21 else if a = 1032 then 22 else 0,
    envs := fun _ => none, procs := fun _ => none, throwobjs := fun _ => ⟨0, 0, 0⟩,
    iseqs := fun _ => none, brk := 2000, finish_insn_seq := 8 }

/-- The state and the handle after promoting the scope of the block frame of
`sample_thread`. -/
def sample_promoted : rb_thread_t × VALUE :=
  (rb_vm_make_env_object 2 sample_thread 0).getD (sample_thread, 0)

/-- Unwinding from `th->cfp` stops at the frame with index `F`: every frame from
`th->cfp` up to `F` has no live `pc` or no instruction sequence, and `F` is the
frame `f`, which has both. -/
def unwinding_stops_at (th : rb_thread_t) (F : Nat) (f : rb_control_frame_t) : Prop :=
  th.cfp ≤ F ∧
  (∀ i, th.cfp ≤ i → i < F →
    ∃ g : rb_control_frame_t, th.frames[i]? = some g ∧ (g.pc = 0 ∨ g.iseq = .null)) ∧
  th.frames[F]? = some f ∧ f.pc ≠ 0 ∧ f.iseq ≠ .null

/-- A live frame of kind `magic` at instruction offset 3 (`pc = iseq_encoded +
3` words) with catch table `tbl`. -/
def unwind_frame (magic dfp lfp : Nat) (tbl : List iseq_catch_table_entry) :
    rb_control_frame_t :=
  { pc := 120, sp := dfp + 16, bp := dfp + 8,
    iseq := .iseq { type := 0, local_size := 1, stack_max := 4, iseq_encoded := 96,
                    catch_table := tbl, insn_info_table := [] },
    flag := magic, self := 77, lfp := lfp, dfp := dfp, block_iseq := .null, proc := 0, me := 0 }

/-- A finish frame as `rb_vm_set_finish_env` pushes it: no instruction
sequence, `pc` at the finish instruction. -/
def finish_frame (sp : Nat) : rb_control_frame_t :=
  { pc := 8, sp := sp, bp := sp, iseq := .null, flag := VM_FRAME_MAGIC_FINISH, self := Qnil,
    lfp := sp - 8, dfp := sp - 8, block_iseq := .null, proc := 0, me := 0 }

/-- An unused slot of the control frame array. -/
def free_frame : rb_control_frame_t :=
  { pc := 0, sp := 0, bp := 0, iseq := .null, flag := 0, self := 0, lfp := 0, dfp := 0,
    block_iseq := .null, proc := 0, me := 0 }

/-- A thread with the given frame array whose current frame is at index 1 and
whose pending error value 500 is the throw object `t`. -/
def unwind_thread (frames : List rb_control_frame_t) (t : throw_object) : rb_thread_t :=
  { stack := 1000, stack_size := 200, cfp := 1, frames := frames,
    state := 0, errinfo := 500, safe_level := 0,
    mem := fun _ => 0, envs := fun _ => none, procs := fun _ => none,
    throwobjs := fun v => if v = 500 then t else ⟨0, 0, 0⟩,
    iseqs := fun _ => none,
    brk := 8000, finish_insn_seq := 8 }

/-- The frames of `def m; helper { helper { return 42 } }; end` while the inner
block runs: two block frames of `m` (scopes at 1280 and 1200, indices 1 and 3),
each above the frame of the `helper` that yields to it (indices 2 and 4), the
method frame of `m` (scope at 1120, index 5), its caller (scope at 1080), a
finish frame and the top frame. -/
def nested_frames : List rb_control_frame_t :=
  [free_frame,
   unwind_frame VM_FRAME_MAGIC_BLOCK 1280 1120 [],
   unwind_frame VM_FRAME_MAGIC_METHOD 1240 1240 [],
   unwind_frame VM_FRAME_MAGIC_BLOCK 1200 1120 [],
   unwind_frame VM_FRAME_MAGIC_METHOD 1160 1160 [],
   unwind_frame VM_FRAME_MAGIC_METHOD 1120 1120 [],
   unwind_frame VM_FRAME_MAGIC_METHOD 1080 1080 [],
   finish_frame 1064,
   unwind_frame VM_FRAME_MAGIC_TOP 1040 1040 []]

/-- The first entry of a catch table, in table order, that covers `epc` and
satisfies `p`. -/
def first_covering (p : iseq_catch_table_entry → Bool) (epc : Nat)
    (tbl : List iseq_catch_table_entry) : Option iseq_catch_table_entry :=
  tbl.find? fun e => entry_covers e epc && p e

/-- An entry that can handle a raise: a rescue or an ensure entry. -/
def raise_entry (e : iseq_catch_table_entry) : Bool :=
  e.type == CATCH_TYPE_RESCUE || e.type == CATCH_TYPE_ENSURE

/-- An ensure entry. -/
def ensure_entry (e : iseq_catch_table_entry) : Bool :=
  e.type == CATCH_TYPE_ENSURE

/-- An entry that a retry unwind looks at: an ensure or a retry entry. -/
def retry_entry (e : iseq_catch_table_entry) : Bool :=
  e.type == CATCH_TYPE_ENSURE || e.type == CATCH_TYPE_RETRY

/-- The entries eligible for an unwind of kind `state` at a frame, in the words
of the spec: an ensure entry whatever the kind, a rescue entry for a raise, a
retry entry for a retry whose catch point is the frame's `dfp`, and an entry of
the matching kind for a break without catch point, a redo and a next. -/
def eligible_entry (state dfp catch_point escape_dfp : Nat) (e : iseq_catch_table_entry) :
    Bool :=
  e.type == CATCH_TYPE_ENSURE ||
  (state == TAG_RAISE && e.type == CATCH_TYPE_RESCUE) ||
  (state == TAG_RETRY && (e.type == CATCH_TYPE_RETRY && dfp == catch_point)) ||
  (state == TAG_BREAK && (escape_dfp - escape_dfp % 4 == 0 && e.type == CATCH_TYPE_BREAK)) ||
  (state == TAG_REDO && e.type == CATCH_TYPE_REDO) ||
  (state == TAG_NEXT && e.type == CATCH_TYPE_NEXT)

/-- The current instruction offset `epc = cfp->pc - cfp->iseq->iseq_encoded` of
a frame. -/
def frame_epc (f : rb_control_frame_t) (iseq : rb_iseq_t) : Nat :=
  (f.pc - iseq.iseq_encoded) / SIZEOF_VALUE

/-- The handler of the sample rescue entry. -/
def rescue_iseq : rb_iseq_t :=
  { type := 0, local_size := 1, stack_max := 4, iseq_encoded := 4096, catch_table := [],
    insn_info_table := [] }

/-- The handler of the sample ensure entry. -/
def ensure_iseq : rb_iseq_t :=
  { type := 0, local_size := 1, stack_max := 4, iseq_encoded := 8192, catch_table := [],
    insn_info_table := [] }

/-- A thread whose current frame is a method frame at instruction offset 3
with catch table `tbl`, called from native code (a finish frame follows). -/
def raise_thread (tbl : List iseq_catch_table_entry) (t : throw_object) : rb_thread_t :=
  { stack := 1000, stack_size := 200, cfp := 1,
    frames := [free_frame, unwind_frame VM_FRAME_MAGIC_METHOD 1080 1080 tbl,
               finish_frame 1064, unwind_frame VM_FRAME_MAGIC_TOP 1040 1040 []],
    state := 0, errinfo := 500, safe_level := 0,
    mem := fun _ => 0, envs := fun _ => none, procs := fun _ => none,
    throwobjs := fun v => if v = 500 then t else ⟨0, 0, 0⟩,
    iseqs := fun v => if v = 600 then some rescue_iseq
      else if v = 700 then some ensure_iseq else none,
    brk := 8000, finish_insn_seq := 8 }

/-- The frame of the thread resumed at `vm_loop_start`, if the handler ends
there. -/
def resumed_frame : Res vm_exec_exit → Option rb_control_frame_t
  | .ok (.vm_loop_start th) => th.frames[th.cfp]?
  | _ => none

/-- A rescue entry with the outer range `(0, 10]`. -/
def rescue_outer : iseq_catch_table_entry :=
  { type := CATCH_TYPE_RESCUE, iseq := 600, start := 0, end_ := 10, cont := 12, sp := 1 }

/-- An ensure entry with the inner range `(2, 5]`. -/
def ensure_inner : iseq_catch_table_entry :=
  { type := CATCH_TYPE_ENSURE, iseq := 700, start := 2, end_ := 5, cont := 7, sp := 2 }

/-- A retry entry with the range `(2, 5]`. -/
def retry_inner : iseq_catch_table_entry :=
  { type := CATCH_TYPE_RETRY, iseq := 0, start := 2, end_ := 5, cont := 7, sp := 2 }

/-- A break entry with the range `(2, 5]`. -/
def break_inner : iseq_catch_table_entry :=
  { type := CATCH_TYPE_BREAK, iseq := 0, start := 2, end_ := 5, cont := 7, sp := 2 }

/-- The state and the proc after materializing the block of the block frame of
`sample_thread`. -/
def sample_proc_made : rb_thread_t × VALUE :=
  (vm_make_proc_from_block 3 sample_thread (.cfp 0)).getD (sample_thread, 0)

/-- The exit of the handler as a tag re-raised to the native caller: the
re-raised state, the thread's `cfp` and its `errinfo`. -/
def jumped_tag : Res vm_exec_exit → Option (Nat × Nat × VALUE)
  | .ok (.JUMP_TAG th state) => some (state, th.cfp, th.errinfo)
  | _ => none

/-- A frame that an unwind of kind `state` (a break or a return) with catch
point `cp` passes: the frame is live, its `dfp` is not the catch point, no
ensure entry covers its current offset and, for a break whose catch point is
null, no break entry either. -/
def frame_passes (state cp : Nat) (g : rb_control_frame_t) : Prop :=
  g.pc ≠ 0 ∧ ∃ iseq : rb_iseq_t, g.iseq = .iseq iseq ∧ g.dfp ≠ cp ∧
    ∀ e ∈ iseq.catch_table, entry_covers e (frame_epc g iseq) = true →
      e.type ≠ CATCH_TYPE_ENSURE ∧
      (state = TAG_BREAK → cp - cp % 4 = 0 → e.type ≠ CATCH_TYPE_BREAK)

/-- Every frame from `th->cfp` up to `T` is skipped by the unwind: it has no
live `pc` or no instruction sequence, or the unwind passes it and the frame
before it is not a finish frame. -/
def unwind_passes (th : rb_thread_t) (state cp T : Nat) : Prop :=
  ∀ i, th.cfp ≤ i → i < T →
    ∃ g : rb_control_frame_t, th.frames[i]? = some g ∧
      ((g.pc = 0 ∨ g.iseq = .null) ∨
       (frame_passes state cp g ∧
        ∃ n : rb_control_frame_t, th.frames[i + 1]? = some n ∧
          VM_FRAME_TYPE n ≠ VM_FRAME_MAGIC_FINISH))

/-- What a pass of the handler that goes on at an older frame hands over: the
new `cfp`, the kind of the unwind, and the throw object `err`. -/
def passed_signal (err : VALUE) : Res handler_step → Option (Nat × Nat × throw_object)
  | .ok (.again th state _) => some (th.cfp, state, th.throwobjs err)
  | _ => none

/-- The thread of `nested_frames` in which a `return` with payload 42 unwinds
from the inner of the two block frames (indices 1 and 3) to their method frame
(index 5, scope at 1120), which was called from the frame at index 6. -/
def return_thread : rb_thread_t :=
  unwind_thread nested_frames ⟨42, 1120, TAG_RETURN⟩

/-- The kind of catch table entry at which an unwind of kind `state` (a break
without catch point, a redo or a next) restarts a frame. -/
def restart_type (state : Nat) : Nat :=
  if state = TAG_BREAK then CATCH_TYPE_BREAK
  else if state = TAG_REDO then CATCH_TYPE_REDO
  else CATCH_TYPE_NEXT

/-- A next entry with the range `(2, 5]`. -/
def next_inner : iseq_catch_table_entry :=
  { type := CATCH_TYPE_NEXT, iseq := 0, start := 2, end_ := 5, cont := 7, sp := 2 }

/-- A frame at which an unwind of kind `state` with catch point `cp` finds
nothing: the frame is live, it is not the catch point of a break or a return,
and no entry of its catch table that covers the current offset is eligible for
the kind. -/
def frame_unmatched (state cp : Nat) (g : rb_control_frame_t) : Prop :=
  g.pc ≠ 0 ∧ ∃ iseq : rb_iseq_t, g.iseq = .iseq iseq ∧
    ((state = TAG_BREAK ∨ state = TAG_RETURN) → g.dfp ≠ cp) ∧
    ∀ e ∈ iseq.catch_table, entry_covers e (frame_epc g iseq) = true →
      eligible_entry state g.dfp cp cp e = false

/-- Every frame from `th->cfp` up to `T` is left behind by the unwind: it has no
live `pc` or no instruction sequence, or the unwind finds nothing at it and the
frame before it is not a finish frame. -/
def unwind_unmatched (th : rb_thread_t) (state cp T : Nat) : Prop :=
  ∀ i, th.cfp ≤ i → i < T →
    ∃ g : rb_control_frame_t, th.frames[i]? = some g ∧
      ((g.pc = 0 ∨ g.iseq = .null) ∨
       (frame_unmatched state cp g ∧
        ∃ n : rb_control_frame_t, th.frames[i + 1]? = some n ∧
          VM_FRAME_TYPE n ≠ VM_FRAME_MAGIC_FINISH))

/-- The thread `th` with the throw object `err` reclassified as a break whose
catch point is `dfp` (`SET_THROWOBJ_CATCH_POINT` and `SET_THROWOBJ_STATE`). -/
def reclassified (th : rb_thread_t) (err : VALUE) (dfp : Nat) : rb_thread_t :=
  { th with throwobjs := fun v =>
      if v = err then { (th.throwobjs err) with catch_point := dfp, state := TAG_BREAK }
      else th.throwobjs v }

/-- The keyword of a stray control transfer of kind `state`, in the words of the
spec. -/
def tag_keyword (state : Nat) : String :=
  if state = TAG_RETURN then "return"
  else if state = TAG_BREAK then "break"
  else if state = TAG_NEXT then "next"
  else if state = TAG_REDO then "redo"
  else "retry"

/-- The kinds of control transfer that become a `LocalJumpError`. -/
def local_jump_state (state : Nat) : Prop :=
  state = TAG_RETURN ∨ state = TAG_BREAK ∨ state = TAG_NEXT ∨ state = TAG_REDO ∨
    state = TAG_RETRY

/-- The thread `sample_thread` with a proc 3000 whose captured safe level is 1
and whose flag `is_from_method` is `from_method`. -/
def proc_thread (from_method : Bool) : rb_thread_t :=
  { sample_thread with
      procs := fun v =>
        if v = 3000 then
          some { block := { self := 77, lfp := 1040, dfp := 1040, iseq := .iseq (sample_iseq 2),
                            proc := 3000 },
                 envval := 0, blockprocval := 0, safe_level := 1,
                 is_from_method := from_method, is_lambda := false }
        else none }

/-- A block body that sets the safe level to 3 and returns 9. -/
def body_sets_safe_level : block_invoker :=
  fun th _ _ _ _ _ => .returned { th with safe_level := 3 } 9

/-- A block body that sets the safe level to 4 and raises. -/
def body_raises : block_invoker :=
  fun th _ _ _ _ _ => .thrown { th with safe_level := 4 } TAG_RAISE

/-- A method frame (scope at 1040) that has passed the block with body
`sample_iseq 1` and receiver 55 to the method it calls. -/
def caller_frame : rb_control_frame_t :=
  { pc := 104, sp := 1048, bp := 1048, iseq := .iseq (sample_iseq 2),
    flag := VM_FRAME_MAGIC_METHOD, self := 55, lfp := 1040, dfp := 1040,
    block_iseq := .iseq (sample_iseq 1), proc := 0, me := 0 }

/-- A thread whose current frame (a method frame, scope at 1080) was called by
`caller_frame` with a block: `lfp[0]` of the current frame is the guarded
address 1752 of the block of the calling frame. -/
def yield_thread : rb_thread_t :=
  { stack := 1000, stack_size := 100, cfp := 0,
    frames := [sample_frame VM_FRAME_MAGIC_METHOD 1080 1080 2, caller_frame],
    state := 0, errinfo := Qnil, safe_level := 0,
    mem := fun a => if a = 1080 then 1753 else if a = 1064 then 11 else if a = 1072 then 12
      else if a = 1024 then 21 else if a = 1032 then 22 else 0,
    envs := fun _ => none, procs := fun _ => none, throwobjs := fun _ => ⟨0, 0, 0⟩,
    iseqs := fun _ => none, brk := 2000, finish_insn_seq := 8 }

/-- A native call frame (no instruction sequence, null `pc`) with its scope at
`dfp`. -/
def cfunc_frame (dfp : Nat) : rb_control_frame_t :=
  { pc := 0, sp := dfp + 8, bp := dfp + 8, iseq := .null, flag := VM_FRAME_MAGIC_CFUNC,
    self := 77, lfp := dfp, dfp := dfp, block_iseq := .null, proc := 0, me := 0 }

/-- A thread whose frames are a native call frame, a finish frame and a method
frame running `sample_iseq 2`. -/
def walk_thread : rb_thread_t :=
  { sample_thread with
      frames := [cfunc_frame 1120, finish_frame 1096,
                 sample_frame VM_FRAME_MAGIC_METHOD 1040 1040 2] }

/-- A thread whose frames are a native call frame and a finish frame: no frame
owns an instruction sequence. -/
def native_thread : rb_thread_t :=
  { sample_thread with frames := [cfunc_frame 1120, finish_frame 1096] }

/-- Whether entry `i` of the table has position `pos`. -/
def position_at (tbl : List iseq_insn_info_entry) (pos : Int) (i : Nat) : Bool :=
  decide ((tbl[i]?).map (fun e => (e.position : Int)) = some pos)

/-- The line number of entry `i` of the table (0 outside the table). -/
def line_no_at (tbl : List iseq_insn_info_entry) (i : Nat) : Nat :=
  ((tbl[i]?).map iseq_insn_info_entry.line_no).getD 0

/-- The reference definition of the source line of a frame, with `pos` the
offset of the frame's `pc`: 0 without a normal instruction sequence or with an
empty table; 0 if entry 0 has position `pos`; otherwise the line of entry
`i - 1` for the least `i ≥ 1` whose entry has position `pos`; otherwise the
line of the last entry. -/
def sourceline_reference (f : rb_control_frame_t) : Nat :=
  match f.iseq with
  | .iseq iseq =>
    if iseq.insn_info_table.length = 0 then 0
    else if position_at iseq.insn_info_table (pc_offset f iseq) 0 then 0
    else
      match (List.range' 1 (iseq.insn_info_table.length - 1)).find?
          (position_at iseq.insn_info_table (pc_offset f iseq)) with
      | some i => line_no_at iseq.insn_info_table (i - 1)
      | none => line_no_at iseq.insn_info_table (iseq.insn_info_table.length - 1)
  | _ => 0

/-- A frame whose table has the lines 10, 11, 12 at the positions 0, 2, 5 and
whose `pc` is at offset 5. -/
def line_frame : rb_control_frame_t :=
  { sample_frame VM_FRAME_MAGIC_METHOD 1040 1040 2 with
      pc := 136,
      iseq := .iseq { sample_iseq 2 with insn_info_table := [⟨0, 10⟩, ⟨2, 11⟩, ⟨5, 12⟩] } }

/-- The finish frame that `rb_vm_set_finish_env` pushes above a frame whose
stack pointer is `sp`: one nil word, the scope cell at `sp + 8`, `pc` at the
finish instruction. -/
def pushed_finish_frame (th : rb_thread_t) (sp : Nat) : rb_control_frame_t :=
  { pc := th.finish_insn_seq, sp := sp + 16, bp := sp + 16, iseq := .null,
    flag := VM_FRAME_MAGIC_FINISH, self := Qnil, lfp := sp + 8, dfp := sp + 8,
    block_iseq := .null, proc := 0, me := 0 }

/-- The top-level frame that `vm_set_top_stack` pushes above that finish frame:
`local_size` words of locals from `sp + 16`, then the scope cell. -/
def pushed_top_frame (th : rb_thread_t) (iseq : rb_iseq_t) (sp : Nat) : rb_control_frame_t :=
  { pc := iseq.iseq_encoded, sp := sp + 16 + SIZEOF_VALUE * iseq.local_size + 8,
    bp := sp + 16 + SIZEOF_VALUE * iseq.local_size + 8, iseq := .iseq iseq,
    flag := VM_FRAME_MAGIC_TOP, self := th.top_self,
    lfp := sp + 16 + SIZEOF_VALUE * iseq.local_size,
    dfp := sp + 16 + SIZEOF_VALUE * iseq.local_size, block_iseq := .null, proc := 0, me := 0 }

/-- A thread with four frame slots whose only live frame is a top-level frame
in slot 3; the instruction sequence 600 is a top-level one with two locals, 601
is a method body. -/
def boot_thread : rb_thread_t :=
  { sample_thread with
      cfp := 3, top_self := 99,
      frames := [free_frame, free_frame, free_frame,
                 sample_frame VM_FRAME_MAGIC_TOP 1008 1008 0],
      iseqs := fun v => if v = 600 then some (sample_iseq 2)
        else if v = 601 then some { sample_iseq 2 with type := 1 } else none }

/-- The scope cell of the block frame that `vm_exec` pushes for the handler of a
catch table entry with stack depth `sp` at the frame `f`: one word for the
error value at `bp + sp`, then `local_size - 1` locals, then the cell. -/
def handler_dfp (f : rb_control_frame_t) (esp : Nat) (catch_iseq : rb_iseq_t) : Nat :=
  f.bp + SIZEOF_VALUE * esp + SIZEOF_VALUE + SIZEOF_VALUE * (catch_iseq.local_size - 1)

/-- The block frame that `vm_exec` pushes for the handler `catch_iseq` of a
catch table entry with stack depth `sp` at the frame `f`. -/
def handler_frame (f : rb_control_frame_t) (esp : Nat) (catch_iseq : rb_iseq_t) :
    rb_control_frame_t :=
  { pc := catch_iseq.iseq_encoded, sp := handler_dfp f esp catch_iseq + SIZEOF_VALUE,
    bp := handler_dfp f esp catch_iseq + SIZEOF_VALUE, iseq := .iseq catch_iseq,
    flag := VM_FRAME_MAGIC_BLOCK, self := f.self, lfp := f.lfp,
    dfp := handler_dfp f esp catch_iseq, block_iseq := .null, proc := 0, me := 0 }

/-- The largest `int`, `INT_MAX`. -/
def INT_MAX : Int := 2147483647

/-- A storage of eight slots at 4096 that hold 100, 101, ..., 107. -/
def sample_storage : specific_storage :=
  { ptr := 4096, len := 8, slots := fun i => if i < 8 then 100 + i else 55 }

/-- A call of one of the two functions that work on the pool of recycled
stacks. -/
inductive pool_op where
  | recycle (size : Nat)
  | release (stack : VALUE)
  deriving DecidableEq, Repr

/-- What a call did: `thread_recycle_stack` returned a stack from the pool or
one from `malloc`; `rb_thread_recycle_stack_release` stored the stack in the
pool or freed it. -/
inductive pool_event where
  | reused (stack : VALUE)
  | allocated (stack : VALUE)
  | stored (stack : VALUE)
  | freed (stack : VALUE)
  deriving DecidableEq, Repr

/-- One call on the pool. -/
def pool_step (malloc : Nat → VALUE) (pool : recycle_pool) :
    pool_op → Res (recycle_pool × pool_event)
  | .recycle size =>
    match thread_recycle_stack malloc pool size with
    | .ok (pool1, stack) =>
      .ok (pool1, if pool.thread_recycle_stack_count ≠ 0 then .reused stack
        else .allocated stack)
    | .rb_bug => .rb_bug
    | .undefined => .undefined
    | .out_of_fuel => .out_of_fuel
  | .release stack =>
    match rb_thread_recycle_stack_release pool stack with
    | .ok (pool1, freed) => .ok (pool1, if freed then .freed stack else .stored stack)
    | .rb_bug => .rb_bug
    | .undefined => .undefined
    | .out_of_fuel => .out_of_fuel

/-- A sequence of calls on the pool, with what each call did. -/
def pool_run (malloc : Nat → VALUE) :
    List pool_op → recycle_pool → Res (recycle_pool × List pool_event)
  | [], pool => .ok (pool, [])
  | op :: ops, pool =>
    match pool_step malloc pool op with
    | .ok (pool1, ev) =>
      match pool_run malloc ops pool1 with
      | .ok (pool2, evs) => .ok (pool2, ev :: evs)
      | .rb_bug => .rb_bug
      | .undefined => .undefined
      | .out_of_fuel => .out_of_fuel
    | .rb_bug => .rb_bug
    | .undefined => .undefined
    | .out_of_fuel => .out_of_fuel

/-- The empty pool: the zero-initialized static array of `RECYCLE_MAX` slots and
the count 0. -/
def empty_pool : recycle_pool :=
  { thread_recycle_stack_slot := List.replicate RECYCLE_MAX 0, thread_recycle_stack_count := 0 }

/-- The reference model of the pool, a bounded stack of stacks with the most
recently stored one first: the stacks in the pool after a call. -/
def stored_step (l : List VALUE) : pool_op → List VALUE
  | .recycle _ => l.tail
  | .release stack => if l.length < RECYCLE_MAX then stack :: l else l

/-- The reference model: what a call does on the pool holding `l`. -/
def event_step (malloc : Nat → VALUE) (l : List VALUE) : pool_op → pool_event
  | .recycle size =>
    match l with
    | stack :: _ => .reused stack
    | [] => .allocated (malloc (SIZEOF_VALUE * size))
  | .release stack => if l.length < RECYCLE_MAX then .stored stack else .freed stack

/-- The reference model: the stacks in the pool after a sequence of calls. -/
def stored_after : List pool_op → List VALUE → List VALUE
  | [], l => l
  | op :: ops, l => stored_after ops (stored_step l op)

/-- The reference model: what the calls of a sequence do. -/
def events_of (malloc : Nat → VALUE) : List pool_op → List VALUE → List pool_event
  | [], _ => []
  | op :: ops, l => event_step malloc l op :: events_of malloc ops (stored_step l op)

/-- The pool holds the stacks `l` (most recently stored first): the count is
their number, at most `RECYCLE_MAX`, and slot `i` below the count holds the
stack stored as number `i`. -/
def pool_holds (pool : recycle_pool) (l : List VALUE) : Prop :=
  pool.thread_recycle_stack_slot.length = RECYCLE_MAX ∧
  pool.thread_recycle_stack_count = (l.length : Int) ∧ l.length ≤ RECYCLE_MAX ∧
  ∀ i, i < l.length → pool.thread_recycle_stack_slot[i]? = l.reverse[i]?

/-- The scopes with local frame pointer `L` of the frames from `p` on are well
formed for promotion: the heap lies above the stack and its frontier is
aligned; the previous-scope pointer of a stack-resident block-level scope is in
the heap or is the `dfp` of an older frame with the same `lfp`, the frames in
between having other, non-null `dfp`s; a scope in the heap, or with its
enclosing scope in the heap, has `L` in the heap; and no scope cell of these
frames lies among the locals of another of these scopes. -/
structure promote_wf (th : rb_thread_t) (L p : Nat) : Prop where
  heap : th.stack + SIZEOF_VALUE * th.stack_size ≤ th.brk
  align : th.brk % 4 = 0
  lfp_lt : L < th.brk
  chain : ∀ (i : Nat) (f : rb_control_frame_t), p ≤ i → th.frames[i]? = some f → f.lfp = L →
    ENV_IN_HEAP_P th f.dfp = false → f.dfp ≠ L →
    ENV_IN_HEAP_P th (GC_GUARDED_PTR_REF (th.mem f.dfp)) = true ∨
    ∃ (j : Nat) (g : rb_control_frame_t), i < j ∧ th.frames[j]? = some g ∧
      g.dfp = GC_GUARDED_PTR_REF (th.mem f.dfp) ∧ g.lfp = L ∧
      (∀ (k : Nat) (h : rb_control_frame_t), i ≤ k → k < j → th.frames[k]? = some h →
        h.dfp ≠ GC_GUARDED_PTR_REF (th.mem f.dfp)) ∧
      (∀ (k : Nat) (h : rb_control_frame_t), i < k → k ≤ j → th.frames[k]? = some h →
        h.dfp ≠ 0)
  heap_lfp : ∀ (i : Nat) (f : rb_control_frame_t), p ≤ i → th.frames[i]? = some f → f.lfp = L →
    (ENV_IN_HEAP_P th f.dfp = true → ENV_IN_HEAP_P th L = true) ∧
    (ENV_IN_HEAP_P th f.dfp = false → f.dfp ≠ L →
      ENV_IN_HEAP_P th (GC_GUARDED_PTR_REF (th.mem f.dfp)) = true → ENV_IN_HEAP_P th L = true)
  sep : ∀ (i : Nat) (g : rb_control_frame_t) (k : Nat) (h : rb_control_frame_t),
    p ≤ i → th.frames[i]? = some g → g.lfp = L → ENV_IN_HEAP_P th g.dfp = false →
    p ≤ k → th.frames[k]? = some h → h.lfp = L → ENV_IN_HEAP_P th h.dfp = false →
    ∀ idx, idx < frame_local_size g →
      h.dfp ≠ g.dfp - SIZEOF_VALUE * (frame_local_size g - idx)

/-- The frame with index `k`, which was `g` with a stack-resident scope, has
been rewritten to `g'` by the promotion of the scope of frame `i` (with local
frame pointer `L`) that led from `th` to `th'`: its `dfp` points to the end of
the locals in the buffer of a new environment, whose handle is the word after
it, and is word-aligned, its `lfp` is in the heap, its locals read as before; it is the frame `i` or
owns the enclosing scope of another rewritten frame; and the previous
environment recorded is null for a method-level scope, the environment of the
rewritten frame that owns the enclosing scope if that was on the stack, and
`ENV_VAL` of the enclosing scope if that was in the heap. -/
structure rewritten (th th' : rb_thread_t) (i L k : Nat) (g g' : rb_control_frame_t) :
    Prop where
  index : i ≤ k
  lfp : g.lfp = L
  stack : ENV_IN_HEAP_P th g.dfp = false
  shape : erase_ptrs g' = erase_ptrs g
  fresh : th.brk ≤ ENV_VAL th' g'.dfp
  dfp_lt : g'.dfp + SIZEOF_VALUE * 2 < th'.brk
  align : g'.dfp % 4 = 0
  lfp_heap : ENV_IN_HEAP_P th g'.lfp = true
  lfp_lt : g'.lfp < th'.brk
  lfp_new : g'.lfp = L ∨ th.brk ≤ g'.lfp
  env : ∃ env : rb_env_t, th'.envs (ENV_VAL th' g'.dfp) = some env ∧
    env.env = ENV_VAL th' g'.dfp + SIZEOF_VALUE ∧
    env.local_size = frame_local_size g ∧
    g'.dfp = env.env + SIZEOF_VALUE * env.local_size ∧
    th'.mem (g'.dfp + SIZEOF_VALUE * 2) = env.prev_envval ∧
    (g.dfp = L → env.prev_envval = 0 ∧ g'.lfp = g'.dfp) ∧
    (g.dfp ≠ L → ENV_IN_HEAP_P th (GC_GUARDED_PTR_REF (th.mem g.dfp)) = false →
      ∃ (j : Nat) (gj gj' : rb_control_frame_t), k < j ∧ th.frames[j]? = some gj ∧
        gj.dfp = GC_GUARDED_PTR_REF (th.mem g.dfp) ∧ th'.frames[j]? = some gj' ∧
        th.brk ≤ gj'.dfp ∧ gj'.dfp + SIZEOF_VALUE * 2 < th'.brk ∧
        th'.mem g'.dfp = GC_GUARDED_PTR gj'.dfp ∧
        env.prev_envval = ENV_VAL th' gj'.dfp ∧ env.prev_envval < ENV_VAL th' g'.dfp ∧
        g'.lfp = gj'.lfp) ∧
    (g.dfp ≠ L → ENV_IN_HEAP_P th (GC_GUARDED_PTR_REF (th.mem g.dfp)) = true →
      th'.mem g'.dfp = th.mem g.dfp ∧
      env.prev_envval = ENV_VAL th (GC_GUARDED_PTR_REF (th.mem g.dfp)) ∧ g'.lfp = L)
  locals : ∀ idx, idx < frame_local_size g →
    th'.mem (g'.dfp - SIZEOF_VALUE * (frame_local_size g - idx)) =
      th.mem (g.dfp - SIZEOF_VALUE * (frame_local_size g - idx))
  parent : k = i ∨
    ∃ (m : Nat) (gm gm' : rb_control_frame_t), i ≤ m ∧ m < k ∧ th.frames[m]? = some gm ∧
      th'.frames[m]? = some gm' ∧ gm.lfp = L ∧ ENV_IN_HEAP_P th gm.dfp = false ∧
      gm.dfp ≠ L ∧ GC_GUARDED_PTR_REF (th.mem gm.dfp) = g.dfp ∧ th.brk ≤ gm'.dfp

/-- What the promotion of the scope of frame `i`, with local frame pointer `L`,
changes from `th` to `th'`: the stack bounds stay, the frontier grows and stays
aligned, a frame is as it was or has been rewritten, memory below the old
frontier changes only at the old scope cells of rewritten frames, and the
environments below the old frontier stay. -/
structure promotion (th : rb_thread_t) (i L : Nat) (th' : rb_thread_t) : Prop where
  stack : th'.stack = th.stack
  size : th'.stack_size = th.stack_size
  brk : th.brk ≤ th'.brk
  align : th'.brk % 4 = 0
  length : th'.frames.length = th.frames.length
  frames : ∀ (k : Nat) (g' : rb_control_frame_t), th'.frames[k]? = some g' →
    ∃ g : rb_control_frame_t, th.frames[k]? = some g ∧ (g' = g ∨ rewritten th th' i L k g g')
  mem : ∀ a, a < th.brk →
    (∀ (k : Nat) (g g' : rb_control_frame_t), th.frames[k]? = some g →
      th'.frames[k]? = some g' → ENV_IN_HEAP_P th g.dfp = false → th.brk ≤ g'.dfp →
      g.dfp ≠ a) →
    th'.mem a = th.mem a
  envs : ∀ h, h < th.brk → th'.envs h = th.envs h

/-- Within `n` steps along the previous-scope pointers (`GC_GUARDED_PTR_REF` of
the word at the scope pointer) the scope `p` reaches the scope `L`, and every
scope on the way, `L` included, is heap-resident and below the allocation
frontier. -/
def scope_chain_heap (th : rb_thread_t) : Nat → Nat → Nat → Bool
  | 0, _, _ => false
  | n + 1, p, L =>
    ENV_IN_HEAP_P th p && decide (p < th.brk) &&
      (p == L || scope_chain_heap th n (GC_GUARDED_PTR_REF (th.mem p)) L)

/-- The enclosing scopes that are in the heap before a promotion are valid:
for a stack-resident block-level scope of a frame from `p` on with local frame
pointer `L` whose enclosing scope `P` is heap-resident, the word `P[1]` is an
allocated heap word holding the handle of an environment whose buffer holds
`P`, and the lexical chain from `P` out to `L` is heap-resident. -/
structure heap_parent_wf (th : rb_thread_t) (L p : Nat) : Prop where
  parent : ∀ (i : Nat) (f : rb_control_frame_t), p ≤ i → th.frames[i]? = some f → f.lfp = L →
    ENV_IN_HEAP_P th f.dfp = false → f.dfp ≠ L →
    ENV_IN_HEAP_P th (GC_GUARDED_PTR_REF (th.mem f.dfp)) = true →
    ENV_IN_HEAP_P th (GC_GUARDED_PTR_REF (th.mem f.dfp) + SIZEOF_VALUE * 1) = true ∧
    GC_GUARDED_PTR_REF (th.mem f.dfp) + SIZEOF_VALUE * 1 < th.brk ∧
    ENV_VAL th (GC_GUARDED_PTR_REF (th.mem f.dfp)) < th.brk ∧
    (∃ penv : rb_env_t, th.envs (ENV_VAL th (GC_GUARDED_PTR_REF (th.mem f.dfp))) = some penv ∧
      penv.env + SIZEOF_VALUE * penv.local_size = GC_GUARDED_PTR_REF (th.mem f.dfp)) ∧
    ∃ n, scope_chain_heap th n (GC_GUARDED_PTR_REF (th.mem f.dfp)) L = true

/-- The condition `promote_wf` for the frames that satisfy `S` only: the
previous-scope pointer of a stack-resident block-level scope of such a frame is
in the heap or is the `dfp` of an older such frame. -/
structure promote_wf_on (S : rb_control_frame_t → Prop) (th : rb_thread_t) (L p : Nat) :
    Prop where
  heap : th.stack + SIZEOF_VALUE * th.stack_size ≤ th.brk
  align : th.brk % 4 = 0
  lfp_lt : L < th.brk
  chain : ∀ (i : Nat) (f : rb_control_frame_t), p ≤ i → th.frames[i]? = some f → S f →
    f.lfp = L → ENV_IN_HEAP_P th f.dfp = false → f.dfp ≠ L →
    ENV_IN_HEAP_P th (GC_GUARDED_PTR_REF (th.mem f.dfp)) = true ∨
    ∃ (j : Nat) (g : rb_control_frame_t), i < j ∧ th.frames[j]? = some g ∧ S g ∧
      g.dfp = GC_GUARDED_PTR_REF (th.mem f.dfp) ∧ g.lfp = L ∧
      (∀ (k : Nat) (h : rb_control_frame_t), i ≤ k → k < j → th.frames[k]? = some h →
        h.dfp ≠ GC_GUARDED_PTR_REF (th.mem f.dfp)) ∧
      (∀ (k : Nat) (h : rb_control_frame_t), i < k → k ≤ j → th.frames[k]? = some h →
        h.dfp ≠ 0)
  heap_lfp : ∀ (i : Nat) (f : rb_control_frame_t), p ≤ i → th.frames[i]? = some f → S f →
    f.lfp = L →
    (ENV_IN_HEAP_P th f.dfp = true → ENV_IN_HEAP_P th L = true) ∧
    (ENV_IN_HEAP_P th f.dfp = false → f.dfp ≠ L →
      ENV_IN_HEAP_P th (GC_GUARDED_PTR_REF (th.mem f.dfp)) = true → ENV_IN_HEAP_P th L = true)
  sep : ∀ (i : Nat) (g : rb_control_frame_t) (k : Nat) (h : rb_control_frame_t),
    p ≤ i → th.frames[i]? = some g → S g → g.lfp = L → ENV_IN_HEAP_P th g.dfp = false →
    p ≤ k → th.frames[k]? = some h → S h → h.lfp = L → ENV_IN_HEAP_P th h.dfp = false →
    ∀ idx, idx < frame_local_size g →
      h.dfp ≠ g.dfp - SIZEOF_VALUE * (frame_local_size g - idx)

theorem find_pcfp_ok (frames : List rb_control_frame_t) (penvptr : Nat) :
    ∀ fuel pcfp r, find_pcfp frames penvptr fuel pcfp = .ok r →
      ∃ f, frames[r]? = some f ∧ f.dfp = penvptr := by
  intro fuel
  induction fuel with
  | zero => intro pcfp r h; simp [find_pcfp] at h
  | succ n ih =>
    intro pcfp r h
    unfold find_pcfp at h
    split at h
    · cases h
    · rename_i f hf
      split at h
      · split at h
        · cases h
        · split at h
          · cases h
          · exact ih _ _ h
      · rename_i hd
        cases h
        exact ⟨f, hf, by simpa using hd⟩

theorem store_same (m : Nat → VALUE) (a : Nat) (v : VALUE) : store m a v a = v := by
  simp [store]

theorem store_other (m : Nat → VALUE) (a x : Nat) (v : VALUE) (h : x ≠ a) :
    store m a v x = m x := by
  simp [store, h]

theorem copy_locals_other (buf envptr ls : Nat) :
    ∀ n i m x, (∀ j, i ≤ j → j < i + n → x ≠ buf + SIZEOF_VALUE * j) →
      copy_locals buf envptr ls n i m x = m x := by
  intro n
  induction n with
  | zero => intro i m x _; rfl
  | succ n ih =>
    intro i m x h
    unfold copy_locals
    rw [ih]
    · exact store_other _ _ _ _ (h i (le_refl _) (by omega))
    · intro j h1 h2; exact h j (by omega) (by omega)

theorem copy_locals_copied (buf envptr ls : Nat) (hlt : envptr < buf) :
    ∀ n i m j, i ≤ j → j < i + n →
      copy_locals buf envptr ls n i m (buf + SIZEOF_VALUE * j) =
        m (envptr - SIZEOF_VALUE * (ls - j)) := by
  intro n
  induction n with
  | zero => intro i m j h1 h2; omega
  | succ n ih =>
    intro i m j h1 h2
    unfold copy_locals
    by_cases hij : i = j
    · subst hij
      rw [copy_locals_other]
      · exact store_same _ _ _
      · intro j h3 h4; simp only [SIZEOF_VALUE]; omega
    · rw [ih _ _ _ (by omega) (by omega)]
      apply store_other
      omega

theorem vm_make_env_alloc_spec (th th' : rb_thread_t) (cfp envptr endptr : Nat)
    (penvval v : VALUE)
    (h : vm_make_env_alloc th cfp envptr endptr penvval = .ok (th', v)) :
    ∃ f, th.frames[cfp]? = some f ∧ v = th.brk ∧
      th'.stack = th.stack ∧ th'.stack_size = th.stack_size ∧
      th'.brk = th.brk + SIZEOF_VALUE + SIZEOF_VALUE * (frame_local_size f + 1 + 2) ∧
      th'.frames = th.frames.set cfp
        { f with dfp := th.brk + SIZEOF_VALUE + SIZEOF_VALUE * frame_local_size f,
                 lfp := if envptr = endptr
                   then th.brk + SIZEOF_VALUE + SIZEOF_VALUE * frame_local_size f else f.lfp } ∧
      (∃ env, th'.envs v = some env ∧ env.env = th.brk + SIZEOF_VALUE ∧
        env.local_size = frame_local_size f ∧ env.prev_envval = penvval) ∧
      (∀ a, a < th.brk → a ≠ envptr → th'.mem a = th.mem a) ∧
      (envptr < th.brk → ∀ i, i ≤ frame_local_size f →
        th'.mem (th.brk + SIZEOF_VALUE + SIZEOF_VALUE * i) =
          th.mem (envptr - SIZEOF_VALUE * (frame_local_size f - i))) ∧
      th'.mem (th.brk + SIZEOF_VALUE + SIZEOF_VALUE * frame_local_size f + SIZEOF_VALUE * 1) = v ∧
      th'.mem (th.brk + SIZEOF_VALUE + SIZEOF_VALUE * frame_local_size f + SIZEOF_VALUE * 2)
        = penvval := by
  unfold vm_make_env_alloc at h
  split at h
  · cases h
  · rename_i f hf
    simp only [env_alloc, TypedData_Make_Struct_env, ALLOC_N, Res.ok.injEq, Prod.mk.injEq] at h
    obtain ⟨h1, h2⟩ := h
    subst h1 h2
    refine ⟨f, hf, rfl, rfl, rfl, ?_, ?_, ?_, ?_, ?_, ?_, ?_⟩
    · rfl
    · rfl
    · exact ⟨_, if_pos rfl, rfl, rfl, rfl⟩
    · intro a ha hne
      simp only
      rw [store_other, store_other, store_other _ _ _ _ hne, copy_locals_other]
      · intro j _ _; simp only [SIZEOF_VALUE]; omega
      · simp only [SIZEOF_VALUE]; omega
      · simp only [SIZEOF_VALUE]; omega
    · intro hlt i hi
      simp only
      rw [store_other, store_other, store_other, copy_locals_copied]
      all_goals first
        | rfl
        | (simp only [SIZEOF_VALUE]; omega)
        | omega
    · simp only
      rw [store_other]
      · simp [store]
      · simp only [SIZEOF_VALUE]; omega
    · simp [store]

theorem map_set_of_eq {α β : Type} (g : α → β) (l : List α) (i : Nat) (a b : α)
    (h : l[i]? = some b) (hab : g a = g b) : (l.set i a).map g = l.map g := by
  rw [List.map_set, hab]
  apply List.ext_getElem?
  intro j
  by_cases hij : i = j
  · subst hij
    rw [List.getElem?_set]
    simp [h]
    exact (List.getElem?_eq_some.mp h).1
  · rw [List.getElem?_set_ne hij]

theorem env_each_post_refl (th : rb_thread_t) : env_each_post th th :=
  ⟨rfl, rfl, le_refl _, rfl, fun _ f' h => ⟨f', h, Or.inl rfl⟩, fun _ _ _ => rfl⟩

theorem env_each_post_trans {a b c : rb_thread_t} (h1 : env_each_post a b)
    (h2 : env_each_post b c) : env_each_post a c := by
  refine ⟨h2.stack.trans h1.stack, h2.size.trans h1.size, le_trans h1.brk h2.brk,
    h2.shape.trans h1.shape, ?_, ?_⟩
  · intro i f' hf'
    obtain ⟨g, hg, hgd⟩ := h2.dfp i f' hf'
    obtain ⟨f, hf, hfd⟩ := h1.dfp i g hg
    refine ⟨f, hf, ?_⟩
    have := h1.brk
    omega
  · intro x hx hne
    rw [h2.mem x (lt_of_lt_of_le hx h1.brk), h1.mem x hx hne]
    intro g hg
    obtain ⟨i, hi, hgi⟩ := List.getElem_of_mem hg
    have hg' : b.frames[i]? = some g := by simp [List.getElem?_eq_getElem hi, hgi]
    obtain ⟨f, hf, hfd⟩ := h1.dfp i g hg'
    have hfm : f ∈ a.frames := List.getElem?_mem hf
    have := hne f hfm
    omega

theorem env_each_post_alloc {th th' : rb_thread_t} {cfp envptr endptr : Nat}
    {penvval v : VALUE} {f : rb_control_frame_t}
    (hf : th.frames[cfp]? = some f) (hd : f.dfp = envptr)
    (h : vm_make_env_alloc th cfp envptr endptr penvval = .ok (th', v)) :
    env_each_post th th' := by
  obtain ⟨f0, hf0, _, hs, hz, hb, hfr, _, hm, _⟩ := vm_make_env_alloc_spec _ _ _ _ _ _ _ h
  rw [hf] at hf0
  cases hf0
  refine ⟨hs, hz, by omega, ?_, ?_, ?_⟩
  · rw [hfr]
    exact map_set_of_eq _ _ _ _ _ hf rfl
  · intro i f' hf'
    rw [hfr, List.getElem?_set] at hf'
    split at hf'
    · rename_i h1; subst h1
      split at hf'
      · cases hf'
        exact ⟨f, hf, Or.inr (by simp only; omega)⟩
      · cases hf'
    · exact ⟨f', hf', Or.inl rfl⟩
  · intro a ha hne
    exact hm a ha (by rw [← hd]; exact (hne f (List.getElem?_mem hf)).symm)

theorem env_each_post_frame {th th' : rb_thread_t} (h : env_each_post th th') {i : Nat}
    {f : rb_control_frame_t} (hf : th.frames[i]? = some f) :
    ∃ f', th'.frames[i]? = some f' ∧ erase_ptrs f' = erase_ptrs f ∧
      (f'.dfp = f.dfp ∨ th.brk ≤ f'.dfp) := by
  have h1 : (th'.frames.map erase_ptrs)[i]? = (th.frames.map erase_ptrs)[i]? := by
    rw [h.shape]
  rw [List.getElem?_map, List.getElem?_map, hf] at h1
  cases hf' : th'.frames[i]? with
  | none => rw [hf'] at h1; simp at h1
  | some f' =>
    rw [hf'] at h1
    simp only [Option.map_some', Option.some.injEq] at h1
    obtain ⟨f0, hf0, hd⟩ := h.dfp i f' hf'
    rw [hf] at hf0
    cases hf0
    exact ⟨f', rfl, h1, hd⟩

theorem env_each_post_then_alloc {th th2 th' : rb_thread_t} {cfp envptr endptr : Nat}
    {penvval v : VALUE} {f : rb_control_frame_t}
    (hp : env_each_post th th2)
    (hf : th.frames[cfp]? = some f) (hd : f.dfp = envptr)
    (h : vm_make_env_alloc th2 cfp envptr endptr penvval = .ok (th', v)) :
    env_each_post th th' := by
  obtain ⟨f2, hf2, _, hs, hz, hb, hfr, _, hm, _⟩ := vm_make_env_alloc_spec _ _ _ _ _ _ _ h
  have hbrk := hp.brk
  refine ⟨hs.trans hp.stack, hz.trans hp.size, by omega, ?_, ?_, ?_⟩
  · rw [hfr, ← hp.shape]
    exact map_set_of_eq _ _ _ _ _ hf2 rfl
  · intro i f' hf'
    rw [hfr, List.getElem?_set] at hf'
    split at hf'
    · rename_i h1; subst h1
      split at hf'
      · cases hf'
        exact ⟨f, hf, Or.inr (by simp only; omega)⟩
      · cases hf'
    · exact hp.dfp i f' hf'
  · intro a ha hne
    rw [hm a (by omega) (by rw [← hd]; exact (hne f (List.getElem?_mem hf)).symm)]
    exact hp.mem a ha hne

/-- One call of `vm_make_env_each` that returns either found the scope in the
heap and changed nothing, or reached its allocation half in a state that
differs from the initial one only as promotion allows. -/
theorem vm_make_env_each_decomp :
    ∀ (fuel : Nat) (th th' : rb_thread_t) (cfp envptr endptr : Nat) (v : VALUE)
      (f : rb_control_frame_t),
      th.frames[cfp]? = some f → f.dfp = envptr →
      vm_make_env_each fuel th cfp envptr endptr = .ok (th', v) →
      (ENV_IN_HEAP_P th envptr = true ∧ th' = th ∧ v = ENV_VAL th envptr) ∨
      (ENV_IN_HEAP_P th envptr = false ∧ ∃ (th2 : rb_thread_t) (p : VALUE),
        env_each_post th th2 ∧
        vm_make_env_alloc th2 cfp envptr endptr p = .ok (th', v)) := by
  intro fuel
  induction fuel with
  | zero => intro th th' cfp envptr endptr v f _ _ h; simp [vm_make_env_each] at h
  | succ n ih =>
    intro th th' cfp envptr endptr v f hf hd h
    unfold vm_make_env_each at h
    split at h
    · rename_i hh
      cases h
      exact Or.inl ⟨hh, rfl, rfl⟩
    · rename_i hh
      have hh' : ENV_IN_HEAP_P th envptr = false := by simpa using hh
      refine Or.inr ⟨hh', ?_⟩
      split at h
      · simp only at h
        split at h
        · exact ⟨th, _, env_each_post_refl th, h⟩
        · split at h
          · rename_i pcfp hfind
            obtain ⟨pf0, hpf0, hpd0⟩ := find_pcfp_ok _ _ _ _ _ hfind
            split at h
            · rename_i th1 penvval hrec
              have hpost1 : env_each_post th th1 := by
                rcases ih _ _ _ _ _ _ _ hpf0 hpd0 hrec with ⟨_, h2, _⟩ | ⟨_, th2, p, hp, ha⟩
                · rw [h2]; exact env_each_post_refl th
                · exact env_each_post_then_alloc hp hpf0 hpd0 ha
              split at h
              · rename_i pf f1 hpf hf1
                refine ⟨_, _, ?_, h⟩
                refine ⟨hpost1.stack, hpost1.size, hpost1.brk, ?_, ?_, ?_⟩
                · rw [← hpost1.shape]
                  exact map_set_of_eq _ _ _ _ _ hf1 rfl
                · intro i g hg
                  simp only at hg
                  rw [List.getElem?_set] at hg
                  split at hg
                  · rename_i hi; subst hi
                    split at hg
                    · cases hg
                      exact hpost1.dfp _ f1 hf1
                    · cases hg
                  · exact hpost1.dfp _ _ hg
                · intro a ha hne
                  simp only
                  rw [store_other _ _ _ _
                    (by rw [← hd]; exact (hne f (List.getElem?_mem hf)).symm)]
                  exact hpost1.mem a ha hne
              · cases h
            · cases h
            · cases h
            · cases h
          · cases h
          · cases h
          · cases h
      · exact ⟨th, _, env_each_post_refl th, h⟩

theorem erase_ptrs_flag {a b : rb_control_frame_t} (h : erase_ptrs a = erase_ptrs b) :
    a.flag = b.flag := by
  show (erase_ptrs a).flag = (erase_ptrs b).flag
  rw [h]

theorem erase_ptrs_iseq {a b : rb_control_frame_t} (h : erase_ptrs a = erase_ptrs b) :
    a.iseq = b.iseq := by
  show (erase_ptrs a).iseq = (erase_ptrs b).iseq
  rw [h]

theorem frame_local_size_congr {a b : rb_control_frame_t} (h : erase_ptrs a = erase_ptrs b) :
    frame_local_size a = frame_local_size b := by
  simp [frame_local_size, erase_ptrs_iseq h]

/-- What a returning `vm_make_env_each` on a stack-resident scope leaves
behind. -/
theorem vm_make_env_each_stack {fuel : Nat} {th th' : rb_thread_t} {cfp envptr endptr : Nat}
    {v : VALUE} {f : rb_control_frame_t}
    (hheap : th.stack + SIZEOF_VALUE * th.stack_size ≤ th.brk)
    (hf : th.frames[cfp]? = some f) (hd : f.dfp = envptr)
    (hstack : ENV_IN_HEAP_P th envptr = false)
    (h : vm_make_env_each fuel th cfp envptr endptr = .ok (th', v)) :
    env_each_post th th' ∧
    ∃ (f' : rb_control_frame_t) (env : rb_env_t),
      th'.frames[cfp]? = some f' ∧ erase_ptrs f' = erase_ptrs f ∧
      th.brk ≤ f'.dfp ∧ th'.mem (f'.dfp + SIZEOF_VALUE * 1) = v ∧
      th'.envs v = some env ∧ env.local_size = frame_local_size f ∧
      f'.dfp = env.env + SIZEOF_VALUE * frame_local_size f ∧
      ∀ i, i < frame_local_size f →
        (∀ g ∈ th.frames, g.dfp ≠ envptr - SIZEOF_VALUE * (frame_local_size f - i)) →
        th'.mem (env.env + SIZEOF_VALUE * i) =
          th.mem (envptr - SIZEOF_VALUE * (frame_local_size f - i)) := by
  rcases vm_make_env_each_decomp _ _ _ _ _ _ _ _ hf hd h with ⟨h1, _, _⟩ | ⟨_, th2, p, hp, ha⟩
  · rw [hstack] at h1; cases h1
  · have hpost := env_each_post_then_alloc hp hf hd ha
    refine ⟨hpost, ?_⟩
    obtain ⟨f2, hf2, hv, hs, hz, hb, hfr, ⟨env, he, hee, hel, _⟩, hm, hc, hv1, _⟩ :=
      vm_make_env_alloc_spec _ _ _ _ _ _ _ ha
    obtain ⟨f2', hf2', hsh, _⟩ := env_each_post_frame hp hf
    rw [hf2] at hf2'
    cases hf2'
    have hls := frame_local_size_congr hsh
    have hbrk := hp.brk
    have hlt : envptr < th.brk := by
      simp [ENV_IN_HEAP_P] at hstack
      omega
    refine ⟨{ f2 with
        lfp := if envptr = endptr
          then th2.brk + SIZEOF_VALUE + SIZEOF_VALUE * frame_local_size f2 else f2.lfp,
        dfp := th2.brk + SIZEOF_VALUE + SIZEOF_VALUE * frame_local_size f2 },
      env, ?_, ?_, ?_, ?_, he, by rw [hel, hls], ?_, ?_⟩
    · rw [hfr, List.getElem?_set]
      simp [(List.getElem?_eq_some.mp hf2).1]
    · exact hsh
    · simp only; omega
    · exact hv1
    · simp only; rw [hee, hls]
    · intro i hi hne
      rw [hee, hc (by omega) i (by omega), hls]
      exact hp.mem _ (by omega) hne

theorem rb_vm_make_env_object_post {fuel : Nat} {th th' : rb_thread_t} {cfp : Nat} {v : VALUE}
    (h : rb_vm_make_env_object fuel th cfp = .ok (th', v)) : env_each_post th th' := by
  unfold rb_vm_make_env_object at h
  split at h
  · cases h
  · simp only at h
    split at h
    · cases h
    · rename_i f1 hf1
      rcases vm_make_env_each_decomp _ _ _ _ _ _ _ _ hf1 rfl h with
        ⟨_, h1, _⟩ | ⟨_, th2, p, hp, ha⟩
      · rw [h1]; exact env_each_post_refl th
      · exact env_each_post_then_alloc hp hf1 rfl ha

theorem find_pcfp_finds (frames : List rb_control_frame_t) (p j : Nat) (g : rb_control_frame_t)
    (hg : frames[j]? = some g) (hgd : g.dfp = p) :
    ∀ (fuel start : Nat), start ≤ j → j - start < fuel →
      (∀ (k : Nat) (h : rb_control_frame_t), start ≤ k → k < j → frames[k]? = some h →
        h.dfp ≠ p) →
      (∀ (k : Nat) (h : rb_control_frame_t), start < k → k ≤ j → frames[k]? = some h →
        h.dfp ≠ 0) →
      find_pcfp frames p fuel start = .ok j := by
  have hj : j < frames.length := (List.getElem?_eq_some.mp hg).1
  intro fuel
  induction fuel with
  | zero => intro start _ h; omega
  | succ n ih =>
    intro start hle hfuel hne hnz
    unfold find_pcfp
    by_cases hs : start = j
    · subst hs
      simp [hg, hgd]
    · have hlt : start < frames.length := by omega
      have h1 : frames[start]? = some frames[start] := List.getElem?_eq_getElem hlt
      have hlt2 : start + 1 < frames.length := by omega
      have h2 : frames[start + 1]? = some frames[start + 1] := List.getElem?_eq_getElem hlt2
      have hd := hne start _ (le_refl _) (by omega) h1
      have hz := hnz (start + 1) _ (by omega) (by omega) h2
      simp only [h1, h2]
      rw [if_pos hd, if_neg hz]
      exact ih (start + 1) (by omega) (by omega)
        (fun k h a b c => hne k h (by omega) b c)
        (fun k h a b c => hnz k h (by omega) b c)

theorem vm_make_env_alloc_ok (th : rb_thread_t) (cfp envptr endptr : Nat) (penvval : VALUE)
    (f : rb_control_frame_t) (hf : th.frames[cfp]? = some f) :
    ∃ r, vm_make_env_alloc th cfp envptr endptr penvval = .ok r := by
  unfold vm_make_env_alloc
  simp only [hf]
  exact ⟨_, rfl⟩

/-- On well-formed lexical chains `vm_make_env_each` returns, with fuel for as
many scopes as there are frames from `cfp` on. -/
theorem vm_make_env_each_returns (th : rb_thread_t) (hwf : lexical_chain_ok th) :
    ∀ (n i : Nat) (f : rb_control_frame_t), th.frames.length - i ≤ n →
      th.frames[i]? = some f →
      ∃ r, vm_make_env_each (n + 1) th i f.dfp f.lfp = .ok r := by
  intro n
  induction n with
  | zero =>
    intro i f hn hf
    have := (List.getElem?_eq_some.mp hf).1
    omega
  | succ n ih =>
    intro i f hn hf
    unfold vm_make_env_each
    by_cases hh : ENV_IN_HEAP_P th f.dfp = true
    · rw [if_pos hh]; exact ⟨_, rfl⟩
    · rw [if_neg hh]
      have hh' : ENV_IN_HEAP_P th f.dfp = false := by simpa using hh
      by_cases he : f.dfp ≠ f.lfp
      · rw [if_pos he]
        simp only
        by_cases hp : ENV_IN_HEAP_P th (GC_GUARDED_PTR_REF (th.mem f.dfp)) = true
        · rw [if_pos hp]
          exact vm_make_env_alloc_ok _ _ _ _ _ f hf
        · rw [if_neg hp]
          rcases hwf i f hf hh' he with h | ⟨j, g, hij, hg, hgd, hgl, hne, hnz⟩
          · exact absurd h hp
          · have hj : j < th.frames.length := (List.getElem?_eq_some.mp hg).1
            rw [find_pcfp_finds th.frames _ j g hg hgd (th.frames.length + 1) i (by omega)
              (by omega) hne hnz]
            simp only
            obtain ⟨⟨th1, pv⟩, hrec⟩ := ih j g (by omega) hg
            rw [hgd, hgl] at hrec
            rw [hrec]
            simp only
            have hpost : env_each_post th th1 := by
              rcases vm_make_env_each_decomp _ _ _ _ _ _ _ _ hg hgd hrec with
                ⟨_, h2, _⟩ | ⟨_, th2, p, hp2, ha⟩
              · rw [h2]; exact env_each_post_refl th
              · exact env_each_post_then_alloc hp2 hg hgd ha
            obtain ⟨g1, hg1, _⟩ := env_each_post_frame hpost hg
            obtain ⟨f1, hf1, _⟩ := env_each_post_frame hpost hf
            simp only [hg1, hf1]
            apply vm_make_env_alloc_ok _ _ _ _ _ { f1 with lfp := g1.lfp }
            simp only
            rw [List.getElem?_set]
            simp [(List.getElem?_eq_some.mp hf1).1]
      · rw [if_neg he]
        exact vm_make_env_alloc_ok _ _ _ _ _ f hf

/-- On well-formed lexical chains `rb_vm_make_env_object` returns for every
frame (a finish frame having a frame below it), with `frames.length + 1` units
of fuel. -/
theorem rb_vm_make_env_object_returns (th : rb_thread_t) (cfp : Nat)
    (f0 f : rb_control_frame_t) (hwf : lexical_chain_ok th)
    (hf0 : th.frames[cfp]? = some f0)
    (hf : th.frames[if VM_FRAME_TYPE f0 = VM_FRAME_MAGIC_FINISH then cfp + 1 else cfp]?
      = some f) :
    ∃ r, rb_vm_make_env_object (th.frames.length + 1) th cfp = .ok r := by
  simp only [rb_vm_make_env_object, hf0, hf]
  exact vm_make_env_each_returns th hwf th.frames.length _ f (by omega) hf

/-- Whenever a promotion returns, promoting again returns the same handle and
the same state. -/
theorem rb_vm_make_env_object_twice (fuel fuel2 : Nat) (th : rb_thread_t) (cfp : Nat)
    (r : rb_thread_t × VALUE)
    (hheap : th.stack + SIZEOF_VALUE * th.stack_size ≤ th.brk)
    (h : rb_vm_make_env_object fuel th cfp = .ok r) :
    rb_vm_make_env_object (fuel2 + 1) r.1 cfp = .ok r := by
  obtain ⟨th1, v⟩ := r
  unfold rb_vm_make_env_object at h
  split at h
  · cases h
  · rename_i f hf
    simp only at h
    split at h
    · cases h
    · rename_i f1 hf1
      cases hh : ENV_IN_HEAP_P th f1.dfp with
      | true =>
        rcases vm_make_env_each_decomp _ _ _ _ _ _ _ _ hf1 rfl h with
          ⟨_, h1, h2⟩ | ⟨h3, _⟩
        · subst h1 h2
          simp only [rb_vm_make_env_object, hf, hf1]
          unfold vm_make_env_each
          simp [hh]
        · rw [hh] at h3; cases h3
      | false =>
        obtain ⟨hpost, f', env, hf', _, hb, hv, _⟩ :=
          vm_make_env_each_stack hheap hf1 rfl hh h
        obtain ⟨g, hg, hgs, _⟩ := env_each_post_frame hpost hf
        have hfl : VM_FRAME_TYPE g = VM_FRAME_TYPE f := by
          simp [VM_FRAME_TYPE, erase_ptrs_flag hgs]
        have hin : ENV_IN_HEAP_P th1 f'.dfp = true := by
          simp only [ENV_IN_HEAP_P, hpost.stack, hpost.size]
          simp
          omega
        simp only [rb_vm_make_env_object, hg, hfl, hf']
        unfold vm_make_env_each
        simp only [hin, if_true, ENV_VAL, hv]

/-- C1: promoting the scope of a frame a second time returns the handle the
first promotion returned and leaves the whole state, hence every local slot and
the set of environments, as the first promotion left it; and on well-formed
lexical chains the first promotion does return. -/
theorem rb_vm_make_env_object_idempotent (th : rb_thread_t) (cfp : Nat)
    (hheap : th.stack + SIZEOF_VALUE * th.stack_size ≤ th.brk) :
    (∀ (fuel fuel2 : Nat) (r : rb_thread_t × VALUE),
      rb_vm_make_env_object fuel th cfp = .ok r →
      rb_vm_make_env_object (fuel2 + 1) r.1 cfp = .ok r) ∧
    (∀ (f0 f : rb_control_frame_t), lexical_chain_ok th → th.frames[cfp]? = some f0 →
      th.frames[if VM_FRAME_TYPE f0 = VM_FRAME_MAGIC_FINISH then cfp + 1 else cfp]? = some f →
      ∃ r, rb_vm_make_env_object (th.frames.length + 1) th cfp = .ok r ∧
        rb_vm_make_env_object (th.frames.length + 1) r.1 cfp = .ok r) := by
  refine ⟨fun fuel fuel2 r h => rb_vm_make_env_object_twice fuel fuel2 th cfp r hheap h, ?_⟩
  intro f0 f hwf hf0 hf
  obtain ⟨r, hr⟩ := rb_vm_make_env_object_returns th cfp f0 f hwf hf0 hf
  exact ⟨r, hr, rb_vm_make_env_object_twice _ _ th cfp r hheap hr⟩

/-- C1, witness: promoting the block scope of `sample_thread` returns the handle
2048, and promoting it again returns the same state and handle. -/
theorem rb_vm_make_env_object_idempotent_witness :
    sample_thread.stack + SIZEOF_VALUE * sample_thread.stack_size ≤ sample_thread.brk ∧
    rb_vm_make_env_object 2 sample_thread 0 = .ok sample_promoted ∧
    sample_promoted.2 = 2048 ∧
    rb_vm_make_env_object 1 sample_promoted.1 0 = .ok sample_promoted :=
  ⟨by decide, rfl, rfl,
    (rb_vm_make_env_object_idempotent sample_thread 0 (by decide)).1 2 0 sample_promoted rfl⟩

theorem block_set_proc_brk (th : rb_thread_t) (b : block_ptr) (v : VALUE) :
    (block_set_proc th b v).brk = th.brk := by
  unfold block_set_proc
  split
  · split <;> rfl
  · rfl

theorem rb_vm_make_proc_brk :
    ∀ (fuel : Nat) (th th' : rb_thread_t) (block : block_ptr) (klass v : VALUE),
      rb_vm_make_proc fuel th block klass = .ok (th', v) →
      th.brk ≤ th'.brk ∧ th.brk ≤ v := by
  intro fuel
  induction fuel with
  | zero => intro th th' block klass v h; simp [rb_vm_make_proc] at h
  | succ n ih =>
    intro th th' block klass v h
    unfold rb_vm_make_proc at h
    split at h
    · cases h
    · rename_i b hb
      split at h
      · cases h
      · split at h
        · cases h
        · rename_i cfp
          simp only at h
          split at h
          · rename_i th1 bpv hpassed
            have h1 : th.brk ≤ th1.brk := by
              split at hpassed
              · split at hpassed
                · cases hpassed
                · rename_i pb hpb
                  split at hpassed
                  · rename_i th0 bpv0 hrec
                    split at hpassed
                    · cases hpassed
                    · cases hpassed
                      simp only
                      unfold vm_make_proc_from_block_with at hrec
                      split at hrec
                      · cases hrec
                      · split at hrec
                        · cases hrec; exact le_refl _
                        · split at hrec
                          · rename_i thx px hx
                            cases hrec
                            rw [block_set_proc_brk]
                            exact (ih _ _ _ _ _ hx).1
                          · cases hrec
                          · cases hrec
                          · cases hrec
                  · cases hpassed
                  · cases hpassed
                  · cases hpassed
              · cases hpassed; exact le_refl _
            split at h
            · rename_i th2 envval henv
              have h2 := (rb_vm_make_env_object_post henv).brk
              split at h
              · cases h
              · simp only [rb_proc_alloc, Res.ok.injEq, Prod.mk.injEq] at h
                obtain ⟨h3, h4⟩ := h
                subst h3 h4
                simp only
                constructor <;> omega
            · cases h
            · cases h
            · cases h
          · cases h
          · cases h
          · cases h

theorem rb_vm_make_proc_block (fuel : Nat) (th th' : rb_thread_t) (block : block_ptr)
    (klass v : VALUE) (h : rb_vm_make_proc fuel th block klass = .ok (th', v)) :
    ∃ (i : Nat) (f : rb_control_frame_t), block = .cfp i ∧ th'.frames[i]? = some f := by
  cases fuel with
  | zero => simp [rb_vm_make_proc] at h
  | succ n =>
    unfold rb_vm_make_proc at h
    split at h
    · cases h
    · split at h
      · cases h
      · split at h
        · cases h
        · rename_i cfp
          simp only at h
          split at h
          · split at h
            · rename_i th2 envval henv
              split at h
              · cases h
              · rename_i b2 hb2
                simp only [rb_proc_alloc, Res.ok.injEq, Prod.mk.injEq] at h
                obtain ⟨h3, _⟩ := h
                subst h3
                simp only [block_get, Option.map_eq_some'] at hb2
                obtain ⟨f, hf, _⟩ := hb2
                exact ⟨_, f, rfl, hf⟩
            · cases h
            · cases h
            · cases h
          · cases h
          · cases h
          · cases h

/-- For a block of a frame without passed block (`lfp[0]` null once its guard
bits are stripped) on well-formed lexical chains, `vm_make_proc_from_block`
returns with `frames.length + 2` units of fuel. -/
theorem vm_make_proc_from_block_returns (th : rb_thread_t) (i : Nat)
    (f0 f : rb_control_frame_t) (hwf : lexical_chain_ok th)
    (hf0 : th.frames[i]? = some f0)
    (hf : th.frames[if VM_FRAME_TYPE f0 = VM_FRAME_MAGIC_FINISH then i + 1 else i]? = some f)
    (hnb : GC_GUARDED_PTR_REF (th.mem f0.lfp) = 0) :
    ∃ r, vm_make_proc_from_block (th.frames.length + 2) th (.cfp i) = .ok r := by
  unfold vm_make_proc_from_block vm_make_proc_from_block_with
  simp only [block_get, hf0, Option.map_some']
  by_cases hp : f0.proc ≠ 0
  · rw [if_pos hp]; exact ⟨_, rfl⟩
  · rw [if_neg hp]
    have hmk : ∃ r, rb_vm_make_proc (th.frames.length + 2) th (.cfp i) 0 = .ok r := by
      unfold rb_vm_make_proc
      simp only [block_get, hf0, Option.map_some']
      rw [if_neg hp]
      simp only [hnb, ne_eq, not_true_eq_false, if_false]
      obtain ⟨⟨th2, envval⟩, henv⟩ := rb_vm_make_env_object_returns th i f0 f hwf hf0 hf
      rw [henv]
      simp only
      obtain ⟨g, hg, _⟩ := env_each_post_frame (rb_vm_make_env_object_post henv) hf0
      simp only [hg, Option.map_some']
      exact ⟨_, rfl⟩
    obtain ⟨⟨th1, v⟩, h⟩ := hmk
    rw [h]
    exact ⟨_, rfl⟩

/-- Whenever a first `vm_make_proc_from_block` returns, the block caches the
returned proc and a second call returns it without any change. -/
theorem vm_make_proc_from_block_twice (fuel fuel2 : Nat) (th : rb_thread_t)
    (block : block_ptr) (r : rb_thread_t × VALUE)
    (hbrk : 0 < th.brk)
    (h : vm_make_proc_from_block fuel th block = .ok r) :
    (block_get r.1 block).map rb_block_t.proc = some r.2 ∧ r.2 ≠ 0 ∧
    vm_make_proc_from_block fuel2 r.1 block = .ok r := by
  obtain ⟨th1, v⟩ := r
  have key : (block_get th1 block).map rb_block_t.proc = some v ∧ v ≠ 0 := by
    unfold vm_make_proc_from_block vm_make_proc_from_block_with at h
    split at h
    · cases h
    · rename_i b hb
      split at h
      · rename_i hne
        cases h
        simp [hb, hne]
      · split at h
        · rename_i thx px hx
          cases h
          have hv := (rb_vm_make_proc_brk _ _ _ _ _ _ hx).2
          refine ⟨?_, Nat.pos_iff_ne_zero.mp (lt_of_lt_of_le hbrk hv)⟩
          obtain ⟨i, f, hi, hf⟩ := rb_vm_make_proc_block _ _ _ _ _ _ hx
          subst hi
          simp [block_get, block_set_proc, hf, (List.getElem?_eq_some.mp hf).1]
        · cases h
        · cases h
        · cases h
  refine ⟨key.1, key.2, ?_⟩
  obtain ⟨k1, k2⟩ := key
  unfold vm_make_proc_from_block vm_make_proc_from_block_with
  cases hb : block_get th1 block with
  | none => rw [hb] at k1; simp at k1
  | some b =>
    rw [hb] at k1
    simp only [Option.map_some', Option.some.injEq] at k1
    simp [k1, k2]

/-- C3: a second `vm_make_proc_from_block` on the same block returns the proc
the first call returned, which the first call left cached in `block->proc`, and
changes nothing: no further proc is created; and for the block of a frame
without passed block on well-formed lexical chains the first call does
return. -/
theorem vm_make_proc_from_block_idempotent (th : rb_thread_t) (block : block_ptr)
    (hbrk : 0 < th.brk) :
    (∀ (fuel fuel2 : Nat) (r : rb_thread_t × VALUE),
      vm_make_proc_from_block fuel th block = .ok r →
      (block_get r.1 block).map rb_block_t.proc = some r.2 ∧ r.2 ≠ 0 ∧
      vm_make_proc_from_block fuel2 r.1 block = .ok r) ∧
    (∀ (i : Nat) (f0 f : rb_control_frame_t), block = .cfp i → lexical_chain_ok th →
      th.frames[i]? = some f0 →
      th.frames[if VM_FRAME_TYPE f0 = VM_FRAME_MAGIC_FINISH then i + 1 else i]? = some f →
      GC_GUARDED_PTR_REF (th.mem f0.lfp) = 0 →
      ∃ r, vm_make_proc_from_block (th.frames.length + 2) th block = .ok r ∧
        vm_make_proc_from_block (th.frames.length + 2) r.1 block = .ok r) := by
  refine ⟨fun fuel fuel2 r h => vm_make_proc_from_block_twice fuel fuel2 th block r hbrk h, ?_⟩
  intro i f0 f hb hwf hf0 hf hnb
  subst hb
  obtain ⟨r, hr⟩ := vm_make_proc_from_block_returns th i f0 f hwf hf0 hf hnb
  exact ⟨r, hr, (vm_make_proc_from_block_twice _ _ th _ r hbrk hr).2.2⟩

/-- C3, witness: materializing the block of the block frame of `sample_thread`
returns the proc 2096, cached in the block, and does so again. -/
theorem vm_make_proc_from_block_idempotent_witness :
    0 < sample_thread.brk ∧
    vm_make_proc_from_block 3 sample_thread (.cfp 0) = .ok sample_proc_made ∧
    sample_proc_made.2 = 2096 ∧
    (block_get sample_proc_made.1 (.cfp 0)).map rb_block_t.proc = some sample_proc_made.2 ∧
    sample_proc_made.2 ≠ 0 ∧
    vm_make_proc_from_block 0 sample_proc_made.1 (.cfp 0) = .ok sample_proc_made :=
  ⟨by decide, rfl, rfl,
    (vm_make_proc_from_block_idempotent sample_thread (.cfp 0) (by decide)).1 3 0
      sample_proc_made rfl⟩

/-! ### The unwind protocol (`vm_exec`) -/

theorem skip_frames_spec (frames : List rb_control_frame_t) (F : Nat) (f : rb_control_frame_t) :
    ∀ (fuel : Nat) (th : rb_thread_t), th.frames = frames →
      unwinding_stops_at th F f → F - th.cfp < fuel →
      skip_frames fuel th = some { th with cfp := F } := by
  intro fuel
  induction fuel with
  | zero => intro th _ _ h; omega
  | succ n ih =>
    intro th hfr hs hfuel
    obtain ⟨h1, h2, h3, h4, h5⟩ := hs
    unfold skip_frames
    by_cases hc : th.cfp = F
    · subst hc
      simp [h3, h4, h5]
    · obtain ⟨g, hg, hgd⟩ := h2 th.cfp (le_refl _) (by omega)
      simp only [hg]
      rw [if_pos hgd]
      rw [ih { th with cfp := th.cfp + 1 } hfr ?_ (by simp only; omega)]
      refine ⟨by simp only; omega, ?_, h3, h4, h5⟩
      intro i hi1 hi2
      exact h2 i (by simp only at hi1; omega) hi2

theorem exception_handler_pass_at {th : rb_thread_t} {F : Nat} {f : rb_control_frame_t}
    {iseq : rb_iseq_t} (hs : unwinding_stops_at th F f) (hi : f.iseq = .iseq iseq)
    (state : Nat) (err : VALUE) (escape_dfp : Nat) :
    exception_handler_pass th state err escape_dfp =
      handle_frame { th with cfp := F } f iseq state err escape_dfp := by
  have hF : F < th.frames.length := (List.getElem?_eq_some.mp hs.2.2.1).1
  have hle := hs.1
  unfold exception_handler_pass
  rw [skip_frames_spec th.frames F f _ th rfl hs (by omega)]
  simp only [hs.2.2.1, hi]

/-- C4: a break whose catch point is the `dfp` of the frame `F` at which
unwinding stops resumes the interpreter loop in `F`: the payload is stored at
the old `sp` of `F`, which grows by one word, `F` keeps its `pc`, `errinfo` is
nil, and the frame array is otherwise unchanged with `F` as current frame. -/
theorem vm_exec_break_caught (fuel : Nat) (th : rb_thread_t) (F : Nat)
    (f : rb_control_frame_t) (iseq : rb_iseq_t) (err : VALUE) (escape_dfp : Nat)
    (hs : unwinding_stops_at th F f) (hi : f.iseq = .iseq iseq)
    (hcp : (th.throwobjs err).catch_point = f.dfp) :
    exception_handler (fuel + 1) th TAG_BREAK err escape_dfp =
      .ok (.vm_loop_start
        { th with
            cfp := F,
            mem := store th.mem f.sp (th.throwobjs err).val,
            frames := th.frames.set F { f with sp := f.sp + SIZEOF_VALUE },
            errinfo := Qnil }) := by
  unfold exception_handler
  rw [exception_handler_pass_at hs hi]
  simp [handle_frame, handle_break_return, hcp, TAG_BREAK, TAG_RETURN]

/-- C4, witness: a break with catch point 1280 is caught by the inner block frame
of `nested_frames`, whose stack receives the payload 42. -/
theorem vm_exec_break_caught_witness :
    unwinding_stops_at (unwind_thread nested_frames ⟨42, 1280, TAG_BREAK⟩) 1
      (unwind_frame VM_FRAME_MAGIC_BLOCK 1280 1120 []) ∧
    exception_handler 1 (unwind_thread nested_frames ⟨42, 1280, TAG_BREAK⟩) TAG_BREAK 500 0 =
      .ok (.vm_loop_start
        { unwind_thread nested_frames ⟨42, 1280, TAG_BREAK⟩ with
            cfp := 1,
            mem := store (unwind_thread nested_frames ⟨42, 1280, TAG_BREAK⟩).mem 1296 42,
            frames := nested_frames.set 1
              { unwind_frame VM_FRAME_MAGIC_BLOCK 1280 1120 [] with sp := 1304 },
            errinfo := Qnil }) :=
  ⟨⟨by decide, by intro i h1 h2; simp [unwind_thread] at h1; omega, rfl, by decide, by decide⟩,
   vm_exec_break_caught 0 (unwind_thread nested_frames ⟨42, 1280, TAG_BREAK⟩) 1
    (unwind_frame VM_FRAME_MAGIC_BLOCK 1280 1120 []) _ 500 0
    ⟨by decide, by intro i h1 h2; simp [unwind_thread] at h1; omega, rfl, by decide, by decide⟩
    rfl rfl⟩

theorem scan_raise_eq (epc : Nat) (tbl : List iseq_catch_table_entry) (c : catch_vars) :
    scan_raise epc tbl c =
      match first_covering raise_entry epc tbl with
      | some e => ⟨e.iseq, e.cont, e.sp⟩
      | none => c := by
  induction tbl with
  | nil => rfl
  | cons e es ih =>
    unfold scan_raise first_covering
    rw [List.find?_cons]
    by_cases hc : entry_covers e epc = true
    · by_cases ht : e.type = CATCH_TYPE_RESCUE ∨ e.type = CATCH_TYPE_ENSURE
      · have : raise_entry e = true := by simpa [raise_entry] using ht
        simp [hc, ht, this]
      · have : raise_entry e = false := by simpa [raise_entry] using ht
        simp only [hc, ht, this, if_true, if_false, Bool.and_false]
        exact ih
    · simp only [hc, if_false, Bool.false_and]
      exact ih

theorem scan_ensure_eq (epc : Nat) (tbl : List iseq_catch_table_entry) (c : catch_vars) :
    scan_ensure epc tbl c =
      match first_covering ensure_entry epc tbl with
      | some e => ⟨e.iseq, e.cont, e.sp⟩
      | none => c := by
  induction tbl with
  | nil => rfl
  | cons e es ih =>
    unfold scan_ensure first_covering
    rw [List.find?_cons]
    by_cases hc : entry_covers e epc = true
    · by_cases ht : e.type = CATCH_TYPE_ENSURE
      · have : ensure_entry e = true := by simpa [ensure_entry] using ht
        simp [hc, ht, this]
      · have : ensure_entry e = false := by simpa [ensure_entry] using ht
        simp only [hc, ht, this, if_true, if_false, Bool.and_false]
        exact ih
    · simp only [hc, if_false, Bool.false_and]
      exact ih

theorem first_covering_cons_pos {p : iseq_catch_table_entry → Bool} {epc : Nat}
    {e : iseq_catch_table_entry} (es : List iseq_catch_table_entry)
    (hc : entry_covers e epc = true) (hp : p e = true) :
    first_covering p epc (e :: es) = some e := by
  simp [first_covering, List.find?_cons, hc, hp]

theorem first_covering_cons_neg {p : iseq_catch_table_entry → Bool} {epc : Nat}
    {e : iseq_catch_table_entry} (es : List iseq_catch_table_entry)
    (h : entry_covers e epc = false ∨ p e = false) :
    first_covering p epc (e :: es) = first_covering p epc es := by
  rcases h with h | h <;> simp [first_covering, List.find?_cons, h]

theorem scan_retry_eq (epc dfp cp : Nat) (tbl : List iseq_catch_table_entry) (c : catch_vars) :
    scan_retry epc dfp cp tbl c =
      match first_covering
          (fun e => e.type == CATCH_TYPE_ENSURE || (e.type == CATCH_TYPE_RETRY && dfp == cp))
          epc tbl with
      | some e =>
        if e.type = CATCH_TYPE_ENSURE then .through ⟨e.iseq, e.cont, e.sp⟩ else .restart e
      | none => .through c := by
  induction tbl with
  | nil => rfl
  | cons e es ih =>
    unfold scan_retry
    by_cases hc : entry_covers e epc = true
    · by_cases ht : e.type = CATCH_TYPE_ENSURE
      · rw [first_covering_cons_pos es hc (by simp [ht])]
        simp [hc, ht]
      · by_cases ht2 : e.type = CATCH_TYPE_RETRY
        · by_cases hd : dfp = cp
          · rw [first_covering_cons_pos es hc (by simp [ht2, hd])]
            simp [hc, ht, ht2, hd]
          · rw [first_covering_cons_neg es (Or.inr (by simp [ht, hd]))]
            simp only [hc, ht, ht2, hd, if_true, if_false]
            exact ih
        · rw [first_covering_cons_neg es (Or.inr (by simp [ht, ht2]))]
          simp only [hc, ht, ht2, if_true, if_false]
          exact ih
    · rw [first_covering_cons_neg es (Or.inl (by simpa using hc))]
      simp only [hc, if_false]
      exact ih

theorem scan_restart_eq (epc type : Nat) (tbl : List iseq_catch_table_entry) (c : catch_vars) :
    scan_restart epc type tbl c =
      match first_covering (fun e => e.type == CATCH_TYPE_ENSURE || e.type == type) epc tbl with
      | some e =>
        if e.type = CATCH_TYPE_ENSURE then .through ⟨e.iseq, e.cont, e.sp⟩ else .restart e
      | none => .through c := by
  induction tbl with
  | nil => rfl
  | cons e es ih =>
    unfold scan_restart
    by_cases hc : entry_covers e epc = true
    · by_cases ht : e.type = CATCH_TYPE_ENSURE
      · rw [first_covering_cons_pos es hc (by simp [ht])]
        simp [hc, ht]
      · by_cases ht2 : e.type = type
        · rw [first_covering_cons_pos es hc (by simp [ht2])]
          simp [hc, ht, ht2]
        · rw [first_covering_cons_neg es (Or.inr (by simp [ht, ht2]))]
          simp only [hc, ht, ht2, if_true, if_false]
          exact ih
    · rw [first_covering_cons_neg es (Or.inl (by simpa using hc))]
      simp only [hc, if_false]
      exact ih

/-- The catch table lookup of `vm_exec` is the search for the first covering
entry that is eligible for the unwind kind. -/
theorem catch_table_lookup_eq (th : rb_thread_t) (f : rb_control_frame_t) (iseq : rb_iseq_t)
    (epc state : Nat) (err : VALUE) (escape_dfp : Nat) (c : catch_vars) :
    catch_table_lookup th f iseq epc state err escape_dfp c =
      match first_covering
          (eligible_entry state f.dfp (th.throwobjs err).catch_point escape_dfp)
          epc iseq.catch_table with
      | none => .through c
      | some e =>
        if e.type = CATCH_TYPE_ENSURE ∨ (state = TAG_RAISE ∧ e.type = CATCH_TYPE_RESCUE) then
          .through ⟨e.iseq, e.cont, e.sp⟩
        else .restart e := by
  unfold catch_table_lookup
  by_cases h1 : state = TAG_RAISE
  · subst h1
    rw [if_pos rfl, scan_raise_eq]
    have hp : eligible_entry TAG_RAISE f.dfp (th.throwobjs err).catch_point escape_dfp
        = raise_entry := by
      funext e
      simp [eligible_entry, raise_entry, TAG_RAISE, TAG_RETRY, TAG_BREAK, TAG_REDO, TAG_NEXT,
        Bool.or_comm]
    rw [hp]
    cases hfc : first_covering raise_entry epc iseq.catch_table with
    | none => rfl
    | some e =>
      have := List.find?_some hfc
      simp only [raise_entry, Bool.and_eq_true, Bool.or_eq_true, beq_iff_eq] at this
      simp only
      rw [if_pos]
      rcases this.2 with h | h
      · exact Or.inr ⟨trivial, h⟩
      · exact Or.inl h
  · rw [if_neg h1]
    by_cases h2 : state = TAG_RETRY
    · subst h2
      rw [if_pos rfl, scan_retry_eq]
      have hp : eligible_entry TAG_RETRY f.dfp (th.throwobjs err).catch_point escape_dfp
          = fun e => e.type == CATCH_TYPE_ENSURE ||
              (e.type == CATCH_TYPE_RETRY && f.dfp == (th.throwobjs err).catch_point) := by
        funext e
        simp [eligible_entry, TAG_RAISE, TAG_RETRY, TAG_BREAK, TAG_REDO, TAG_NEXT]
      rw [hp]
      cases first_covering _ epc iseq.catch_table with
      | none => rfl
      | some e => simp [TAG_RAISE, TAG_RETRY]
    · rw [if_neg h2]
      by_cases h3 : state = TAG_BREAK ∧ escape_dfp - escape_dfp % 4 = 0
      · rw [if_pos h3, scan_restart_eq]
        have hp : eligible_entry state f.dfp (th.throwobjs err).catch_point escape_dfp
            = fun e => e.type == CATCH_TYPE_ENSURE || e.type == CATCH_TYPE_BREAK := by
          funext e
          simp [eligible_entry, h3.1, h3.2, TAG_RAISE, TAG_RETRY, TAG_BREAK, TAG_REDO, TAG_NEXT]
        rw [hp]
        cases first_covering _ epc iseq.catch_table with
        | none => rfl
        | some e => simp [h1]
      · rw [if_neg h3]
        by_cases h4 : state = TAG_REDO
        · rw [if_pos h4, scan_restart_eq]
          have hp : eligible_entry state f.dfp (th.throwobjs err).catch_point escape_dfp
              = fun e => e.type == CATCH_TYPE_ENSURE || e.type == CATCH_TYPE_REDO := by
            funext e
            simp [eligible_entry, h4, TAG_RAISE, TAG_RETRY, TAG_BREAK, TAG_REDO, TAG_NEXT]
          rw [hp]
          cases first_covering _ epc iseq.catch_table with
          | none => rfl
          | some e => simp [h1]
        · rw [if_neg h4]
          by_cases h5 : state = TAG_NEXT
          · rw [if_pos h5, scan_restart_eq]
            have hp : eligible_entry state f.dfp (th.throwobjs err).catch_point escape_dfp
                = fun e => e.type == CATCH_TYPE_ENSURE || e.type == CATCH_TYPE_NEXT := by
              funext e
              simp [eligible_entry, h5, TAG_RAISE, TAG_RETRY, TAG_BREAK, TAG_REDO, TAG_NEXT]
            rw [hp]
            cases first_covering _ epc iseq.catch_table with
            | none => rfl
            | some e => simp [h1]
          · rw [if_neg h5, scan_ensure_eq]
            have hp : eligible_entry state f.dfp (th.throwobjs err).catch_point escape_dfp
                = ensure_entry := by
              funext e
              simp only [eligible_entry, ensure_entry]
              have e1 : (state == TAG_RAISE) = false := by simpa using h1
              have e2 : (state == TAG_RETRY) = false := by simpa using h2
              have e4 : (state == TAG_REDO) = false := by simpa using h4
              have e5 : (state == TAG_NEXT) = false := by simpa using h5
              have e3 : (state == TAG_BREAK && (escape_dfp - escape_dfp % 4 == 0 &&
                  e.type == CATCH_TYPE_BREAK)) = false := by
                by_cases hb : state = TAG_BREAK
                · have : ¬ escape_dfp - escape_dfp % 4 = 0 := fun h => h3 ⟨hb, h⟩
                  simp [this]
                · simp [hb]
              simp [e1, e2, e3, e4, e5]
            rw [hp]
            cases hfc : first_covering ensure_entry epc iseq.catch_table with
            | none => rfl
            | some e =>
              have := List.find?_some hfc
              simp only [ensure_entry, Bool.and_eq_true, beq_iff_eq] at this
              simp [this.2]

theorem handle_frame_raise (th : rb_thread_t) (f : rb_control_frame_t) (iseq : rb_iseq_t)
    (err : VALUE) (escape_dfp : Nat) :
    handle_frame th f iseq TAG_RAISE err escape_dfp =
      match first_covering raise_entry (frame_epc f iseq) iseq.catch_table with
      | some e =>
        if e.iseq ≠ 0 then dispatch_handler th f iseq err ⟨e.iseq, e.cont, e.sp⟩
        else skip_frame th TAG_RAISE err escape_dfp
      | none => skip_frame th TAG_RAISE err escape_dfp := by
  simp only [handle_frame, handle_break_return, catch_table_lookup, scan_raise_eq, frame_epc,
    TAG_RAISE, TAG_BREAK, TAG_RETURN]
  simp only [Nat.reduceEqDiff, or_self, if_false, if_true]
  cases first_covering raise_entry ((f.pc - iseq.iseq_encoded) / SIZEOF_VALUE)
    iseq.catch_table with
  | none => simp
  | some e => simp

/-- C9: for a raise at the frame where unwinding stops, the handler entered is
that of the first entry, in table order, that covers `epc` and is of kind rescue
or ensure; without such an entry (or if it names no handler) no handler is
dispatched and the frame is skipped. -/
theorem vm_exec_raise_first_match (th : rb_thread_t) (F : Nat) (f : rb_control_frame_t)
    (iseq : rb_iseq_t) (err : VALUE) (escape_dfp : Nat)
    (hs : unwinding_stops_at th F f) (hi : f.iseq = .iseq iseq) :
    exception_handler_pass th TAG_RAISE err escape_dfp =
      match iseq.catch_table.find? (fun e =>
          (decide (e.start < frame_epc f iseq) && decide (e.end_ ≥ frame_epc f iseq)) &&
          (e.type == CATCH_TYPE_RESCUE || e.type == CATCH_TYPE_ENSURE)) with
      | some e =>
        if e.iseq ≠ 0 then
          dispatch_handler { th with cfp := F } f iseq err ⟨e.iseq, e.cont, e.sp⟩
        else skip_frame { th with cfp := F } TAG_RAISE err escape_dfp
      | none => skip_frame { th with cfp := F } TAG_RAISE err escape_dfp := by
  rw [exception_handler_pass_at hs hi, handle_frame_raise]
  rfl

theorem raise_thread_stops (tbl : List iseq_catch_table_entry) (t : throw_object) :
    unwinding_stops_at (raise_thread tbl t) 1 (unwind_frame VM_FRAME_MAGIC_METHOD 1080 1080 tbl) :=
  ⟨by simp [raise_thread], by intro i h1 h2; simp [raise_thread] at h1; omega, rfl,
    by simp [unwind_frame], by simp [unwind_frame]⟩

/-- C9, witness: with the ensure entry first in the table, a raise at offset 3
dispatches the handler of the ensure entry. -/
theorem vm_exec_raise_first_match_witness :
    unwinding_stops_at (raise_thread [ensure_inner, rescue_outer] ⟨42, 0, TAG_RAISE⟩) 1
      (unwind_frame VM_FRAME_MAGIC_METHOD 1080 1080 [ensure_inner, rescue_outer]) ∧
    exception_handler_pass (raise_thread [ensure_inner, rescue_outer] ⟨42, 0, TAG_RAISE⟩)
        TAG_RAISE 500 0 =
      dispatch_handler (raise_thread [ensure_inner, rescue_outer] ⟨42, 0, TAG_RAISE⟩)
        (unwind_frame VM_FRAME_MAGIC_METHOD 1080 1080 [ensure_inner, rescue_outer])
        { type := 0, local_size := 1, stack_max := 4, iseq_encoded := 96,
          catch_table := [ensure_inner, rescue_outer], insn_info_table := [] }
        500 ⟨700, 7, 2⟩ :=
  ⟨raise_thread_stops _ _,
   vm_exec_raise_first_match (raise_thread [ensure_inner, rescue_outer] ⟨42, 0, TAG_RAISE⟩) 1
    (unwind_frame VM_FRAME_MAGIC_METHOD 1080 1080 [ensure_inner, rescue_outer]) _ 500 0
    (raise_thread_stops _ _) rfl⟩

/-- C6, counterexample: with the rescue entry (range 0..10) before the ensure
entry (range 2..5) in the table and both covering offset 3, a raise enters
the handler of the rescue entry, not that of the ensure entry. -/
theorem vm_exec_nested_ensure_counterexample :
    entry_covers rescue_outer 3 = true ∧ entry_covers ensure_inner 3 = true ∧
    rescue_outer.start ≤ ensure_inner.start ∧ ensure_inner.end_ ≤ rescue_outer.end_ ∧
    (resumed_frame (exception_handler 1
        (raise_thread [rescue_outer, ensure_inner] ⟨42, 0, TAG_RAISE⟩) TAG_RAISE 500 0)).map
      rb_control_frame_t.iseq = some (.iseq rescue_iseq) ∧
    (resumed_frame (exception_handler 1
        (raise_thread [rescue_outer, ensure_inner] ⟨42, 0, TAG_RAISE⟩) TAG_RAISE 500 0)).map
      rb_control_frame_t.iseq ≠ some (.iseq ensure_iseq) := by
  refine ⟨by decide, by decide, by decide, by decide, rfl, ?_⟩
  have h : (resumed_frame (exception_handler 1
        (raise_thread [rescue_outer, ensure_inner] ⟨42, 0, TAG_RAISE⟩) TAG_RAISE 500 0)).map
      rb_control_frame_t.iseq = some (.iseq rescue_iseq) := rfl
  rw [h]
  decide

/-- C6, amended: on a raise, when the first entry in table order among the
covering entries of kind rescue or ensure is an ensure entry naming a handler,
that handler is dispatched, also if a rescue entry covers the same offset. -/
theorem vm_exec_raise_ensure_first (th : rb_thread_t) (F : Nat) (f : rb_control_frame_t)
    (iseq : rb_iseq_t) (err : VALUE) (escape_dfp : Nat) (ens resc : iseq_catch_table_entry)
    (hs : unwinding_stops_at th F f) (hi : f.iseq = .iseq iseq)
    (hfirst : first_covering raise_entry (frame_epc f iseq) iseq.catch_table = some ens)
    (_hens : ens.type = CATCH_TYPE_ENSURE) (hh : ens.iseq ≠ 0)
    (_hresc : resc ∈ iseq.catch_table ∧ resc.type = CATCH_TYPE_RESCUE ∧
      entry_covers resc (frame_epc f iseq) = true) :
    exception_handler_pass th TAG_RAISE err escape_dfp =
      dispatch_handler { th with cfp := F } f iseq err ⟨ens.iseq, ens.cont, ens.sp⟩ := by
  rw [exception_handler_pass_at hs hi, handle_frame_raise, hfirst]
  simp [hh]

/-- C6, witness of the amended claim: the inner ensure entry comes first in the
table and its handler is dispatched. -/
theorem vm_exec_raise_ensure_first_witness :
    first_covering raise_entry 3 [ensure_inner, rescue_outer] = some ensure_inner ∧
    exception_handler_pass (raise_thread [ensure_inner, rescue_outer] ⟨42, 0, TAG_RAISE⟩)
        TAG_RAISE 500 0 =
      dispatch_handler (raise_thread [ensure_inner, rescue_outer] ⟨42, 0, TAG_RAISE⟩)
        (unwind_frame VM_FRAME_MAGIC_METHOD 1080 1080 [ensure_inner, rescue_outer])
        { type := 0, local_size := 1, stack_max := 4, iseq_encoded := 96,
          catch_table := [ensure_inner, rescue_outer], insn_info_table := [] }
        500 ⟨700, 7, 2⟩ :=
  ⟨by decide,
   vm_exec_raise_ensure_first (raise_thread [ensure_inner, rescue_outer] ⟨42, 0, TAG_RAISE⟩) 1
    (unwind_frame VM_FRAME_MAGIC_METHOD 1080 1080 [ensure_inner, rescue_outer]) _ 500 0
    ensure_inner rescue_outer (raise_thread_stops _ _) rfl (by decide) rfl (by decide)
    ⟨by decide, rfl, by decide⟩⟩

/-- C10: whatever the unwind kind with which a frame's catch table is looked
up, the lookup returns the first entry in table order that covers `epc` and is
eligible for that kind, ensure entries being eligible for every kind; and if
that entry is an ensure entry naming a handler, the pass dispatches its
handler. -/
theorem vm_exec_lookup_first_eligible (th : rb_thread_t) (F : Nat) (f : rb_control_frame_t)
    (iseq : rb_iseq_t) (state : Nat) (err : VALUE) (escape_dfp : Nat)
    (th1 : rb_thread_t) (state1 escape_dfp1 : Nat) (c : catch_vars)
    (hs : unwinding_stops_at th F f) (hi : f.iseq = .iseq iseq)
    (hscan : handle_break_return { th with cfp := F } f iseq (frame_epc f iseq) state err
      escape_dfp = .ok (.through th1 state1 escape_dfp1 c)) :
    catch_table_lookup th1 f iseq (frame_epc f iseq) state1 err escape_dfp1 c =
      (match first_covering
          (eligible_entry state1 f.dfp (th1.throwobjs err).catch_point escape_dfp1)
          (frame_epc f iseq) iseq.catch_table with
      | none => .through c
      | some e =>
        if e.type = CATCH_TYPE_ENSURE ∨ (state1 = TAG_RAISE ∧ e.type = CATCH_TYPE_RESCUE) then
          .through ⟨e.iseq, e.cont, e.sp⟩
        else .restart e) ∧
    ∀ e, first_covering
          (eligible_entry state1 f.dfp (th1.throwobjs err).catch_point escape_dfp1)
          (frame_epc f iseq) iseq.catch_table = some e →
      e.type = CATCH_TYPE_ENSURE → e.iseq ≠ 0 →
      exception_handler_pass th state err escape_dfp =
        dispatch_handler th1 f iseq err ⟨e.iseq, e.cont, e.sp⟩ := by
  refine ⟨catch_table_lookup_eq _ _ _ _ _ _ _ _, ?_⟩
  intro e he hty hne
  rw [exception_handler_pass_at hs hi]
  unfold handle_frame
  simp only [frame_epc] at hscan he
  simp only [hscan, catch_table_lookup_eq, he, hty, true_or, if_true]
  simp [hne]

/-- C10, witness: for a next unwind the break entry is not eligible, the ensure
entry behind it is the first eligible one, and its handler is dispatched. -/
theorem vm_exec_lookup_first_eligible_witness :
    handle_break_return (raise_thread [break_inner, ensure_inner] ⟨42, 0, TAG_NEXT⟩)
        (unwind_frame VM_FRAME_MAGIC_METHOD 1080 1080 [break_inner, ensure_inner])
        { type := 0, local_size := 1, stack_max := 4, iseq_encoded := 96,
          catch_table := [break_inner, ensure_inner], insn_info_table := [] }
        3 TAG_NEXT 500 0 =
      .ok (.through (raise_thread [break_inner, ensure_inner] ⟨42, 0, TAG_NEXT⟩) TAG_NEXT 0
        ⟨0, 0, 0⟩) ∧
    first_covering (eligible_entry TAG_NEXT 1080 0 0) 3 [break_inner, ensure_inner] =
      some ensure_inner ∧
    catch_table_lookup (raise_thread [break_inner, ensure_inner] ⟨42, 0, TAG_NEXT⟩)
        (unwind_frame VM_FRAME_MAGIC_METHOD 1080 1080 [break_inner, ensure_inner])
        { type := 0, local_size := 1, stack_max := 4, iseq_encoded := 96,
          catch_table := [break_inner, ensure_inner], insn_info_table := [] }
        3 TAG_NEXT 500 0 ⟨0, 0, 0⟩ = .through ⟨700, 7, 2⟩ ∧
    exception_handler_pass (raise_thread [break_inner, ensure_inner] ⟨42, 0, TAG_NEXT⟩)
        TAG_NEXT 500 0 =
      dispatch_handler (raise_thread [break_inner, ensure_inner] ⟨42, 0, TAG_NEXT⟩)
        (unwind_frame VM_FRAME_MAGIC_METHOD 1080 1080 [break_inner, ensure_inner])
        { type := 0, local_size := 1, stack_max := 4, iseq_encoded := 96,
          catch_table := [break_inner, ensure_inner], insn_info_table := [] }
        500 ⟨700, 7, 2⟩ :=
  ⟨rfl, by decide,
   (vm_exec_lookup_first_eligible (raise_thread [break_inner, ensure_inner] ⟨42, 0, TAG_NEXT⟩)
      1 (unwind_frame VM_FRAME_MAGIC_METHOD 1080 1080 [break_inner, ensure_inner]) _
      TAG_NEXT 500 0 _ TAG_NEXT 0 ⟨0, 0, 0⟩ (raise_thread_stops _ _) rfl rfl).1,
   (vm_exec_lookup_first_eligible (raise_thread [break_inner, ensure_inner] ⟨42, 0, TAG_NEXT⟩)
      1 (unwind_frame VM_FRAME_MAGIC_METHOD 1080 1080 [break_inner, ensure_inner]) _
      TAG_NEXT 500 0 _ TAG_NEXT 0 ⟨0, 0, 0⟩ (raise_thread_stops _ _) rfl rfl).2
      ensure_inner (by decide) rfl (by decide)⟩

/-- C7, counterexample: a retry entry covers the current offset 3, yet (a) with
a catch point that is not the frame's `dfp` the retry unwind is not re-entered
but re-raised to the native caller, and (b) with a covering ensure entry
earlier in the table the ensure handler is entered instead. -/
theorem vm_exec_retry_counterexample :
    entry_covers retry_inner 3 = true ∧
    jumped_tag (exception_handler 1 (raise_thread [retry_inner] ⟨0, 4444, TAG_RETRY⟩)
      TAG_RETRY 500 0) = some (TAG_RETRY, 3, 500) ∧
    (resumed_frame (exception_handler 1
        (raise_thread [ensure_inner, retry_inner] ⟨0, 1080, TAG_RETRY⟩) TAG_RETRY 500 0)).map
      rb_control_frame_t.iseq = some (.iseq ensure_iseq) :=
  ⟨by decide, rfl, rfl⟩

/-- C7, amended: for a retry unwind whose catch point is the `dfp` of the frame
`F` where unwinding stops, if the first covering entry of kind ensure or retry
is a retry entry, the interpreter loop is re-entered in `F` with `pc` at the
entry's continuation; `F` stays the current frame, no other frame changes, and
`errinfo` is nil. -/
theorem vm_exec_retry_reenters (fuel : Nat) (th : rb_thread_t) (F : Nat)
    (f : rb_control_frame_t) (iseq : rb_iseq_t) (err : VALUE) (escape_dfp : Nat)
    (e : iseq_catch_table_entry)
    (hs : unwinding_stops_at th F f) (hi : f.iseq = .iseq iseq)
    (hcp : (th.throwobjs err).catch_point = f.dfp)
    (hfirst : first_covering retry_entry (frame_epc f iseq) iseq.catch_table = some e)
    (hty : e.type = CATCH_TYPE_RETRY) :
    exception_handler (fuel + 1) th TAG_RETRY err escape_dfp =
      .ok (.vm_loop_start
        { th with
            cfp := F,
            frames := th.frames.set F
              { f with pc := iseq.iseq_encoded + SIZEOF_VALUE * e.cont },
            errinfo := Qnil }) := by
  unfold exception_handler
  rw [exception_handler_pass_at hs hi]
  have hne : e.type ≠ CATCH_TYPE_ENSURE := by rw [hty]; decide
  have hp : first_covering
      (fun e : iseq_catch_table_entry => e.type == CATCH_TYPE_ENSURE || e.type == CATCH_TYPE_RETRY)
      ((f.pc - iseq.iseq_encoded) / SIZEOF_VALUE) iseq.catch_table = some e := hfirst
  simp [handle_frame, handle_break_return, catch_table_lookup, scan_retry_eq, hcp, hp,
    hne, restart_frame, TAG_RETRY, TAG_BREAK, TAG_RETURN, TAG_RAISE]

/-- C7, witness of the amended claim: a retry whose catch point is the frame's
`dfp` skips the break entry and re-enters at the continuation of the retry
entry. -/
theorem vm_exec_retry_reenters_witness :
    first_covering retry_entry 3 [break_inner, retry_inner] = some retry_inner ∧
    exception_handler 1 (raise_thread [break_inner, retry_inner] ⟨0, 1080, TAG_RETRY⟩)
        TAG_RETRY 500 0 =
      .ok (.vm_loop_start
        { raise_thread [break_inner, retry_inner] ⟨0, 1080, TAG_RETRY⟩ with
            cfp := 1,
            frames := (raise_thread [break_inner, retry_inner] ⟨0, 1080, TAG_RETRY⟩).frames.set 1
              { unwind_frame VM_FRAME_MAGIC_METHOD 1080 1080 [break_inner, retry_inner] with
                pc := 96 + SIZEOF_VALUE * 7 },
            errinfo := Qnil }) :=
  ⟨by decide,
   vm_exec_retry_reenters 0 (raise_thread [break_inner, retry_inner] ⟨0, 1080, TAG_RETRY⟩) 1
    (unwind_frame VM_FRAME_MAGIC_METHOD 1080 1080 [break_inner, retry_inner]) _ 500 0
    retry_inner (raise_thread_stops _ _) rfl rfl (by decide) rfl⟩

theorem exception_handler_pass_stops {th : rb_thread_t} {F : Nat} {f : rb_control_frame_t}
    (hs : unwinding_stops_at th F f) (state : Nat) (err : VALUE) (escape_dfp : Nat) :
    exception_handler_pass th state err escape_dfp =
      match f.iseq with
      | .iseq iseq => handle_frame { th with cfp := F } f iseq state err escape_dfp
      | _ => .undefined := by
  have hF : F < th.frames.length := (List.getElem?_eq_some.mp hs.2.2.1).1
  have hle := hs.1
  unfold exception_handler_pass
  rw [skip_frames_spec th.frames F f _ th rfl hs (by omega)]
  simp only [hs.2.2.1]

theorem handle_frame_escape_dfp (th : rb_thread_t) (f : rb_control_frame_t) (iseq : rb_iseq_t)
    (state : Nat) (err : VALUE) (e1 e2 : Nat) (hst : state = TAG_BREAK ∨ state = TAG_RETURN) :
    handle_frame th f iseq state err e1 = handle_frame th f iseq state err e2 := by
  simp [handle_frame, handle_break_return, hst]

theorem first_covering_none {p : iseq_catch_table_entry → Bool} {epc : Nat}
    {tbl : List iseq_catch_table_entry}
    (h : ∀ e ∈ tbl, entry_covers e epc = true → p e = false) :
    first_covering p epc tbl = none := by
  unfold first_covering
  rw [List.find?_eq_none]
  intro e he
  cases hc : entry_covers e epc with
  | false => simp
  | true => simp [h e he hc]

theorem handle_frame_passes (th : rb_thread_t) (g : rb_control_frame_t) (iseq : rb_iseq_t)
    (state cp : Nat) (err : VALUE) (escape_dfp : Nat)
    (hst : state = TAG_BREAK ∨ state = TAG_RETURN)
    (hcp : (th.throwobjs err).catch_point = cp)
    (hi : g.iseq = .iseq iseq) (hp : frame_passes state cp g) :
    handle_frame th g iseq state err escape_dfp = skip_frame th state err cp := by
  obtain ⟨_, iseq', hi', hd, hall⟩ := hp
  rw [hi] at hi'
  cases hi'
  have hnone : first_covering (eligible_entry state g.dfp cp cp) (frame_epc g iseq)
      iseq.catch_table = none := by
    apply first_covering_none
    intro e he hc
    obtain ⟨h1, h2⟩ := hall e he hc
    rcases hst with hst | hst
    · subst hst
      by_cases hnull : cp - cp % 4 = 0
      · have := h2 rfl hnull
        simp [eligible_entry, h1, this, TAG_BREAK, TAG_RAISE, TAG_RETRY, TAG_REDO, TAG_NEXT]
      · simp [eligible_entry, h1, hnull, TAG_BREAK, TAG_RAISE, TAG_RETRY, TAG_REDO, TAG_NEXT]
    · subst hst
      simp [eligible_entry, h1, TAG_BREAK, TAG_RAISE, TAG_RETRY, TAG_REDO, TAG_NEXT, TAG_RETURN]
  unfold handle_frame
  have hbr : handle_break_return th g iseq ((g.pc - iseq.iseq_encoded) / SIZEOF_VALUE) state err
      escape_dfp = .ok (.through th state cp ⟨0, 0, 0⟩) := by
    simp [handle_break_return, hst, hcp, hd]
  simp only [hbr, catch_table_lookup_eq, hcp]
  simp only [frame_epc] at hnone
  simp [hnone]

theorem exists_unwinding_stops :
    ∀ (n : Nat) (th : rb_thread_t) (T : Nat) (fT : rb_control_frame_t),
      T - th.cfp = n → th.cfp ≤ T →
      (∀ i, th.cfp ≤ i → i < T → ∃ g : rb_control_frame_t, th.frames[i]? = some g) →
      th.frames[T]? = some fT → fT.pc ≠ 0 → fT.iseq ≠ .null →
      ∃ (F : Nat) (f : rb_control_frame_t), F ≤ T ∧ unwinding_stops_at th F f := by
  intro n
  induction n with
  | zero =>
    intro th T fT hn hle _ hT h1 h2
    have : th.cfp = T := by omega
    subst this
    exact ⟨th.cfp, fT, le_refl _, le_refl _, fun i a b => by omega, hT, h1, h2⟩
  | succ n ih =>
    intro th T fT hn hle hall hT h1 h2
    obtain ⟨g, hg⟩ := hall th.cfp (le_refl _) (by omega)
    by_cases hd : g.pc = 0 ∨ g.iseq = .null
    · obtain ⟨F, f, hF, hs⟩ := ih { th with cfp := th.cfp + 1 } T fT (by simp only; omega)
        (by simp only; omega) (fun i a b => hall i (by simp only at a; omega) b) hT h1 h2
      obtain ⟨s1, s2, s3, s4, s5⟩ := hs
      simp only at s1 s2 s3
      refine ⟨F, f, hF, by omega, ?_, s3, s4, s5⟩
      intro i a b
      by_cases hi : i = th.cfp
      · subst hi; exact ⟨g, hg, hd⟩
      · exact s2 i (by omega) b
    · have hd' : g.pc ≠ 0 ∧ g.iseq ≠ .null := by
        constructor
        · intro h; exact hd (Or.inl h)
        · intro h; exact hd (Or.inr h)
      exact ⟨th.cfp, g, hle, le_refl _, fun i a b => by omega, hg, hd'.1, hd'.2⟩

/-- An unwind of kind break or return that passes every frame from `th->cfp` up
to a live frame `T` reaches `T` with its kind and error value unchanged, after
at most `T - th->cfp` passes of the handler. -/
theorem unwind_walk (state cp : Nat) (err : VALUE)
    (hst : state = TAG_BREAK ∨ state = TAG_RETURN) :
    ∀ (n : Nat) (th : rb_thread_t) (T : Nat) (fT : rb_control_frame_t) (escape_dfp : Nat),
      T - th.cfp = n → th.cfp ≤ T →
      (th.throwobjs err).catch_point = cp →
      unwind_passes th state cp T →
      th.frames[T]? = some fT → fT.pc ≠ 0 → fT.iseq ≠ .null →
      ∃ k, k ≤ T - th.cfp ∧ ∀ fuel,
        exception_handler (fuel + 1 + k) th state err escape_dfp =
          exception_handler (fuel + 1) { th with cfp := T } state err cp := by
  intro n
  induction n with
  | zero =>
    intro th T fT edfp hn hle hcp _ hT h1 h2
    have : th.cfp = T := by omega
    subst this
    refine ⟨0, Nat.zero_le _, fun fuel => ?_⟩
    have hs : unwinding_stops_at th th.cfp fT :=
      ⟨le_refl _, fun i a b => by omega, hT, h1, h2⟩
    show exception_handler (fuel + 1) th state err edfp = exception_handler (fuel + 1) th state err cp
    unfold exception_handler
    rw [exception_handler_pass_stops hs, exception_handler_pass_stops hs]
    cases fT.iseq with
    | iseq i => simp only; rw [handle_frame_escape_dfp _ _ _ _ _ edfp cp hst]
    | null => rfl
    | ifunc _ => rfl
  | succ n ih =>
    intro th T fT edfp hn hle hcp hpass hT h1 h2
    obtain ⟨g, hg, hgc⟩ := hpass th.cfp (le_refl _) (by omega)
    have hpass' : unwind_passes { th with cfp := th.cfp + 1 } state cp T :=
      fun i a b => hpass i (by simp only at a; omega) b
    rcases hgc with hd | ⟨hp, nx, hnx, hnf⟩
    · obtain ⟨k, hk, hfuel⟩ := ih { th with cfp := th.cfp + 1 } T fT edfp
        (by simp only; omega) (by simp only; omega) hcp hpass' hT h1 h2
      simp only at hk
      refine ⟨k, by omega, fun fuel => ?_⟩
      rw [← hfuel fuel]
      obtain ⟨F, f, _, hs⟩ := exists_unwinding_stops _ { th with cfp := th.cfp + 1 } T fT rfl
        (by simp only; omega)
        (fun i a b => (hpass i (by simp only at a; omega) b).imp fun _ h => h.1) hT h1 h2
      have hs0 : unwinding_stops_at th F f := by
        obtain ⟨s1, s2, s3, s4, s5⟩ := hs
        simp only at s1 s2 s3
        refine ⟨by omega, ?_, s3, s4, s5⟩
        intro i a b
        by_cases hi : i = th.cfp
        · subst hi; exact ⟨g, hg, hd⟩
        · exact s2 i (by omega) b
      have e1 := exception_handler_pass_stops hs0 state err edfp
      have e2 := exception_handler_pass_stops hs state err edfp
      have : exception_handler_pass th state err edfp =
          exception_handler_pass { th with cfp := th.cfp + 1 } state err edfp := by
        rw [e1, e2]
      have hx : fuel + 1 + k = (fuel + k) + 1 := by omega
      rw [hx]
      unfold exception_handler
      rw [this]
    · obtain ⟨k, hk, hfuel⟩ := ih { th with cfp := th.cfp + 1 } T fT cp
        (by simp only; omega) (by simp only; omega) hcp hpass' hT h1 h2
      simp only at hk
      refine ⟨k + 1, by omega, fun fuel => ?_⟩
      rw [← hfuel fuel]
      obtain ⟨hpc, iseq, hi, hrest⟩ := hp
      have hs0 : unwinding_stops_at th th.cfp g :=
        ⟨le_refl _, fun i a b => by omega, hg, hpc, by rw [hi]; simp⟩
      have hpf : exception_handler_pass th state err edfp =
          .ok (.again { th with cfp := th.cfp + 1 } state cp) := by
        rw [exception_handler_pass_at hs0 hi]
        rw [handle_frame_passes _ g iseq state cp err edfp hst hcp hi
          ⟨hpc, iseq, hi, hrest⟩]
        simp only [skip_frame, hnx]
        rw [if_pos hnf]
      have hx : fuel + 1 + (k + 1) = (fuel + 1 + k) + 1 := by omega
      rw [hx]
      conv => lhs; unfold exception_handler
      rw [hpf]

/-- C5, counterexample: a break whose catch point 4444 is the `dfp` of no frame,
with no ensure entry anywhere, leaves `vm_exec` as the tag `TAG_BREAK` itself
with the throw object in `errinfo`, not as a raise of a `LocalJumpError`; and a
break with a null catch point is caught by a covering break entry. -/
theorem vm_exec_break_unmatched_counterexample :
    (∀ g ∈ nested_frames, g.dfp ≠ 4444) ∧
    jumped_tag (exception_handler 10 (unwind_thread nested_frames ⟨42, 4444, TAG_BREAK⟩)
      TAG_BREAK 500 0) = some (TAG_BREAK, 8, 500) ∧
    TAG_BREAK ≠ TAG_RAISE ∧
    (resumed_frame (exception_handler 1 (raise_thread [break_inner] ⟨42, 0, TAG_BREAK⟩)
      TAG_BREAK 500 0)).map rb_control_frame_t.pc = some (96 + SIZEOF_VALUE * 7) :=
  ⟨by decide, rfl, by decide, rfl⟩

/-- C5, amended: a break that passes every frame up to the frame `L` below the
finish frame (its catch point is no frame's `dfp`, no ensure entry covers, and
no break entry if the catch point is null) leaves `vm_exec` by re-raising the
tag `TAG_BREAK` itself to the native caller, with the finish frame popped and
the throw object in `errinfo`. -/
theorem vm_exec_break_unmatched (th : rb_thread_t) (L : Nat) (fl pf : rb_control_frame_t)
    (err : VALUE) (escape_dfp : Nat)
    (hle : th.cfp ≤ L)
    (hpass : unwind_passes th TAG_BREAK (th.throwobjs err).catch_point L)
    (hl : th.frames[L]? = some fl)
    (hlp : frame_passes TAG_BREAK (th.throwobjs err).catch_point fl)
    (hfin : th.frames[L + 1]? = some pf)
    (hft : VM_FRAME_TYPE pf = VM_FRAME_MAGIC_FINISH) :
    exception_handler (th.frames.length + 1) th TAG_BREAK err escape_dfp =
      .ok (.JUMP_TAG { th with cfp := L + 2, errinfo := err } TAG_BREAK) := by
  obtain ⟨hpc, iseq, hi, hrest⟩ := hlp
  have hnn : fl.iseq ≠ .null := by rw [hi]; simp
  obtain ⟨k, hk, hfuel⟩ := unwind_walk TAG_BREAK (th.throwobjs err).catch_point err
    (Or.inl rfl) (L - th.cfp) th L fl escape_dfp rfl hle rfl hpass hl hpc hnn
  have hL : L + 1 < th.frames.length := (List.getElem?_eq_some.mp hfin).1
  have hx : th.frames.length + 1 = (th.frames.length - k) + 1 + k := by omega
  rw [hx, hfuel]
  have hs : unwinding_stops_at { th with cfp := L } L fl :=
    ⟨le_refl _, fun i a b => by simp only at a; omega, hl, hpc, hnn⟩
  unfold exception_handler
  rw [exception_handler_pass_at hs hi,
    handle_frame_passes { th with cfp := L } fl iseq TAG_BREAK (th.throwobjs err).catch_point
      err _ (Or.inl rfl) rfl hi ⟨hpc, iseq, hi, hrest⟩]
  simp only [skip_frame, hfin, hft]
  simp [vm_pop_frame]

theorem nested_frames_pass :
    unwind_passes (unwind_thread nested_frames ⟨42, 4444, TAG_BREAK⟩) TAG_BREAK 4444 6 := by
  intro i h1 h2
  simp only [unwind_thread] at h1
  have hi : i = 1 ∨ i = 2 ∨ i = 3 ∨ i = 4 ∨ i = 5 := by omega
  rcases hi with hi | hi | hi | hi | hi <;> subst hi <;>
    exact ⟨_, rfl, Or.inr ⟨⟨by decide, _, rfl, by decide, by intro e he; simp at he⟩,
      _, rfl, by decide⟩⟩

/-- C5, witness of the amended claim: the break with catch point 4444 passes all
frames of `nested_frames` and is re-raised as `TAG_BREAK` with both the caller
and the finish frame popped. -/
theorem vm_exec_break_unmatched_witness :
    unwind_passes (unwind_thread nested_frames ⟨42, 4444, TAG_BREAK⟩) TAG_BREAK 4444 6 ∧
    exception_handler 10 (unwind_thread nested_frames ⟨42, 4444, TAG_BREAK⟩) TAG_BREAK 500 0 =
      .ok (.JUMP_TAG { unwind_thread nested_frames ⟨42, 4444, TAG_BREAK⟩ with
        cfp := 8, errinfo := 500 } TAG_BREAK) :=
  ⟨nested_frames_pass,
   vm_exec_break_unmatched (unwind_thread nested_frames ⟨42, 4444, TAG_BREAK⟩) 6
    (unwind_frame VM_FRAME_MAGIC_METHOD 1080 1080 []) (finish_frame 1064) 500 0
    (by decide) (nested_frames_pass) rfl
    ⟨by decide, _, rfl, by decide, by intro e he; simp at he⟩ rfl (by decide)⟩

/-- C8, counterexample: with two block frames above the method frame, the
return passes both block frames (and the frames of the methods that yield to
them) as a return; the only reclassification to break happens at the method
frame, after which the caller resumes with the payload pushed. -/
theorem vm_exec_return_in_block_counterexample :
    passed_signal 500 (exception_handler_pass return_thread TAG_RETURN 500 0) =
      some (2, TAG_RETURN, ⟨42, 1120, TAG_RETURN⟩) ∧
    passed_signal 500 (exception_handler_pass { return_thread with cfp := 2 } TAG_RETURN 500
      1120) = some (3, TAG_RETURN, ⟨42, 1120, TAG_RETURN⟩) ∧
    passed_signal 500 (exception_handler_pass { return_thread with cfp := 3 } TAG_RETURN 500
      1120) = some (4, TAG_RETURN, ⟨42, 1120, TAG_RETURN⟩) ∧
    passed_signal 500 (exception_handler_pass { return_thread with cfp := 4 } TAG_RETURN 500
      1120) = some (5, TAG_RETURN, ⟨42, 1120, TAG_RETURN⟩) ∧
    passed_signal 500 (exception_handler_pass { return_thread with cfp := 5 } TAG_RETURN 500
      1120) = some (6, TAG_BREAK, ⟨42, 1080, TAG_BREAK⟩) ∧
    (resumed_frame (exception_handler 10 return_thread TAG_RETURN 500 0)).map
      rb_control_frame_t.sp = some (1096 + SIZEOF_VALUE) :=
  ⟨rfl, rfl, rfl, rfl, rfl, rfl⟩

/-- C8, amended: a return whose catch point is the `dfp` of the method frame
`M` passes the frames above `M` unchanged, as a return.  At `M` (no ensure
entry covering), if the enclosing frame `M + 1` is not the finish frame, the
throw object is reclassified once, to a break with the enclosing frame's `dfp`
as catch point, and the enclosing frame resumes with the payload pushed on its
stack; if the enclosing frame is the finish frame, `vm_exec` finishes with the
payload as result and both frames popped. -/
theorem vm_exec_return_in_block (th : rb_thread_t) (M : Nat) (fm fc : rb_control_frame_t)
    (im : rb_iseq_t) (err : VALUE) (escape_dfp : Nat)
    (hle : th.cfp ≤ M)
    (hpass : unwind_passes th TAG_RETURN (th.throwobjs err).catch_point M)
    (hm : th.frames[M]? = some fm) (hmpc : fm.pc ≠ 0) (hmi : fm.iseq = .iseq im)
    (hmd : fm.dfp = (th.throwobjs err).catch_point)
    (hnn : fm.dfp - fm.dfp % 4 ≠ 0)
    (hens : ∀ e ∈ im.catch_table, entry_covers e (frame_epc fm im) = true →
      e.type ≠ CATCH_TYPE_ENSURE)
    (hc : th.frames[M + 1]? = some fc) :
    (fc.pc ≠ th.finish_insn_seq → VM_FRAME_TYPE fc ≠ VM_FRAME_MAGIC_FINISH → fc.pc ≠ 0 →
      (∃ ic, fc.iseq = .iseq ic) →
      exception_handler (th.frames.length + 1) th TAG_RETURN err escape_dfp =
        .ok (.vm_loop_start
          { th with
              cfp := M + 1,
              throwobjs := fun v =>
                if v = err then
                  { (th.throwobjs err) with catch_point := fc.dfp, state := TAG_BREAK }
                else th.throwobjs v,
              mem := store th.mem fc.sp (th.throwobjs err).val,
              frames := th.frames.set (M + 1) { fc with sp := fc.sp + SIZEOF_VALUE },
              errinfo := Qnil })) ∧
    (fc.pc = th.finish_insn_seq →
      exception_handler (th.frames.length + 1) th TAG_RETURN err escape_dfp =
        .ok (.finish_vme { th with cfp := M + 2, errinfo := Qnil } (th.throwobjs err).val)) := by
  have hmn : fm.iseq ≠ .null := by rw [hmi]; simp
  obtain ⟨k, hk, hfuel⟩ := unwind_walk TAG_RETURN (th.throwobjs err).catch_point err
    (Or.inr rfl) (M - th.cfp) th M fm escape_dfp rfl hle rfl hpass hm hmpc hmn
  have hL : M + 1 < th.frames.length := (List.getElem?_eq_some.mp hc).1
  have hx : th.frames.length + 1 = (th.frames.length - k - 1) + 1 + 1 + k := by omega
  have hs : unwinding_stops_at { th with cfp := M } M fm :=
    ⟨le_refl _, fun i a b => by simp only at a; omega, hm, hmpc, hmn⟩
  have hnone : first_covering ensure_entry ((fm.pc - im.iseq_encoded) / SIZEOF_VALUE)
      im.catch_table = none := by
    apply first_covering_none
    intro e he hcov
    simpa [ensure_entry] using hens e he hcov
  constructor
  · intro h1 h2 h3 ⟨ic, h4⟩
    rw [hx, hfuel]
    unfold exception_handler
    rw [exception_handler_pass_at hs hmi]
    have hnn' : ¬ ((th.throwobjs err).catch_point - (th.throwobjs err).catch_point % 4 = 0) := by
      rw [← hmd]; exact hnn
    have hpM : handle_frame { th with cfp := M } fm im TAG_RETURN err
        (th.throwobjs err).catch_point =
        .ok (.again
          { th with
              cfp := M + 1,
              throwobjs := fun v =>
                if v = err then
                  { (th.throwobjs err) with catch_point := fc.dfp, state := TAG_BREAK }
                else th.throwobjs v }
          TAG_BREAK (th.throwobjs err).catch_point) := by
      have hbr : handle_break_return { th with cfp := M } fm im
          ((fm.pc - im.iseq_encoded) / SIZEOF_VALUE) TAG_RETURN err
          (th.throwobjs err).catch_point =
          .ok (.through
            { th with
                cfp := M,
                throwobjs := fun v =>
                  if v = err then
                    { (th.throwobjs err) with catch_point := fc.dfp, state := TAG_BREAK }
                  else th.throwobjs v }
            TAG_BREAK (th.throwobjs err).catch_point ⟨0, 0, 0⟩) := by
        simp [handle_break_return, hmd, hc, h1, TAG_RETURN]
      unfold handle_frame
      simp only [hbr]
      have hlk : catch_table_lookup
          { th with
              cfp := M,
              throwobjs := fun v =>
                if v = err then
                  { (th.throwobjs err) with catch_point := fc.dfp, state := TAG_BREAK }
                else th.throwobjs v }
          fm im ((fm.pc - im.iseq_encoded) / SIZEOF_VALUE) TAG_BREAK err
          (th.throwobjs err).catch_point ⟨0, 0, 0⟩ = .through ⟨0, 0, 0⟩ := by
        simp [catch_table_lookup, hnn', scan_ensure_eq, hnone, TAG_BREAK, TAG_RAISE, TAG_RETRY,
          TAG_REDO, TAG_NEXT]
      simp only [hlk, skip_frame, hc]
      simp [h2]
    simp only [hpM]
    have hs2 : unwinding_stops_at
        { th with
            cfp := M + 1,
            throwobjs := fun v =>
              if v = err then
                { (th.throwobjs err) with catch_point := fc.dfp, state := TAG_BREAK }
              else th.throwobjs v } (M + 1) fc :=
      ⟨le_refl _, fun i a b => by simp only at a; omega, hc, h3, by rw [h4]; simp⟩
    unfold exception_handler
    rw [exception_handler_pass_at hs2 h4]
    simp [handle_frame, handle_break_return, TAG_BREAK, TAG_RETURN]
  · intro h1
    rw [hx, hfuel]
    unfold exception_handler
    rw [exception_handler_pass_at hs hmi]
    simp [handle_frame, handle_break_return, hmd, hc, h1, scan_ensure_eq, hnone, TAG_RETURN]

theorem return_thread_passes : unwind_passes return_thread TAG_RETURN 1120 5 := by
  intro i h1 h2
  simp only [return_thread, unwind_thread] at h1
  have hi : i = 1 ∨ i = 2 ∨ i = 3 ∨ i = 4 := by omega
  rcases hi with hi | hi | hi | hi <;> subst hi <;>
    exact ⟨_, rfl, Or.inr ⟨⟨by decide, _, rfl, by decide, by intro e he; simp at he⟩,
      _, rfl, by decide⟩⟩

/-- C8, witness of the amended claim: the return of `return_thread` is
reclassified at the method frame and the caller (index 6) resumes with the
payload 42 pushed; and a return caught by a method frame directly above the
finish frame finishes `vm_exec` with the payload 42. -/
theorem vm_exec_return_in_block_witness :
    unwind_passes return_thread TAG_RETURN 1120 5 ∧
    exception_handler 10 return_thread TAG_RETURN 500 0 =
      .ok (.vm_loop_start
        { return_thread with
            cfp := 6,
            throwobjs := fun v =>
              if v = 500 then ⟨42, 1080, TAG_BREAK⟩ else return_thread.throwobjs v,
            mem := store return_thread.mem 1096 42,
            frames := return_thread.frames.set 6
              { unwind_frame VM_FRAME_MAGIC_METHOD 1080 1080 [] with sp := 1104 },
            errinfo := Qnil }) ∧
    exception_handler 5 (raise_thread [] ⟨42, 1080, TAG_RETURN⟩) TAG_RETURN 500 0 =
      .ok (.finish_vme { raise_thread [] ⟨42, 1080, TAG_RETURN⟩ with cfp := 3, errinfo := Qnil }
        42) :=
  ⟨return_thread_passes,
   (vm_exec_return_in_block return_thread 5 (unwind_frame VM_FRAME_MAGIC_METHOD 1120 1120 [])
      (unwind_frame VM_FRAME_MAGIC_METHOD 1080 1080 []) _ 500 0
      (by decide) return_thread_passes rfl (by decide) rfl rfl (by decide)
      (by intro e he; simp at he) rfl).1
    (by decide) (by decide) (by decide) ⟨_, rfl⟩,
   (vm_exec_return_in_block (raise_thread [] ⟨42, 1080, TAG_RETURN⟩) 1
      (unwind_frame VM_FRAME_MAGIC_METHOD 1080 1080 []) (finish_frame 1064) _ 500 0
      (by decide) (by intro i h1 h2; simp [raise_thread] at h1; omega) rfl (by decide) rfl rfl
      (by decide) (by intro e he; simp at he) rfl).2 rfl⟩

/-! ### The unwind protocol: restarts, returns and the finish frame -/

theorem first_covering_congr {p q : iseq_catch_table_entry → Bool} {epc : Nat}
    {tbl : List iseq_catch_table_entry}
    (h : ∀ e ∈ tbl, entry_covers e epc = true → p e = q e) :
    first_covering p epc tbl = first_covering q epc tbl := by
  induction tbl with
  | nil => rfl
  | cons e es ih =>
    have ih' := ih (fun x hx hc => h x (List.mem_cons_of_mem _ hx) hc)
    cases hc : entry_covers e epc with
    | false =>
      rw [first_covering_cons_neg es (Or.inl hc), first_covering_cons_neg es (Or.inl hc), ih']
    | true =>
      have hpq := h e (List.mem_cons_self _ _) hc
      cases hq : q e with
      | false =>
        rw [first_covering_cons_neg es (Or.inr (hpq.trans hq)),
          first_covering_cons_neg es (Or.inr hq), ih']
      | true =>
        rw [first_covering_cons_pos es hc (hpq.trans hq), first_covering_cons_pos es hc hq]

theorem first_covering_exists {p : iseq_catch_table_entry → Bool} {epc : Nat}
    {tbl : List iseq_catch_table_entry} {e0 : iseq_catch_table_entry}
    (h0 : e0 ∈ tbl) (hc : entry_covers e0 epc = true) (hp : p e0 = true) :
    ∃ e, first_covering p epc tbl = some e ∧ e ∈ tbl ∧ entry_covers e epc = true ∧ p e = true := by
  cases hf : first_covering p epc tbl with
  | none =>
    unfold first_covering at hf
    rw [List.find?_eq_none] at hf
    have := hf e0 h0
    simp [hc, hp] at this
  | some e =>
    have h1 := List.find?_some hf
    have h2 := List.mem_of_find?_eq_some hf
    simp only [Bool.and_eq_true] at h1
    exact ⟨e, rfl, h2, h1.1, h1.2⟩

theorem handle_frame_restart (th : rb_thread_t) (f : rb_control_frame_t) (iseq : rb_iseq_t)
    (state : Nat) (err : VALUE) (escape_dfp : Nat) (e : iseq_catch_table_entry)
    (hkind : state = TAG_NEXT ∨ state = TAG_REDO ∨
      (state = TAG_BREAK ∧
        (th.throwobjs err).catch_point - (th.throwobjs err).catch_point % 4 = 0 ∧
        f.dfp ≠ (th.throwobjs err).catch_point))
    (hens : ∀ x ∈ iseq.catch_table, entry_covers x (frame_epc f iseq) = true →
      x.type ≠ CATCH_TYPE_ENSURE)
    (hfirst : first_covering (fun x => x.type == restart_type state) (frame_epc f iseq)
      iseq.catch_table = some e) :
    handle_frame th f iseq state err escape_dfp =
      .ok (.exit (.vm_loop_start (restart_frame th f iseq state err e))) := by
  have hmem := List.mem_of_find?_eq_some hfirst
  have hsome := List.find?_some hfirst
  simp only [Bool.and_eq_true, beq_iff_eq] at hsome
  have hne : e.type ≠ CATCH_TYPE_ENSURE := hens e hmem hsome.1
  unfold handle_frame
  rcases hkind with h | h | ⟨h, hnull, hd⟩
  · subst h
    have hbr : handle_break_return th f iseq ((f.pc - iseq.iseq_encoded) / SIZEOF_VALUE)
        TAG_NEXT err escape_dfp = .ok (.through th TAG_NEXT escape_dfp ⟨0, 0, 0⟩) := by
      simp [handle_break_return, TAG_NEXT, TAG_BREAK, TAG_RETURN]
    simp only [hbr, catch_table_lookup_eq]
    have hcg : first_covering
        (eligible_entry TAG_NEXT f.dfp (th.throwobjs err).catch_point escape_dfp)
        (frame_epc f iseq) iseq.catch_table = some e := by
      rw [← hfirst]
      apply first_covering_congr
      intro x hx hc
      have := hens x hx hc
      simp [eligible_entry, restart_type, this, TAG_NEXT, TAG_RAISE, TAG_RETRY, TAG_BREAK,
        TAG_REDO]
    simp only [frame_epc] at hcg
    rw [hcg]
    simp [hne, TAG_NEXT, TAG_RAISE]
  · subst h
    have hbr : handle_break_return th f iseq ((f.pc - iseq.iseq_encoded) / SIZEOF_VALUE)
        TAG_REDO err escape_dfp = .ok (.through th TAG_REDO escape_dfp ⟨0, 0, 0⟩) := by
      simp [handle_break_return, TAG_REDO, TAG_BREAK, TAG_RETURN]
    simp only [hbr, catch_table_lookup_eq]
    have hcg : first_covering
        (eligible_entry TAG_REDO f.dfp (th.throwobjs err).catch_point escape_dfp)
        (frame_epc f iseq) iseq.catch_table = some e := by
      rw [← hfirst]
      apply first_covering_congr
      intro x hx hc
      have := hens x hx hc
      simp [eligible_entry, restart_type, this, TAG_NEXT, TAG_RAISE, TAG_RETRY, TAG_BREAK,
        TAG_REDO]
    simp only [frame_epc] at hcg
    rw [hcg]
    simp [hne, TAG_REDO, TAG_RAISE]
  · subst h
    have hbr : handle_break_return th f iseq ((f.pc - iseq.iseq_encoded) / SIZEOF_VALUE)
        TAG_BREAK err escape_dfp =
        .ok (.through th TAG_BREAK (th.throwobjs err).catch_point ⟨0, 0, 0⟩) := by
      simp [handle_break_return, hd]
    simp only [hbr, catch_table_lookup_eq]
    have hcg : first_covering
        (eligible_entry TAG_BREAK f.dfp (th.throwobjs err).catch_point
          (th.throwobjs err).catch_point)
        (frame_epc f iseq) iseq.catch_table = some e := by
      rw [← hfirst]
      apply first_covering_congr
      intro x hx hc
      have := hens x hx hc
      simp [eligible_entry, restart_type, this, hnull, TAG_NEXT, TAG_RAISE, TAG_RETRY, TAG_BREAK,
        TAG_REDO]
    simp only [frame_epc] at hcg
    rw [hcg]
    simp [hne, TAG_BREAK, TAG_RAISE]

/-- C11: a next, a redo, or a break without catch point, at the frame `F`
where unwinding stops, with no ensure entry covering the current offset and
some entry of the matching kind covering it, restarts `F` at the first such
entry: `pc` is the entry's continuation, `sp` is `bp + entry.sp`, the payload is
stored there and `sp` grows by one word unless the kind is redo, `errinfo` is
nil, `F` is the current frame and no other frame changes. -/
theorem vm_exec_restart_in_frame (fuel : Nat) (th : rb_thread_t) (F : Nat)
    (f : rb_control_frame_t) (iseq : rb_iseq_t) (state : Nat) (err : VALUE) (escape_dfp : Nat)
    (e0 : iseq_catch_table_entry)
    (hs : unwinding_stops_at th F f) (hi : f.iseq = .iseq iseq)
    (hkind : state = TAG_NEXT ∨ state = TAG_REDO ∨
      (state = TAG_BREAK ∧
        (th.throwobjs err).catch_point - (th.throwobjs err).catch_point % 4 = 0 ∧
        f.dfp - f.dfp % 4 ≠ 0))
    (hens : ∀ x ∈ iseq.catch_table, entry_covers x (frame_epc f iseq) = true →
      x.type ≠ CATCH_TYPE_ENSURE)
    (h0 : e0 ∈ iseq.catch_table) (hc0 : entry_covers e0 (frame_epc f iseq) = true)
    (ht0 : e0.type = restart_type state) :
    ∃ e, first_covering (fun x => x.type == restart_type state) (frame_epc f iseq)
        iseq.catch_table = some e ∧
      exception_handler (fuel + 1) th state err escape_dfp =
        .ok (.vm_loop_start
          { th with
              cfp := F,
              mem := if state = TAG_REDO then th.mem
                else store th.mem (f.bp + SIZEOF_VALUE * e.sp) (th.throwobjs err).val,
              frames := th.frames.set F
                { f with
                    pc := iseq.iseq_encoded + SIZEOF_VALUE * e.cont,
                    sp := if state = TAG_REDO then f.bp + SIZEOF_VALUE * e.sp
                      else f.bp + SIZEOF_VALUE * e.sp + SIZEOF_VALUE },
              errinfo := Qnil }) := by
  obtain ⟨e, he, _, _, _⟩ := first_covering_exists
    (p := fun x => x.type == restart_type state) h0 hc0 (by simp [ht0])
  refine ⟨e, he, ?_⟩
  have hkind' : state = TAG_NEXT ∨ state = TAG_REDO ∨
      (state = TAG_BREAK ∧
        (th.throwobjs err).catch_point - (th.throwobjs err).catch_point % 4 = 0 ∧
        f.dfp ≠ (th.throwobjs err).catch_point) := by
    rcases hkind with h | h | ⟨h1, h2, h3⟩
    · exact Or.inl h
    · exact Or.inr (Or.inl h)
    · refine Or.inr (Or.inr ⟨h1, h2, ?_⟩)
      intro h
      rw [h] at h3
      exact h3 h2
  unfold exception_handler
  rw [exception_handler_pass_at hs hi,
    handle_frame_restart { th with cfp := F } f iseq state err escape_dfp e hkind' hens he]
  simp only [restart_frame]
  rcases hkind with h | h | ⟨h, _, _⟩ <;> subst h <;>
    simp [TAG_NEXT, TAG_REDO, TAG_RETRY, TAG_BREAK]

/-- C11, witness: a next at offset 3 passes over the break entry and restarts
the frame at the next entry: `pc` at continuation 7 (address 152), the payload
42 stored at `bp + 2` words (1104) and `sp` one word above it. -/
theorem vm_exec_restart_in_frame_witness :
    unwinding_stops_at (raise_thread [break_inner, next_inner] ⟨42, 0, TAG_NEXT⟩) 1
      (unwind_frame VM_FRAME_MAGIC_METHOD 1080 1080 [break_inner, next_inner]) ∧
    first_covering (fun x => x.type == restart_type TAG_NEXT) 3
        [break_inner, next_inner] = some next_inner ∧
    exception_handler 1 (raise_thread [break_inner, next_inner] ⟨42, 0, TAG_NEXT⟩)
        TAG_NEXT 500 0 =
      .ok (.vm_loop_start
        { raise_thread [break_inner, next_inner] ⟨42, 0, TAG_NEXT⟩ with
            cfp := 1,
            mem := store (raise_thread [break_inner, next_inner] ⟨42, 0, TAG_NEXT⟩).mem 1104 42,
            frames := (raise_thread [break_inner, next_inner] ⟨42, 0, TAG_NEXT⟩).frames.set 1
              { unwind_frame VM_FRAME_MAGIC_METHOD 1080 1080 [break_inner, next_inner] with
                  pc := 152, sp := 1112 },
            errinfo := Qnil }) := by
  obtain ⟨e, he, h⟩ :=
    vm_exec_restart_in_frame 0 (raise_thread [break_inner, next_inner] ⟨42, 0, TAG_NEXT⟩) 1
      (unwind_frame VM_FRAME_MAGIC_METHOD 1080 1080 [break_inner, next_inner]) _ TAG_NEXT 500 0
      next_inner (raise_thread_stops _ _) rfl (Or.inl rfl)
      (by intro x hx hc; simp at hx; rcases hx with h | h <;> subst h <;> decide)
      (by simp) (by decide) rfl
  have he' : some e = some next_inner := he.symm.trans (by decide)
  cases he'
  exact ⟨raise_thread_stops _ _, by decide, h⟩

theorem handle_frame_return_finish (th : rb_thread_t) (f pf : rb_control_frame_t)
    (iseq : rb_iseq_t) (err : VALUE) (escape_dfp : Nat)
    (hcp : (th.throwobjs err).catch_point = f.dfp)
    (hpf : th.frames[th.cfp + 1]? = some pf) (hfin : pf.pc = th.finish_insn_seq) :
    handle_frame th f iseq TAG_RETURN err escape_dfp =
      match first_covering ensure_entry (frame_epc f iseq) iseq.catch_table with
      | some e =>
        if e.iseq ≠ 0 then dispatch_handler th f iseq err ⟨e.iseq, e.cont, e.sp⟩
        else .ok (.exit (.finish_vme { th with errinfo := Qnil, cfp := th.cfp + 2 }
          (th.throwobjs err).val))
      | none => .ok (.exit (.finish_vme { th with errinfo := Qnil, cfp := th.cfp + 2 }
          (th.throwobjs err).val)) := by
  unfold handle_frame
  simp only [handle_break_return, hcp, hpf, hfin, scan_ensure_eq, frame_epc]
  cases hfc : first_covering ensure_entry ((f.pc - iseq.iseq_encoded) / SIZEOF_VALUE)
      iseq.catch_table with
  | none => simp [TAG_RETURN]
  | some e =>
    by_cases hz : e.iseq = 0
    · simp [hz, TAG_RETURN]
    · simp [hz, TAG_RETURN, catch_table_lookup, scan_ensure_eq, hfc, TAG_RAISE, TAG_RETRY,
        TAG_BREAK, TAG_REDO, TAG_NEXT]

/-- C12: a return that reaches the frame `F` whose `dfp` is its catch point,
with the finish frame as the enclosing frame (`(cfp + 1)->pc` is the finish
instruction): if an ensure entry covers the current offset, the handler of the
first such entry is dispatched; if none does, `vm_exec` finishes with the
payload as result, `errinfo` nil and `th->cfp` two frames past `F`. -/
theorem vm_exec_return_at_finish (fuel : Nat) (th : rb_thread_t) (F : Nat)
    (f pf : rb_control_frame_t) (iseq : rb_iseq_t) (err : VALUE) (escape_dfp : Nat)
    (hs : unwinding_stops_at th F f) (hi : f.iseq = .iseq iseq)
    (hcp : (th.throwobjs err).catch_point = f.dfp)
    (hpf : th.frames[F + 1]? = some pf) (hfin : pf.pc = th.finish_insn_seq) :
    (∀ e, first_covering ensure_entry (frame_epc f iseq) iseq.catch_table = some e →
      e.iseq ≠ 0 →
      exception_handler_pass th TAG_RETURN err escape_dfp =
        dispatch_handler { th with cfp := F } f iseq err ⟨e.iseq, e.cont, e.sp⟩) ∧
    ((∀ x ∈ iseq.catch_table, entry_covers x (frame_epc f iseq) = true →
        x.type ≠ CATCH_TYPE_ENSURE) →
      exception_handler (fuel + 1) th TAG_RETURN err escape_dfp =
        .ok (.finish_vme { th with cfp := F + 2, errinfo := Qnil } (th.throwobjs err).val)) := by
  have hpass := exception_handler_pass_at hs hi TAG_RETURN err escape_dfp
  rw [handle_frame_return_finish { th with cfp := F } f pf iseq err escape_dfp hcp hpf hfin]
    at hpass
  constructor
  · intro e he hne
    rw [hpass, he]
    simp [hne]
  · intro hens
    have hnone : first_covering ensure_entry (frame_epc f iseq) iseq.catch_table = none := by
      apply first_covering_none
      intro x hx hc
      simpa [ensure_entry] using hens x hx hc
    unfold exception_handler
    rw [hpass, hnone]

/-- C12, witness: with the ensure entry covering offset 3 its handler is
dispatched; with an empty catch table `vm_exec` finishes with the payload 42 and
both the frame and the finish frame popped. -/
theorem vm_exec_return_at_finish_witness :
    exception_handler_pass (raise_thread [ensure_inner] ⟨42, 1080, TAG_RETURN⟩)
        TAG_RETURN 500 0 =
      dispatch_handler (raise_thread [ensure_inner] ⟨42, 1080, TAG_RETURN⟩)
        (unwind_frame VM_FRAME_MAGIC_METHOD 1080 1080 [ensure_inner])
        { type := 0, local_size := 1, stack_max := 4, iseq_encoded := 96,
          catch_table := [ensure_inner], insn_info_table := [] }
        500 ⟨700, 7, 2⟩ ∧
    (resumed_frame (exception_handler 1 (raise_thread [ensure_inner] ⟨42, 1080, TAG_RETURN⟩)
        TAG_RETURN 500 0)).map rb_control_frame_t.iseq = some (.iseq ensure_iseq) ∧
    exception_handler 1 (raise_thread [] ⟨42, 1080, TAG_RETURN⟩) TAG_RETURN 500 0 =
      .ok (.finish_vme { raise_thread [] ⟨42, 1080, TAG_RETURN⟩ with cfp := 3, errinfo := Qnil }
        42) :=
  ⟨(vm_exec_return_at_finish 0 (raise_thread [ensure_inner] ⟨42, 1080, TAG_RETURN⟩) 1
      (unwind_frame VM_FRAME_MAGIC_METHOD 1080 1080 [ensure_inner]) (finish_frame 1064) _ 500 0
      (raise_thread_stops _ _) rfl rfl rfl rfl).1 ensure_inner (by decide) (by decide),
   rfl,
   (vm_exec_return_at_finish 0 (raise_thread [] ⟨42, 1080, TAG_RETURN⟩) 1
      (unwind_frame VM_FRAME_MAGIC_METHOD 1080 1080 []) (finish_frame 1064) _ 500 0
      (raise_thread_stops _ _) rfl rfl rfl rfl).2 (by intro x hx; simp at hx)⟩

theorem handle_frame_return_reclassified (th : rb_thread_t) (f pf : rb_control_frame_t)
    (iseq : rb_iseq_t) (err : VALUE) (escape_dfp : Nat)
    (hcp : (th.throwobjs err).catch_point = f.dfp)
    (hnn : f.dfp - f.dfp % 4 ≠ 0)
    (hpf : th.frames[th.cfp + 1]? = some pf) (hnf : pf.pc ≠ th.finish_insn_seq) :
    handle_frame th f iseq TAG_RETURN err escape_dfp =
      match first_covering ensure_entry (frame_epc f iseq) iseq.catch_table with
      | some e =>
        if e.iseq ≠ 0 then
          dispatch_handler (reclassified th err pf.dfp) f iseq err ⟨e.iseq, e.cont, e.sp⟩
        else skip_frame (reclassified th err pf.dfp) TAG_BREAK err f.dfp
      | none => skip_frame (reclassified th err pf.dfp) TAG_BREAK err f.dfp := by
  unfold handle_frame
  have hbr : handle_break_return th f iseq ((f.pc - iseq.iseq_encoded) / SIZEOF_VALUE)
      TAG_RETURN err escape_dfp =
      .ok (.through (reclassified th err pf.dfp) TAG_BREAK f.dfp ⟨0, 0, 0⟩) := by
    simp [handle_break_return, hcp, hpf, hnf, TAG_RETURN, reclassified]
  simp only [hbr]
  have hlk : catch_table_lookup (reclassified th err pf.dfp) f iseq
      ((f.pc - iseq.iseq_encoded) / SIZEOF_VALUE) TAG_BREAK err f.dfp ⟨0, 0, 0⟩ =
      .through (scan_ensure ((f.pc - iseq.iseq_encoded) / SIZEOF_VALUE) iseq.catch_table
        ⟨0, 0, 0⟩) := by
    simp [catch_table_lookup, hnn, TAG_BREAK, TAG_RAISE, TAG_RETRY, TAG_REDO, TAG_NEXT]
  simp only [hlk, scan_ensure_eq, frame_epc]
  cases first_covering ensure_entry ((f.pc - iseq.iseq_encoded) / SIZEOF_VALUE)
      iseq.catch_table with
  | none => simp
  | some e =>
    by_cases hz : e.iseq = 0
    · simp [hz]
    · simp [hz]

/-- C13: a return that reaches the frame `F` whose `dfp` is its catch point,
with an enclosing frame `F + 1` that is not the finish frame, is reclassified:
the throw object keeps its payload and becomes a break whose catch point is the
`dfp` of the enclosing frame, and the handler goes on with the kind break (it
dispatches the first covering ensure entry or skips the frame as a break).  If
no ensure entry covers the current offset, the enclosing frame catches that
break and resumes with the payload pushed on its stack. -/
theorem vm_exec_return_reclassified (fuel : Nat) (th : rb_thread_t) (F : Nat)
    (f pf : rb_control_frame_t) (iseq : rb_iseq_t) (err : VALUE) (escape_dfp : Nat)
    (hs : unwinding_stops_at th F f) (hi : f.iseq = .iseq iseq)
    (hcp : (th.throwobjs err).catch_point = f.dfp)
    (hnn : f.dfp - f.dfp % 4 ≠ 0)
    (hpf : th.frames[F + 1]? = some pf) (hnf : pf.pc ≠ th.finish_insn_seq) :
    (reclassified { th with cfp := F } err pf.dfp).throwobjs err =
      ⟨(th.throwobjs err).val, pf.dfp, TAG_BREAK⟩ ∧
    exception_handler_pass th TAG_RETURN err escape_dfp =
      (match first_covering ensure_entry (frame_epc f iseq) iseq.catch_table with
      | some e =>
        if e.iseq ≠ 0 then
          dispatch_handler (reclassified { th with cfp := F } err pf.dfp) f iseq err
            ⟨e.iseq, e.cont, e.sp⟩
        else skip_frame (reclassified { th with cfp := F } err pf.dfp) TAG_BREAK err f.dfp
      | none => skip_frame (reclassified { th with cfp := F } err pf.dfp) TAG_BREAK err f.dfp) ∧
    ((∀ x ∈ iseq.catch_table, entry_covers x (frame_epc f iseq) = true →
        x.type ≠ CATCH_TYPE_ENSURE) →
      pf.pc ≠ 0 → (∃ ip, pf.iseq = .iseq ip) → VM_FRAME_TYPE pf ≠ VM_FRAME_MAGIC_FINISH →
      exception_handler (fuel + 2) th TAG_RETURN err escape_dfp =
        .ok (.vm_loop_start
          { reclassified th err pf.dfp with
              cfp := F + 1,
              mem := store th.mem pf.sp (th.throwobjs err).val,
              frames := th.frames.set (F + 1) { pf with sp := pf.sp + SIZEOF_VALUE },
              errinfo := Qnil })) := by
  have hpass := exception_handler_pass_at hs hi TAG_RETURN err escape_dfp
  rw [handle_frame_return_reclassified { th with cfp := F } f pf iseq err escape_dfp hcp hnn
    hpf hnf] at hpass
  refine ⟨by simp [reclassified], hpass, ?_⟩
  intro hens hpc ⟨ip, hip⟩ hft
  have hnone : first_covering ensure_entry (frame_epc f iseq) iseq.catch_table = none := by
    apply first_covering_none
    intro x hx hc
    simpa [ensure_entry] using hens x hx hc
  rw [hnone] at hpass
  have hsk : skip_frame (reclassified { th with cfp := F } err pf.dfp) TAG_BREAK err f.dfp =
      .ok (.again { reclassified th err pf.dfp with cfp := F + 1 } TAG_BREAK f.dfp) := by
    simp only [skip_frame, reclassified, hpf]
    simp [hft]
  have hs2 : unwinding_stops_at { reclassified th err pf.dfp with cfp := F + 1 } (F + 1) pf :=
    ⟨le_refl _, fun i a b => by simp only at a; omega, hpf, hpc, by rw [hip]; simp⟩
  have hx : fuel + 2 = (fuel + 1) + 1 := rfl
  rw [hx]
  conv => lhs; unfold exception_handler
  rw [hpass, hsk]
  simp only
  unfold exception_handler
  rw [exception_handler_pass_at hs2 hip]
  simp [handle_frame, handle_break_return, reclassified, TAG_BREAK, TAG_RETURN]

/-- C13, witness: the return of `return_thread`, arrived at the method frame
(index 5, scope at 1120), becomes a break with catch point 1080, the scope of
the calling frame, which resumes with the payload 42 pushed. -/
theorem vm_exec_return_reclassified_witness :
    unwinding_stops_at { return_thread with cfp := 5 } 5
      (unwind_frame VM_FRAME_MAGIC_METHOD 1120 1120 []) ∧
    (reclassified { return_thread with cfp := 5 } 500 1080).throwobjs 500 =
      ⟨42, 1080, TAG_BREAK⟩ ∧
    exception_handler_pass { return_thread with cfp := 5 } TAG_RETURN 500 0 =
      skip_frame (reclassified { return_thread with cfp := 5 } 500 1080) TAG_BREAK 500 1120 ∧
    exception_handler 2 { return_thread with cfp := 5 } TAG_RETURN 500 0 =
      .ok (.vm_loop_start
        { reclassified { return_thread with cfp := 5 } 500 1080 with
            cfp := 6,
            mem := store return_thread.mem 1096 42,
            frames := return_thread.frames.set 6
              { unwind_frame VM_FRAME_MAGIC_METHOD 1080 1080 [] with sp := 1104 },
            errinfo := Qnil }) :=
  ⟨⟨by decide, by intro i h1 h2; simp at h1; omega, rfl, by decide, by decide⟩,
   (vm_exec_return_reclassified 0 { return_thread with cfp := 5 } 5
      (unwind_frame VM_FRAME_MAGIC_METHOD 1120 1120 [])
      (unwind_frame VM_FRAME_MAGIC_METHOD 1080 1080 []) _ 500 0
      ⟨by decide, by intro i h1 h2; simp at h1; omega, rfl, by decide, by decide⟩
      rfl rfl (by decide) rfl (by decide)).1,
   (vm_exec_return_reclassified 0 { return_thread with cfp := 5 } 5
      (unwind_frame VM_FRAME_MAGIC_METHOD 1120 1120 [])
      (unwind_frame VM_FRAME_MAGIC_METHOD 1080 1080 []) _ 500 0
      ⟨by decide, by intro i h1 h2; simp at h1; omega, rfl, by decide, by decide⟩
      rfl rfl (by decide) rfl (by decide)).2.1,
   (vm_exec_return_reclassified 0 { return_thread with cfp := 5 } 5
      (unwind_frame VM_FRAME_MAGIC_METHOD 1120 1120 [])
      (unwind_frame VM_FRAME_MAGIC_METHOD 1080 1080 []) _ 500 0
      ⟨by decide, by intro i h1 h2; simp at h1; omega, rfl, by decide, by decide⟩
      rfl rfl (by decide) rfl (by decide)).2.2
      (by intro x hx; simp at hx) (by decide) ⟨_, rfl⟩ (by decide)⟩

theorem eligible_entry_escape (state d cp x y : Nat) (e : iseq_catch_table_entry)
    (h : state = TAG_BREAK → x = y) :
    eligible_entry state d cp x e = eligible_entry state d cp y e := by
  by_cases hb : state = TAG_BREAK
  · rw [h hb]
  · have hb' : (state == TAG_BREAK) = false := by simpa using hb
    simp only [eligible_entry, hb', Bool.false_and]

theorem handle_frame_unmatched (th : rb_thread_t) (g : rb_control_frame_t) (iseq : rb_iseq_t)
    (state cp : Nat) (err : VALUE) (escape_dfp : Nat)
    (hcp : (th.throwobjs err).catch_point = cp)
    (hi : g.iseq = .iseq iseq) (hp : frame_unmatched state cp g) :
    handle_frame th g iseq state err escape_dfp =
      skip_frame th state err
        (if state = TAG_BREAK ∨ state = TAG_RETURN then cp else escape_dfp) := by
  obtain ⟨_, iseq', hi', hd, hall⟩ := hp
  rw [hi] at hi'
  cases hi'
  have hbr : handle_break_return th g iseq ((g.pc - iseq.iseq_encoded) / SIZEOF_VALUE) state err
      escape_dfp = .ok (.through th state
        (if state = TAG_BREAK ∨ state = TAG_RETURN then cp else escape_dfp) ⟨0, 0, 0⟩) := by
    by_cases hst : state = TAG_BREAK ∨ state = TAG_RETURN
    · simp [handle_break_return, hst, hcp, hd hst]
    · simp [handle_break_return, hst]
  have hnone : first_covering
      (eligible_entry state g.dfp cp
        (if state = TAG_BREAK ∨ state = TAG_RETURN then cp else escape_dfp))
      (frame_epc g iseq) iseq.catch_table = none := by
    apply first_covering_none
    intro e he hc
    rw [eligible_entry_escape state g.dfp cp _ cp e (by intro h; simp [h])]
    exact hall e he hc
  unfold handle_frame
  simp only [hbr, catch_table_lookup_eq, hcp]
  simp only [frame_epc] at hnone
  simp [hnone]

/-- An unwind that finds nothing at any frame from `th->cfp` up to a live frame
`T` reaches `T` with its kind and error value unchanged, after at most
`T - th->cfp` passes of the handler. -/
theorem unwind_walk_unmatched (state cp : Nat) (err : VALUE) :
    ∀ (n : Nat) (th : rb_thread_t) (T : Nat) (fT : rb_control_frame_t) (escape_dfp : Nat),
      T - th.cfp = n → th.cfp ≤ T →
      (th.throwobjs err).catch_point = cp →
      unwind_unmatched th state cp T →
      th.frames[T]? = some fT → fT.pc ≠ 0 → fT.iseq ≠ .null →
      ∃ k edfp, k ≤ T - th.cfp ∧ ∀ fuel,
        exception_handler (fuel + 1 + k) th state err escape_dfp =
          exception_handler (fuel + 1) { th with cfp := T } state err edfp := by
  intro n
  induction n with
  | zero =>
    intro th T fT edfp hn hle hcp _ hT h1 h2
    have : th.cfp = T := by omega
    subst this
    exact ⟨0, edfp, Nat.zero_le _, fun fuel => rfl⟩
  | succ n ih =>
    intro th T fT edfp hn hle hcp hpass hT h1 h2
    obtain ⟨g, hg, hgc⟩ := hpass th.cfp (le_refl _) (by omega)
    have hpass' : unwind_unmatched { th with cfp := th.cfp + 1 } state cp T :=
      fun i a b => hpass i (by simp only at a; omega) b
    rcases hgc with hd | ⟨hp, nx, hnx, hnf⟩
    · obtain ⟨k, e', hk, hfuel⟩ := ih { th with cfp := th.cfp + 1 } T fT edfp
        (by simp only; omega) (by simp only; omega) hcp hpass' hT h1 h2
      simp only at hk
      refine ⟨k, e', by omega, fun fuel => ?_⟩
      rw [← hfuel fuel]
      obtain ⟨F, f, _, hs⟩ := exists_unwinding_stops _ { th with cfp := th.cfp + 1 } T fT rfl
        (by simp only; omega)
        (fun i a b => (hpass i (by simp only at a; omega) b).imp fun _ h => h.1) hT h1 h2
      have hs0 : unwinding_stops_at th F f := by
        obtain ⟨s1, s2, s3, s4, s5⟩ := hs
        simp only at s1 s2 s3
        refine ⟨by omega, ?_, s3, s4, s5⟩
        intro i a b
        by_cases hi : i = th.cfp
        · subst hi; exact ⟨g, hg, hd⟩
        · exact s2 i (by omega) b
      have e1 := exception_handler_pass_stops hs0 state err edfp
      have e2 := exception_handler_pass_stops hs state err edfp
      have : exception_handler_pass th state err edfp =
          exception_handler_pass { th with cfp := th.cfp + 1 } state err edfp := by
        rw [e1, e2]
      have hx : fuel + 1 + k = (fuel + k) + 1 := by omega
      rw [hx]
      unfold exception_handler
      rw [this]
    · obtain ⟨k, e', hk, hfuel⟩ := ih { th with cfp := th.cfp + 1 } T fT
        (if state = TAG_BREAK ∨ state = TAG_RETURN then cp else edfp)
        (by simp only; omega) (by simp only; omega) hcp hpass' hT h1 h2
      simp only at hk
      refine ⟨k + 1, e', by omega, fun fuel => ?_⟩
      rw [← hfuel fuel]
      obtain ⟨hpc, iseq, hi, hrest⟩ := hp
      have hs0 : unwinding_stops_at th th.cfp g :=
        ⟨le_refl _, fun i a b => by omega, hg, hpc, by rw [hi]; simp⟩
      have hpf : exception_handler_pass th state err edfp =
          .ok (.again { th with cfp := th.cfp + 1 } state
            (if state = TAG_BREAK ∨ state = TAG_RETURN then cp else edfp)) := by
        rw [exception_handler_pass_at hs0 hi]
        rw [handle_frame_unmatched _ g iseq state cp err edfp hcp hi ⟨hpc, iseq, hi, hrest⟩]
        simp only [skip_frame, hnx]
        rw [if_pos hnf]
      have hx : fuel + 1 + (k + 1) = (fuel + 1 + k) + 1 := by omega
      rw [hx]
      conv => lhs; unfold exception_handler
      rw [hpf]

/-- C14: an unwind of any kind that finds nothing at any frame up to the frame
`L` below a finish frame (no frame is its catch point, no covering catch table
entry is eligible for its kind) leaves `vm_exec` through `JUMP_TAG(state)`: the
finish frame is popped, `errinfo` is the error value of the unwind, and the tag
re-raised to the native caller is the kind `vm_exec` received. -/
theorem vm_exec_rethrow_at_finish (th : rb_thread_t) (L : Nat) (fl pf : rb_control_frame_t)
    (state : Nat) (err : VALUE) (escape_dfp : Nat)
    (hle : th.cfp ≤ L)
    (hpass : unwind_unmatched th state (th.throwobjs err).catch_point L)
    (hl : th.frames[L]? = some fl)
    (hlp : frame_unmatched state (th.throwobjs err).catch_point fl)
    (hfin : th.frames[L + 1]? = some pf)
    (hft : VM_FRAME_TYPE pf = VM_FRAME_MAGIC_FINISH) :
    exception_handler (th.frames.length + 1) th state err escape_dfp =
      .ok (.JUMP_TAG { th with cfp := L + 2, errinfo := err } state) := by
  obtain ⟨hpc, iseq, hi, hrest⟩ := hlp
  have hnn : fl.iseq ≠ .null := by rw [hi]; simp
  obtain ⟨k, e', hk, hfuel⟩ := unwind_walk_unmatched state (th.throwobjs err).catch_point err
    (L - th.cfp) th L fl escape_dfp rfl hle rfl hpass hl hpc hnn
  have hL : L + 1 < th.frames.length := (List.getElem?_eq_some.mp hfin).1
  have hx : th.frames.length + 1 = (th.frames.length - k) + 1 + k := by omega
  rw [hx, hfuel]
  have hs : unwinding_stops_at { th with cfp := L } L fl :=
    ⟨le_refl _, fun i a b => by simp only at a; omega, hl, hpc, hnn⟩
  unfold exception_handler
  rw [exception_handler_pass_at hs hi,
    handle_frame_unmatched { th with cfp := L } fl iseq state (th.throwobjs err).catch_point
      err _ rfl hi ⟨hpc, iseq, hi, hrest⟩]
  simp only [skip_frame, hfin, hft]
  simp [vm_pop_frame]

theorem nested_frames_unmatched :
    unwind_unmatched (unwind_thread nested_frames ⟨42, 0, TAG_RAISE⟩) TAG_RAISE 0 6 := by
  intro i h1 h2
  simp only [unwind_thread] at h1
  have hi : i = 1 ∨ i = 2 ∨ i = 3 ∨ i = 4 ∨ i = 5 := by omega
  rcases hi with hi | hi | hi | hi | hi <;> subst hi <;>
    exact ⟨_, rfl, Or.inr ⟨⟨by decide, _, rfl, by decide, by intro e he; simp at he⟩,
      _, rfl, by decide⟩⟩

/-- C14, witness: a raise that no frame of `nested_frames` handles is re-raised
as `TAG_RAISE` with the finish frame (index 7) popped and the error value 500 in
`errinfo`; and a raise at a frame whose only covering entries are a break and a
retry entry is re-raised in the same way. -/
theorem vm_exec_rethrow_at_finish_witness :
    unwind_unmatched (unwind_thread nested_frames ⟨42, 0, TAG_RAISE⟩) TAG_RAISE 0 6 ∧
    exception_handler 10 (unwind_thread nested_frames ⟨42, 0, TAG_RAISE⟩) TAG_RAISE 500 0 =
      .ok (.JUMP_TAG { unwind_thread nested_frames ⟨42, 0, TAG_RAISE⟩ with
        cfp := 8, errinfo := 500 } TAG_RAISE) ∧
    exception_handler 5 (raise_thread [break_inner, retry_inner] ⟨42, 0, TAG_RAISE⟩)
        TAG_RAISE 500 0 =
      .ok (.JUMP_TAG { raise_thread [break_inner, retry_inner] ⟨42, 0, TAG_RAISE⟩ with
        cfp := 3, errinfo := 500 } TAG_RAISE) :=
  ⟨nested_frames_unmatched,
   vm_exec_rethrow_at_finish (unwind_thread nested_frames ⟨42, 0, TAG_RAISE⟩) 6
    (unwind_frame VM_FRAME_MAGIC_METHOD 1080 1080 []) (finish_frame 1064) TAG_RAISE 500 0
    (by decide) nested_frames_unmatched rfl
    ⟨by decide, _, rfl, by decide, by intro e he; simp at he⟩ rfl (by decide),
   vm_exec_rethrow_at_finish (raise_thread [break_inner, retry_inner] ⟨42, 0, TAG_RAISE⟩) 1
    (unwind_frame VM_FRAME_MAGIC_METHOD 1080 1080 [break_inner, retry_inner])
    (finish_frame 1064) TAG_RAISE 500 0
    (by decide) (by intro i h1 h2; simp [raise_thread] at h1; omega) rfl
    ⟨by decide, _, rfl, by decide,
      by intro e he hc; simp at he; rcases he with h | h <;> subst h <;> decide⟩
    rfl (by decide)⟩

/-! ### Local jump errors, `yield` and `rb_vm_invoke_proc` -/

/-- C15, counterexample: for a proc made from a method (`is_from_method`) whose
body sets the safe level to 3, the thread's safe level after `rb_vm_invoke_proc`
is 3, not the 0 it was before the call. -/
theorem rb_vm_invoke_proc_safe_level_counterexample :
    (proc_thread true).safe_level = 0 ∧
    ((rb_vm_invoke_proc body_sets_safe_level (proc_thread true) 3000 77 [] none).getD
        (.returned (proc_thread true) 0)).thread.safe_level = 3 :=
  ⟨rfl, rfl⟩

/-- C15, amended: for a proc that is not made from a method, whatever the body
does, `rb_vm_invoke_proc` runs the body under the proc's captured safe level and
leaves the thread's safe level as it was before the call, returning the body's
value or re-raising the body's tag after the level is restored; for a proc made
from a method the level is neither switched nor restored, so it is left as the
body left it.  (The body is taken not to change the proc's flag.) -/
theorem rb_vm_invoke_proc_safe_level (invoke : block_invoker) (th : rb_thread_t)
    (procval : VALUE) (proc : rb_proc_t) (self : VALUE) (argv : List VALUE)
    (blockptr : Option block_ptr)
    (hp : th.procs procval = some proc)
    (hkeep : ∀ level : Nat,
      ((invoke { th with safe_level := level } (.proc procval) self argv blockptr
        0).thread.procs procval).map rb_proc_t.is_from_method = some proc.is_from_method) :
    (proc.is_from_method = false →
      ∃ out, rb_vm_invoke_proc invoke th procval self argv blockptr = .ok out ∧
        out.thread.safe_level = th.safe_level ∧
        (∀ t v, invoke { th with safe_level := proc.safe_level } (.proc procval) self argv
            blockptr 0 = .returned t v →
          out = .returned { t with safe_level := th.safe_level } v) ∧
        (∀ t s, invoke { th with safe_level := proc.safe_level } (.proc procval) self argv
            blockptr 0 = .thrown t s → s ≠ 0 →
          out = .thrown { t with safe_level := th.safe_level } s)) ∧
    (proc.is_from_method = true →
      ∃ out, rb_vm_invoke_proc invoke th procval self argv blockptr = .ok out ∧
        out.thread.safe_level =
          (invoke th (.proc procval) self argv blockptr 0).thread.safe_level ∧
        (∀ t v, invoke th (.proc procval) self argv blockptr 0 = .returned t v →
          out = .returned t v) ∧
        (∀ t s, invoke th (.proc procval) self argv blockptr 0 = .thrown t s → s ≠ 0 →
          out = .thrown t s)) := by
  constructor
  · intro hm
    have hk := hkeep proc.safe_level
    unfold rb_vm_invoke_proc
    simp only [hp, hm, Bool.not_false, if_true]
    cases hq : (invoke { th with safe_level := proc.safe_level } (.proc procval) self argv
        blockptr 0).thread.procs procval with
    | none => rw [hq] at hk; simp at hk
    | some proc2 =>
      rw [hq] at hk
      simp only [Option.map_some', Option.some.injEq] at hk
      rw [hm] at hk
      simp only [hk, Bool.not_false, if_true]
      cases hr : invoke { th with safe_level := proc.safe_level } (.proc procval) self argv
          blockptr 0 with
      | returned t v =>
        refine ⟨_, rfl, rfl, ?_, ?_⟩
        · intro t' v' h; cases h; rfl
        · intro t' s' h; cases h
      | thrown t s =>
        by_cases hs : s = 0
        · simp only [hs, ne_eq, not_true_eq_false, if_false]
          refine ⟨_, rfl, rfl, ?_, ?_⟩
          · intro t' v' h; cases h
          · intro t' s' h hne; cases h; exact absurd rfl hne
        · simp only [ne_eq, hs, not_false_eq_true, if_true]
          refine ⟨_, rfl, rfl, ?_, ?_⟩
          · intro t' v' h; cases h
          · intro t' s' h _; cases h; rfl
  · intro hm
    have hk : ((invoke th (.proc procval) self argv blockptr 0).thread.procs procval).map
        rb_proc_t.is_from_method = some proc.is_from_method := hkeep th.safe_level
    unfold rb_vm_invoke_proc
    simp only [hp, hm, Bool.not_true, Bool.false_eq_true, if_false]
    cases hq : (invoke th (.proc procval) self argv blockptr 0).thread.procs procval with
    | none => rw [hq] at hk; simp at hk
    | some proc2 =>
      rw [hq] at hk
      simp only [Option.map_some', Option.some.injEq] at hk
      rw [hm] at hk
      simp only [hq, hk, Bool.not_true, Bool.false_eq_true, if_false]
      cases hr : invoke th (.proc procval) self argv blockptr 0 with
      | returned t v =>
        refine ⟨_, rfl, rfl, ?_, ?_⟩
        · intro t' v' h; cases h; rfl
        · intro t' s' h; cases h
      | thrown t s =>
        by_cases hs : s = 0
        · simp only [hs, ne_eq, not_true_eq_false, if_false]
          refine ⟨_, rfl, rfl, ?_, ?_⟩
          · intro t' v' h; cases h
          · intro t' s' h hne; cases h; exact absurd rfl hne
        · simp only [ne_eq, hs, not_false_eq_true, if_true]
          refine ⟨_, rfl, rfl, ?_, ?_⟩
          · intro t' v' h; cases h
          · intro t' s' h _; cases h; rfl

/-- C15, witness of the amended claim: a proc not made from a method whose body
sets the safe level to 4 and raises: the tag is re-raised with the safe level
back at 0. -/
theorem rb_vm_invoke_proc_safe_level_witness :
    (proc_thread false).safe_level = 0 ∧
    ∃ out, rb_vm_invoke_proc body_raises (proc_thread false) 3000 77 [] none = .ok out ∧
      out.thread.safe_level = (proc_thread false).safe_level ∧
      (∀ t v, body_raises { proc_thread false with safe_level := 1 } (.proc 3000) 77 [] none 0 =
          .returned t v →
        out = .returned { t with safe_level := (proc_thread false).safe_level } v) ∧
      (∀ t s, body_raises { proc_thread false with safe_level := 1 } (.proc 3000) 77 [] none 0 =
          .thrown t s → s ≠ 0 →
        out = .thrown { t with safe_level := (proc_thread false).safe_level } s) :=
  ⟨rfl,
   (rb_vm_invoke_proc_safe_level body_raises (proc_thread false) 3000
      { block := { self := 77, lfp := 1040, dfp := 1040, iseq := .iseq (sample_iseq 2),
                   proc := 3000 },
        envval := 0, blockprocval := 0, safe_level := 1,
        is_from_method := false, is_lambda := false }
      77 [] none rfl (fun _ => rfl)).1 rfl⟩

/-- C16: `vm_yield` and `vm_yield_with_cref` leave through the raise of a
`LocalJumpError` with message "no block given", with the thread as it was (no
frame pushed), exactly when `lfp[0]` of the current frame is null once its guard
bits are stripped; otherwise they invoke the block it points to, with that
block's `self` as receiver. -/
theorem vm_yield_checks_block (invoke : block_invoker) (th : rb_thread_t)
    (f : rb_control_frame_t) (argv : List VALUE) (cref : Nat)
    (hf : th.frames[th.cfp]? = some f) :
    (GC_GUARDED_PTR_REF (th.mem f.lfp) = 0 →
      vm_yield invoke th argv =
        .ok (.raised th (.rb_exc_raise (.exc (make_localjump_error "no block given" Qnil 0)))) ∧
      vm_yield_with_cref invoke th argv cref =
        .ok (.raised th (.rb_exc_raise (.exc (make_localjump_error "no block given" Qnil 0)))) ∧
      (make_localjump_error "no block given" Qnil 0).klass = rb_eLocalJumpError ∧
      (make_localjump_error "no block given" Qnil 0).mesg = "no block given") ∧
    (GC_GUARDED_PTR_REF (th.mem f.lfp) ≠ 0 →
      (∀ th1 j, vm_yield invoke th argv ≠ .ok (.raised th1 j)) ∧
      (∀ th1 j, vm_yield_with_cref invoke th argv cref ≠ .ok (.raised th1 j)) ∧
      ∀ (blockptr : block_ptr) (b : rb_block_t),
        block_of_addr th (GC_GUARDED_PTR_REF (th.mem f.lfp)) = some blockptr →
        block_get th blockptr = some b →
        vm_yield invoke th argv = .ok (.invoked (invoke th blockptr b.self argv none 0)) ∧
        vm_yield_with_cref invoke th argv cref =
          .ok (.invoked (invoke th blockptr b.self argv none cref))) := by
  constructor
  · intro h0
    refine ⟨?_, ?_, rfl, rfl⟩
    · simp [vm_yield, check_block, hf, h0, rb_vm_localjump_error]
    · simp [vm_yield_with_cref, check_block, hf, h0, rb_vm_localjump_error]
  · intro hne
    refine ⟨?_, ?_, ?_⟩
    · intro th1 j
      simp only [vm_yield, check_block, hf, hne, if_false]
      cases block_of_addr th (GC_GUARDED_PTR_REF (th.mem f.lfp)) with
      | none => simp
      | some bp =>
        cases hb : block_get th bp with
        | none => simp [hb]
        | some b => simp [hb]
    · intro th1 j
      simp only [vm_yield_with_cref, check_block, hf, hne, if_false]
      cases block_of_addr th (GC_GUARDED_PTR_REF (th.mem f.lfp)) with
      | none => simp
      | some bp =>
        cases hb : block_get th bp with
        | none => simp [hb]
        | some b => simp [hb]
    · intro bp b hbp hb
      constructor
      · simp [vm_yield, check_block, hf, hne, hbp, hb]
      · simp [vm_yield_with_cref, check_block, hf, hne, hbp, hb]

/-- C16, witness: in `sample_thread` the current frame has no block and
`vm_yield` raises with the thread unchanged; in `yield_thread` the block of the
calling frame is invoked with its receiver 55. -/
theorem vm_yield_checks_block_witness :
    GC_GUARDED_PTR_REF (sample_thread.mem 1040) = 0 ∧
    vm_yield body_raises sample_thread [1, 2] =
      .ok (.raised sample_thread
        (.rb_exc_raise (.exc (make_localjump_error "no block given" Qnil 0)))) ∧
    GC_GUARDED_PTR_REF (yield_thread.mem 1080) ≠ 0 ∧
    block_of_addr yield_thread (GC_GUARDED_PTR_REF (yield_thread.mem 1080)) = some (.cfp 1) ∧
    vm_yield body_raises yield_thread [1, 2] =
      .ok (.invoked (body_raises yield_thread (.cfp 1) 55 [1, 2] none 0)) ∧
    vm_yield_with_cref body_raises yield_thread [1, 2] 9 =
      .ok (.invoked (body_raises yield_thread (.cfp 1) 55 [1, 2] none 9)) :=
  ⟨by decide,
   ((vm_yield_checks_block body_raises sample_thread
      (sample_frame VM_FRAME_MAGIC_BLOCK 1080 1040 2) [1, 2] 9 rfl).1 (by decide)).1,
   by decide, by decide,
   (((vm_yield_checks_block body_raises yield_thread
      (sample_frame VM_FRAME_MAGIC_METHOD 1080 1080 2) [1, 2] 9 rfl).2 (by decide)).2.2
      (.cfp 1) ⟨55, 1040, 1040, .iseq (sample_iseq 1), 0⟩ (by decide) rfl).1,
   (((vm_yield_checks_block body_raises yield_thread
      (sample_frame VM_FRAME_MAGIC_METHOD 1080 1080 2) [1, 2] 9 rfl).2 (by decide)).2.2
      (.cfp 1) ⟨55, 1040, 1040, .iseq (sample_iseq 1), 0⟩ (by decide) rfl).2⟩

/-- C17, counterexample: for a stray redo (and a stray retry) with payload 42 the
error's `@exit_value` is `Qnil`, not the payload. -/
theorem rb_vm_make_jump_tag_counterexample :
    (42 : VALUE) ≠ Qundef ∧ (42 : VALUE) ≠ Qnil ∧
    rb_vm_make_jump_tag_but_local_jump 0 TAG_REDO 42 =
      .exc (make_localjump_error "unexpected redo" Qnil TAG_REDO) ∧
    rb_iv_get (make_localjump_error "unexpected redo" Qnil TAG_REDO) "@exit_value" =
      some (.value Qnil) ∧
    rb_vm_make_jump_tag_but_local_jump 0 TAG_RETRY 42 =
      .exc (make_localjump_error "retry outside of rescue clause" Qnil TAG_RETRY) ∧
    rb_iv_get (make_localjump_error "retry outside of rescue clause" Qnil TAG_RETRY)
      "@exit_value" = some (.value Qnil) := by
  decide

/-- C17, amended: for a state among return, break, next, redo and retry and a
payload other than `Qundef`, `rb_vm_make_jump_tag_but_local_jump` returns a
`LocalJumpError` whose `@reason` is the symbol of the keyword and whose
`@exit_value` is the payload for return, break and next, and `Qnil` for redo
and retry. -/
theorem rb_vm_make_jump_tag_local_jump_error (retval : VALUE) (state : Nat) (v : VALUE)
    (hst : local_jump_state state) (hv : v ≠ Qundef) :
    ∃ exc, rb_vm_make_jump_tag_but_local_jump retval state v = .exc exc ∧
      exc.klass = rb_eLocalJumpError ∧
      rb_iv_get exc "@reason" = some (.sym (tag_keyword state)) ∧
      rb_iv_get exc "@exit_value" =
        some (.value (if state = TAG_REDO ∨ state = TAG_RETRY then Qnil else v)) := by
  rcases hst with h | h | h | h | h <;> subst h <;>
    simp [rb_vm_make_jump_tag_but_local_jump, hv, make_localjump_error, rb_iv_get, rb_iv_set,
      rb_exc_new2, tag_keyword, TAG_RETURN, TAG_BREAK, TAG_NEXT, TAG_REDO, TAG_RETRY]

/-- C17, witness of the amended claim: a stray break with payload 42 gives a
`LocalJumpError` with reason `:break` and exit value 42. -/
theorem rb_vm_make_jump_tag_local_jump_error_witness :
    local_jump_state TAG_BREAK ∧ (42 : VALUE) ≠ Qundef ∧
    ∃ exc, rb_vm_make_jump_tag_but_local_jump 0 TAG_BREAK 42 = .exc exc ∧
      exc.klass = rb_eLocalJumpError ∧
      rb_iv_get exc "@reason" = some (.sym (tag_keyword TAG_BREAK)) ∧
      rb_iv_get exc "@exit_value" =
        some (.value (if TAG_BREAK = TAG_REDO ∨ TAG_BREAK = TAG_RETRY then Qnil else 42)) :=
  ⟨Or.inr (Or.inl rfl), by decide,
   rb_vm_make_jump_tag_local_jump_error 0 TAG_BREAK 42 (Or.inr (Or.inl rfl)) (by decide)⟩

/-- C18, counterexample: with the payload `Qnil` a stray break is not turned
into a `LocalJumpError`: `rb_vm_jump_tag_but_local_jump` re-throws the raw tag
through `JUMP_TAG(state)`. -/
theorem rb_vm_jump_tag_counterexample :
    local_jump_state TAG_BREAK ∧
    rb_vm_jump_tag_but_local_jump 0 TAG_BREAK Qnil = .JUMP_TAG TAG_BREAK ∧
    ∀ exc, rb_vm_jump_tag_but_local_jump 0 TAG_BREAK Qnil ≠ .rb_exc_raise exc := by
  refine ⟨Or.inr (Or.inl rfl), by decide, ?_⟩
  intro exc
  have h : rb_vm_jump_tag_but_local_jump 0 TAG_BREAK Qnil = .JUMP_TAG TAG_BREAK := by decide
  rw [h]
  intro h2
  cases h2

/-- C18, amended: for a state among break, next, redo, retry and return and a
payload other than `Qnil`, `rb_vm_jump_tag_but_local_jump` leaves through
`rb_exc_raise` with the `LocalJumpError` that
`rb_vm_make_jump_tag_but_local_jump` makes for the state, and never through
`JUMP_TAG`; with the payload `Qnil` it leaves through `JUMP_TAG(state)`. -/
theorem rb_vm_jump_tag_raises_local_jump_error (retval : VALUE) (state : Nat) (val : VALUE)
    (hst : local_jump_state state) :
    (val ≠ Qnil →
      ∃ exc, rb_vm_jump_tag_but_local_jump retval state val = .rb_exc_raise (.exc exc) ∧
        rb_vm_make_jump_tag_but_local_jump retval state val = .exc exc ∧
        exc.klass = rb_eLocalJumpError ∧
        rb_iv_get exc "@reason" = some (.sym (tag_keyword state))) ∧
    (val = Qnil → rb_vm_jump_tag_but_local_jump retval state val = .JUMP_TAG state) := by
  constructor
  · intro hv
    rcases hst with h | h | h | h | h <;> subst h <;>
      simp [rb_vm_jump_tag_but_local_jump, rb_vm_make_jump_tag_but_local_jump, hv,
        make_localjump_error, rb_iv_get, rb_iv_set, rb_exc_new2, tag_keyword,
        TAG_RETURN, TAG_BREAK, TAG_NEXT, TAG_REDO, TAG_RETRY]
  · intro hv
    simp [rb_vm_jump_tag_but_local_jump, hv]

/-- C18, witness of the amended claim: a stray return with payload 42 is raised
as a `LocalJumpError` with reason `:return`; with payload `Qnil` the raw tag is
thrown. -/
theorem rb_vm_jump_tag_raises_local_jump_error_witness :
    local_jump_state TAG_RETURN ∧
    (∃ exc, rb_vm_jump_tag_but_local_jump 0 TAG_RETURN 42 = .rb_exc_raise (.exc exc) ∧
      rb_vm_make_jump_tag_but_local_jump 0 TAG_RETURN 42 = .exc exc ∧
      exc.klass = rb_eLocalJumpError ∧
      rb_iv_get exc "@reason" = some (.sym (tag_keyword TAG_RETURN))) ∧
    rb_vm_jump_tag_but_local_jump 0 TAG_RETURN Qnil = .JUMP_TAG TAG_RETURN :=
  ⟨Or.inl rfl,
   (rb_vm_jump_tag_raises_local_jump_error 0 TAG_RETURN 42 (Or.inl rfl)).1 (by decide),
   (rb_vm_jump_tag_raises_local_jump_error 0 TAG_RETURN Qnil (Or.inl rfl)).2 rfl⟩

/-! ### Aborts of `rb_vm_make_proc` -/

theorem GC_GUARDED_PTR_REF_GUARDED (p : Nat) (h : p % 4 = 0) :
    GC_GUARDED_PTR_REF (GC_GUARDED_PTR p) = p := by
  have hp : p = 2 ^ 2 * (p / 4) := by omega
  have h1 : GC_GUARDED_PTR p = p + 1 := by
    unfold GC_GUARDED_PTR
    rw [hp, ← Nat.mul_add_lt_is_or (by decide) (p / 4)]
  rw [h1]
  unfold GC_GUARDED_PTR_REF
  omega

theorem ENV_IN_HEAP_P_of_le (th : rb_thread_t) (a : Nat)
    (hheap : th.stack + SIZEOF_VALUE * th.stack_size ≤ th.brk) (h : th.brk ≤ a) :
    ENV_IN_HEAP_P th a = true := by
  simp [ENV_IN_HEAP_P]
  omega

theorem lt_brk_of_stack (th : rb_thread_t) (a : Nat)
    (hheap : th.stack + SIZEOF_VALUE * th.stack_size ≤ th.brk)
    (h : ENV_IN_HEAP_P th a = false) : a < th.brk := by
  simp [ENV_IN_HEAP_P] at h
  omega

theorem rb_vm_get_ruby_level_next_cfp_spec (th : rb_thread_t) :
    ∀ (fuel cfp : Nat), th.frames.length - cfp < fuel →
      ∃ r, rb_vm_get_ruby_level_next_cfp fuel th cfp = .ok r ∧
        (∀ k, r = some k → cfp ≤ k ∧
          (∃ f, th.frames[k]? = some f ∧ RUBY_VM_NORMAL_ISEQ_P f.iseq = true) ∧
          ∀ (j : Nat) (g : rb_control_frame_t), cfp ≤ j → j < k → th.frames[j]? = some g →
            RUBY_VM_NORMAL_ISEQ_P g.iseq = false) ∧
        (r = none ↔ ∀ (j : Nat) (g : rb_control_frame_t), cfp ≤ j → th.frames[j]? = some g →
          RUBY_VM_NORMAL_ISEQ_P g.iseq = false) := by
  intro fuel
  induction fuel with
  | zero => intro cfp h; omega
  | succ n ih =>
    intro cfp hfuel
    unfold rb_vm_get_ruby_level_next_cfp
    by_cases hov : th.frames.length ≤ cfp
    · simp only [RUBY_VM_CONTROL_FRAME_STACK_OVERFLOW_P, hov, decide_True, if_true]
      refine ⟨none, rfl, (fun k hk => by cases hk), ?_⟩
      refine ⟨fun _ j g hj hg => ?_, fun _ => rfl⟩
      have := (List.getElem?_eq_some.mp hg).1
      omega
    · simp only [RUBY_VM_CONTROL_FRAME_STACK_OVERFLOW_P, hov, decide_False, if_false,
        Bool.false_eq_true]
      have hlt : cfp < th.frames.length := by omega
      have hf : th.frames[cfp]? = some th.frames[cfp] := List.getElem?_eq_getElem hlt
      simp only [hf]
      by_cases hn : RUBY_VM_NORMAL_ISEQ_P th.frames[cfp].iseq = true
      · rw [if_pos hn]
        refine ⟨some cfp, rfl, ?_, ?_⟩
        · intro k hk
          cases hk
          exact ⟨le_refl _, ⟨_, hf, hn⟩, fun j g h1 h2 => by omega⟩
        · constructor
          · intro h; cases h
          · intro h
            have := h cfp _ (le_refl _) hf
            rw [hn] at this
            cases this
      · rw [if_neg hn]
        have hn' : RUBY_VM_NORMAL_ISEQ_P th.frames[cfp].iseq = false := by simpa using hn
        obtain ⟨r, hr, h1, h2⟩ := ih (cfp + 1) (by omega)
        refine ⟨r, hr, ?_, ?_⟩
        · intro k hk
          obtain ⟨a, b, c⟩ := h1 k hk
          refine ⟨by omega, b, ?_⟩
          intro j g hj hjk hg
          by_cases hjc : j = cfp
          · subst hjc
            rw [hf] at hg
            cases hg
            exact hn'
          · exact c j g (by omega) hjk hg
        · constructor
          · intro h j g hj hg
            by_cases hjc : j = cfp
            · subst hjc
              rw [hf] at hg
              cases hg
              exact hn'
            · exact h2.mp h j g (by omega) hg
          · intro h
            exact h2.mpr (fun j g hj hg => h j g (by omega) hg)

/-- C24: with fuel for the frames from `cfp` on, `rb_vm_get_ruby_level_next_cfp`
returns; a frame it returns is at or after `cfp` and owns a normal instruction
sequence, and no frame from `cfp` up to it does; it returns the null pointer if
and only if no frame from `cfp` to the end of the frame array owns a normal
instruction sequence, and then, for `cfp = th->cfp`, `rb_sourcefile` and
`rb_sourceline` return 0. -/
theorem rb_vm_get_ruby_level_next_cfp_nearest (RSTRING_PTR : VALUE → Nat) (th : rb_thread_t)
    (fuel cfp : Nat) (hfuel : th.frames.length - cfp < fuel) :
    ∃ r, rb_vm_get_ruby_level_next_cfp fuel th cfp = .ok r ∧
      (∀ k, r = some k → cfp ≤ k ∧
        (∃ f, th.frames[k]? = some f ∧ RUBY_VM_NORMAL_ISEQ_P f.iseq = true) ∧
        ∀ (j : Nat) (g : rb_control_frame_t), cfp ≤ j → j < k → th.frames[j]? = some g →
          RUBY_VM_NORMAL_ISEQ_P g.iseq = false) ∧
      (r = none ↔ ∀ (j : Nat) (g : rb_control_frame_t), cfp ≤ j → th.frames[j]? = some g →
        RUBY_VM_NORMAL_ISEQ_P g.iseq = false) ∧
      (cfp = th.cfp → r = none →
        rb_sourcefile RSTRING_PTR fuel th = .ok 0 ∧ rb_sourceline fuel th = .ok 0) := by
  obtain ⟨r, hr, h1, h2⟩ := rb_vm_get_ruby_level_next_cfp_spec th fuel cfp hfuel
  refine ⟨r, hr, h1, h2, ?_⟩
  intro hc hn
  subst hc hn
  refine ⟨?_, ?_⟩
  · simp only [rb_sourcefile, hr]
  · simp only [rb_sourceline, hr]

/-- C24, witness: from the native call frame of `walk_thread` the walk passes
the finish frame and returns the method frame, index 2; in `native_thread` it
returns the null pointer, and `rb_sourcefile` and `rb_sourceline` are 0. -/
theorem rb_vm_get_ruby_level_next_cfp_nearest_witness :
    rb_vm_get_ruby_level_next_cfp 4 walk_thread 0 = .ok (some 2) ∧
    rb_vm_get_ruby_level_next_cfp 3 native_thread 0 = .ok none ∧
    rb_sourcefile (fun s => s + 16) 3 native_thread = .ok 0 ∧
    rb_sourceline 3 native_thread = .ok 0 ∧
    ∃ r, rb_vm_get_ruby_level_next_cfp 4 walk_thread 0 = .ok r ∧
      (∀ k, r = some k → 0 ≤ k ∧
        (∃ f, walk_thread.frames[k]? = some f ∧ RUBY_VM_NORMAL_ISEQ_P f.iseq = true) ∧
        ∀ (j : Nat) (g : rb_control_frame_t), 0 ≤ j → j < k → walk_thread.frames[j]? = some g →
          RUBY_VM_NORMAL_ISEQ_P g.iseq = false) ∧
      (r = none ↔ ∀ (j : Nat) (g : rb_control_frame_t), 0 ≤ j →
        walk_thread.frames[j]? = some g → RUBY_VM_NORMAL_ISEQ_P g.iseq = false) ∧
      (0 = walk_thread.cfp → r = none →
        rb_sourcefile (fun s => s + 16) 4 walk_thread = .ok 0 ∧
        rb_sourceline 4 walk_thread = .ok 0) :=
  ⟨rfl, rfl, rfl, rfl,
    rb_vm_get_ruby_level_next_cfp_nearest (fun s => s + 16) walk_thread 4 0 (by decide)⟩

theorem sourceline_scan_spec (tbl : List iseq_insn_info_entry) (pos : Int) :
    ∀ (fuel i : Nat), 1 ≤ i → i ≤ tbl.length → tbl.length - i < fuel →
      sourceline_scan tbl pos fuel i =
        .ok (match (List.range' i (tbl.length - i)).find? (position_at tbl pos) with
          | some k => line_no_at tbl (k - 1)
          | none => line_no_at tbl (tbl.length - 1)) := by
  intro fuel
  induction fuel with
  | zero => intro i _ _ h; omega
  | succ n ih =>
    intro i h1 h2 h3
    unfold sourceline_scan
    by_cases hi : i < tbl.length
    · rw [if_pos hi]
      have hprev : tbl[i - 1]? = some tbl[i - 1] := List.getElem?_eq_getElem (by omega)
      have hcur : tbl[i]? = some tbl[i] := List.getElem?_eq_getElem hi
      have hsplit : tbl.length - i = (tbl.length - (i + 1)) + 1 := by omega
      rw [hsplit, List.range'_succ, List.find?_cons]
      simp only [hcur]
      by_cases hp : (tbl[i].position : Int) = pos
      · rw [if_pos hp]
        have : position_at tbl pos i = true := by
          simp [position_at, hcur, hp]
        simp only [this, hprev, line_no_at, Option.map_some', Option.getD_some]
      · rw [if_neg hp]
        have : position_at tbl pos i = false := by
          simp [position_at, hcur, hp]
        simp only [this]
        exact ih (i + 1) (by omega) (by omega) (by omega)
    · rw [if_neg hi]
      have hil : i = tbl.length := by omega
      have hprev : tbl[i - 1]? = some tbl[i - 1] := List.getElem?_eq_getElem (by omega)
      subst hil
      simp only [hprev, Nat.sub_self, List.range'_zero, List.find?_nil, line_no_at,
        Option.map_some', Option.getD_some]

/-- C27: `rb_vm_get_sourceline` returns, without reading outside the table, the
value of the reference definition. -/
theorem rb_vm_get_sourceline_reference (f : rb_control_frame_t) :
    rb_vm_get_sourceline f = .ok (sourceline_reference f) := by
  unfold rb_vm_get_sourceline sourceline_reference
  cases hq : f.iseq with
  | null => rfl
  | ifunc n => rfl
  | iseq iseq =>
    simp only
    by_cases hl : iseq.insn_info_table.length = 0
    · simp [hl]
    · have hpos : 0 < iseq.insn_info_table.length := Nat.pos_of_ne_zero hl
      have h0 : iseq.insn_info_table[0]? = some iseq.insn_info_table[0] :=
        List.getElem?_eq_getElem hpos
      rw [if_pos hpos, if_neg hl]
      simp only [h0]
      by_cases hp : (iseq.insn_info_table[0].position : Int) = pc_offset f iseq
      · have : position_at iseq.insn_info_table (pc_offset f iseq) 0 = true := by
          simp [position_at, h0, hp]
        rw [if_pos hp, if_pos this]
      · have : position_at iseq.insn_info_table (pc_offset f iseq) 0 = false := by
          simp [position_at, h0, hp]
        rw [if_neg hp, this]
        simp only [Bool.false_eq_true, if_false]
        exact sourceline_scan_spec _ _ _ 1 (le_refl _) (by omega) (by omega)

theorem rb_vm_get_sourceline_line_frame :
    pc_offset line_frame { sample_iseq 2 with insn_info_table := [⟨0, 10⟩, ⟨2, 11⟩, ⟨5, 12⟩] }
      = 5 ∧
    rb_vm_get_sourceline line_frame = .ok 11 ∧
    rb_vm_get_sourceline { line_frame with pc := 96 } = .ok 0 ∧
    rb_vm_get_sourceline { line_frame with pc := 104 } = .ok 12 := by
  refine ⟨by decide, ?_, ?_, ?_⟩ <;> rw [rb_vm_get_sourceline_reference] <;> congr 1

/-! ### Pushing frames (`vm_push_frame`, `vm_set_top_stack`, the handler frame of `vm_exec`) -/

theorem nil_init_inside (sp : Nat) (m0 : Nat → VALUE) :
    ∀ (n i : Nat), i < n →
      (List.range n).foldl (fun m i => store m (sp + SIZEOF_VALUE * i) Qnil) m0
        (sp + SIZEOF_VALUE * i) = Qnil := by
  intro n
  induction n with
  | zero => intro i h; omega
  | succ n ih =>
    intro i hi
    rw [List.range_succ, List.foldl_append]
    simp only [List.foldl_cons, List.foldl_nil]
    by_cases hin : i = n
    · subst hin
      exact store_same _ _ _
    · rw [store_other _ _ _ _ (by simp only [SIZEOF_VALUE]; omega)]
      exact ih i (by omega)

theorem nil_init_outside (sp : Nat) (m0 : Nat → VALUE) :
    ∀ (n a : Nat), (a < sp ∨ sp + SIZEOF_VALUE * n ≤ a) →
      (List.range n).foldl (fun m i => store m (sp + SIZEOF_VALUE * i) Qnil) m0 a = m0 a := by
  intro n
  induction n with
  | zero => intro a _; rfl
  | succ n ih =>
    intro a ha
    rw [List.range_succ, List.foldl_append]
    simp only [List.foldl_cons, List.foldl_nil]
    rw [store_other _ _ _ _ (by simp only [SIZEOF_VALUE] at ha ⊢; omega)]
    exact ih a (by simp only [SIZEOF_VALUE] at ha ⊢; omega)

/-- What `vm_push_frame` does when there is room for the frame: the frame array
gets the new frame in the slot below `th->cfp`, which becomes the current
frame; the `local_size` words from `sp` are nil, the word after them is the
guarded `specval`, and no other word changes. -/
theorem vm_push_frame_spec (th : rb_thread_t) (iseq : iseq_ptr) (type : Nat)
    (self specval : VALUE) (pc sp lfp n : Nat)
    (hc : th.cfp ≠ 0) (hroom : sp + SIZEOF_VALUE * n < cfp_addr th (th.cfp - 1)) :
    ∃ th', vm_push_frame th iseq type self specval pc sp lfp (n : Int) = some th' ∧
      th'.cfp = th.cfp - 1 ∧
      th'.frames = th.frames.set (th.cfp - 1)
        { pc := pc, sp := sp + SIZEOF_VALUE * n + SIZEOF_VALUE,
          bp := sp + SIZEOF_VALUE * n + SIZEOF_VALUE, iseq := iseq, flag := type, self := self,
          lfp := if lfp = 0 then sp + SIZEOF_VALUE * n else lfp, dfp := sp + SIZEOF_VALUE * n,
          block_iseq := .null, proc := 0, me := 0 } ∧
      (∀ i, i < n → th'.mem (sp + SIZEOF_VALUE * i) = Qnil) ∧
      th'.mem (sp + SIZEOF_VALUE * n) = GC_GUARDED_PTR specval ∧
      (∀ a, (a < sp ∨ sp + SIZEOF_VALUE * n < a) → th'.mem a = th.mem a) ∧
      th'.stack = th.stack ∧ th'.stack_size = th.stack_size ∧ th'.iseqs = th.iseqs ∧
      th'.top_self = th.top_self ∧ th'.finish_insn_seq = th.finish_insn_seq ∧
      th'.state = th.state ∧ th'.errinfo = th.errinfo ∧ th'.brk = th.brk ∧
      th'.throwobjs = th.throwobjs ∧ th'.envs = th.envs ∧ th'.procs = th.procs ∧
      th'.safe_level = th.safe_level := by
  have hnot : ¬ (th.cfp = 0 ∨
      (cfp_addr th (th.cfp - 1) : Int) ≤ (sp : Int) + SIZEOF_VALUE * (n : Int)) := by
    intro h
    rcases h with h | h
    · exact hc h
    · have : cfp_addr th (th.cfp - 1) ≤ sp + SIZEOF_VALUE * n := by exact_mod_cast h
      omega
  unfold vm_push_frame
  rw [if_neg hnot]
  simp only [Int.toNat_ofNat]
  refine ⟨_, rfl, rfl, rfl, ?_, ?_, ?_, rfl, rfl, rfl, rfl, rfl, rfl, rfl, rfl, rfl, rfl, rfl,
    rfl⟩
  · intro i hi
    simp only
    rw [store_other _ _ _ _ (by simp only [SIZEOF_VALUE]; omega)]
    exact nil_init_inside sp th.mem n i hi
  · simp only
    exact store_same _ _ _
  · intro a ha
    simp only
    rw [store_other _ _ _ _ (by omega)]
    exact nil_init_outside sp th.mem n a (by omega)

theorem rb_vm_set_finish_env_spec (th : rb_thread_t) (f : rb_control_frame_t)
    (hf : th.frames[th.cfp]? = some f) (hc : th.cfp ≠ 0)
    (hroom : f.sp + 8 < cfp_addr th (th.cfp - 1)) :
    ∃ th1, rb_vm_set_finish_env th = .ok (some th1) ∧
      th1.cfp = th.cfp - 1 ∧
      th1.frames = th.frames.set (th.cfp - 1) (pushed_finish_frame th f.sp) ∧
      th1.mem f.sp = Qnil ∧ th1.mem (f.sp + 8) = GC_GUARDED_PTR (th.mem f.lfp) ∧
      (∀ a, (a < f.sp ∨ f.sp + 8 < a) → th1.mem a = th.mem a) ∧
      th1.stack = th.stack ∧ th1.stack_size = th.stack_size ∧ th1.iseqs = th.iseqs ∧
      th1.top_self = th.top_self ∧ th1.finish_insn_seq = th.finish_insn_seq := by
  obtain ⟨th0, h0, hcfp, hfr, hnil, hspec, hmem, hs, hz, hi, ht, hfi, _⟩ :=
    vm_push_frame_spec th .null VM_FRAME_MAGIC_FINISH Qnil (th.mem f.lfp) 0 f.sp 0 1 hc
      (by simp only [SIZEOF_VALUE] at hroom ⊢; omega)
  have hlt : th.cfp - 1 < th.frames.length := by
    have := (List.getElem?_eq_some.mp hf).1
    omega
  have h0' : vm_push_frame th .null VM_FRAME_MAGIC_FINISH Qnil (th.mem f.lfp) 0 f.sp 0 1
      = some th0 := h0
  have hget : th0.frames[th0.cfp]? = some
      { pc := 0, sp := f.sp + SIZEOF_VALUE * 1 + SIZEOF_VALUE,
        bp := f.sp + SIZEOF_VALUE * 1 + SIZEOF_VALUE, iseq := .null,
        flag := VM_FRAME_MAGIC_FINISH, self := Qnil,
        lfp := if 0 = 0 then f.sp + SIZEOF_VALUE * 1 else 0, dfp := f.sp + SIZEOF_VALUE * 1,
        block_iseq := .null, proc := 0, me := 0 } := by
    rw [hcfp, hfr, List.getElem?_set_self hlt]
  simp only [rb_vm_set_finish_env, hf, h0', hget]
  refine ⟨_, rfl, hcfp, ?_, ?_, ?_, ?_, hs, hz, hi, ht, hfi⟩
  · simp only [hcfp, hfr, List.set_set, pushed_finish_frame, hfi, SIZEOF_VALUE]
    rfl
  · simp only
    have := hnil 0 (by omega)
    simpa [SIZEOF_VALUE] using this
  · simp only
    simpa [SIZEOF_VALUE] using hspec
  · intro a ha
    simp only
    exact hmem a (by simp only [SIZEOF_VALUE]; omega)

/-- C29: `vm_set_top_stack` on a valid instruction sequence raises `TypeError`
("Not a toplevel InstructionSequence") if and only if the type of the sequence
is not `ISEQ_TYPE_TOP`, and then it leaves the thread as it was.  Otherwise,
when the frame array and the value stack have room for them, it pushes exactly
two frames: the finish frame and, in the slot below it, a top-level frame with
`self = th->top_self`, `pc` at the first instruction, and `local_size` nil
locals below its scope cell; the only thing that can follow is the stack
overflow error of `CHECK_STACK_OVERFLOW`. -/
theorem vm_set_top_stack_pushes (th : rb_thread_t) (iseqval : VALUE) (iseq : rb_iseq_t)
    (f : rb_control_frame_t) (hi : th.iseqs iseqval = some iseq)
    (hf : th.frames[th.cfp]? = some f) :
    (iseq.type ≠ ISEQ_TYPE_TOP →
      vm_set_top_stack th iseqval =
        .ok (.raised "TypeError" "Not a toplevel InstructionSequence" th)) ∧
    (iseq.type = ISEQ_TYPE_TOP → ∀ (mesg : String) (th' : rb_thread_t),
      vm_set_top_stack th iseqval ≠ .ok (.raised "TypeError" mesg th')) ∧
    (iseq.type = ISEQ_TYPE_TOP → 2 ≤ th.cfp → f.sp + 8 < cfp_addr th (th.cfp - 1) →
      f.sp + 16 + SIZEOF_VALUE * iseq.local_size < cfp_addr th (th.cfp - 2) →
      ∃ th', (vm_set_top_stack th iseqval = .ok (.returned th') ∨
          vm_set_top_stack th iseqval =
            .ok (.raised "SystemStackError" "stack level too deep" th')) ∧
        th'.cfp = th.cfp - 2 ∧
        th'.frames = (th.frames.set (th.cfp - 1) (pushed_finish_frame th f.sp)).set
          (th.cfp - 2) (pushed_top_frame th iseq f.sp) ∧
        (∀ i, i < iseq.local_size → th'.mem (f.sp + 16 + SIZEOF_VALUE * i) = Qnil) ∧
        (∀ a, a < f.sp → th'.mem a = th.mem a)) := by
  refine ⟨?_, ?_, ?_⟩
  · intro ht
    simp only [vm_set_top_stack, hi, ht, ne_eq, not_false_eq_true, if_true]
  · intro ht mesg th' h
    simp only [vm_set_top_stack, hi, ht, ne_eq, not_true_eq_false, if_false] at h
    split at h
    · simp at h
    · split at h
      · cases h
      · split at h
        · simp at h
        · split at h
          · cases h
          · split at h <;> simp at h
    · cases h
    · cases h
    · cases h
  · intro ht hc hr1 hr2
    obtain ⟨th1, h1, hcfp1, hfr1, _, _, hmem1, hs1, hz1, hi1, ht1, hfi1⟩ :=
      rb_vm_set_finish_env_spec th f hf (by omega) hr1
    have hlen := (List.getElem?_eq_some.mp hf).1
    have hget1 : th1.frames[th1.cfp]? = some (pushed_finish_frame th f.sp) := by
      rw [hcfp1, hfr1, List.getElem?_set_self (by omega)]
    have hca : cfp_addr th1 (th1.cfp - 1) = cfp_addr th (th.cfp - 2) := by
      simp only [cfp_addr, RUBY_VM_END_CONTROL_FRAME, hs1, hz1, hfr1, List.length_set, hcfp1]
      rfl
    obtain ⟨th2, h2, hcfp2, hfr2, hnil2, _, hmem2, _⟩ :=
      vm_push_frame_spec th1 (.iseq iseq) VM_FRAME_MAGIC_TOP th1.top_self 0 iseq.iseq_encoded
        (f.sp + 16) 0 iseq.local_size (by omega) (by rw [hca]; exact hr2)
    have hget2 : ∃ f2, th2.frames[th2.cfp]? = some f2 := by
      have hlt2 : th2.cfp < th2.frames.length := by
        rw [hcfp2, hfr2, List.length_set, hfr1, List.length_set]
        omega
      exact ⟨th2.frames[th2.cfp], List.getElem?_eq_getElem hlt2⟩
    obtain ⟨f2, hf2⟩ := hget2
    have hrun : vm_set_top_stack th iseqval =
        if CHECK_STACK_OVERFLOW th2 f2 iseq.stack_max then
          .ok (.raised "SystemStackError" "stack level too deep" th2)
        else .ok (.returned th2) := by
      simp only [vm_set_top_stack, hi, ht, ne_eq, not_true_eq_false, if_false, h1, hget1]
      have : (pushed_finish_frame th f.sp).sp = f.sp + 16 := rfl
      rw [this, h2]
      simp only [hf2]
    refine ⟨th2, ?_, ?_, ?_, ?_, ?_⟩
    · rw [hrun]
      by_cases hck : CHECK_STACK_OVERFLOW th2 f2 iseq.stack_max = true
      · right; rw [if_pos hck]
      · left; rw [if_neg hck]
    · rw [hcfp2, hcfp1]; omega
    · rw [hfr2, hfr1, hcfp1, ht1]
      have : th.cfp - 1 - 1 = th.cfp - 2 := by omega
      rw [this]
      simp [pushed_top_frame, SIZEOF_VALUE]
    · exact hnil2
    · intro a ha
      rw [hmem2 a (by omega), hmem1 a (by omega)]

/-- C29, witness: on `boot_thread`, whose current frame has its stack pointer at
1016, the top-level sequence 600 gets the finish frame in slot 2 and the
top-level frame in slot 1, with `self` 99 and the scope cell at 1048, and the
method body 601 raises `TypeError`. -/
theorem vm_set_top_stack_pushes_witness :
    vm_set_top_stack boot_thread 601 =
      .ok (.raised "TypeError" "Not a toplevel InstructionSequence" boot_thread) ∧
    (pushed_top_frame boot_thread (sample_iseq 2) 1016).self = 99 ∧
    (pushed_top_frame boot_thread (sample_iseq 2) 1016).dfp = 1048 ∧
    ∃ th', (vm_set_top_stack boot_thread 600 = .ok (.returned th') ∨
        vm_set_top_stack boot_thread 600 =
          .ok (.raised "SystemStackError" "stack level too deep" th')) ∧
      th'.cfp = boot_thread.cfp - 2 ∧
      th'.frames = (boot_thread.frames.set (boot_thread.cfp - 1)
          (pushed_finish_frame boot_thread
            (sample_frame VM_FRAME_MAGIC_TOP 1008 1008 0).sp)).set
        (boot_thread.cfp - 2)
          (pushed_top_frame boot_thread (sample_iseq 2)
            (sample_frame VM_FRAME_MAGIC_TOP 1008 1008 0).sp) ∧
      (∀ i, i < (sample_iseq 2).local_size →
        th'.mem ((sample_frame VM_FRAME_MAGIC_TOP 1008 1008 0).sp + 16 + SIZEOF_VALUE * i)
          = Qnil) ∧
      (∀ a, a < (sample_frame VM_FRAME_MAGIC_TOP 1008 1008 0).sp →
        th'.mem a = boot_thread.mem a) :=
  ⟨(vm_set_top_stack_pushes boot_thread 601 { sample_iseq 2 with type := 1 }
      (sample_frame VM_FRAME_MAGIC_TOP 1008 1008 0) rfl rfl).1 (by decide),
    rfl, rfl,
    (vm_set_top_stack_pushes boot_thread 600 (sample_iseq 2)
      (sample_frame VM_FRAME_MAGIC_TOP 1008 1008 0) rfl rfl).2.2 rfl (by decide) (by decide)
      (by decide)⟩

/-- C25: when the entry `e`, of continuation `cont` and stack depth `sp`, is
selected at the frame `F = th->cfp` (for a raise: `e` is the first covering
rescue or ensure entry) and names the handler `catch_iseq`, and there is room
for a frame, `vm_exec` goes to `vm_loop_start` with: `F`'s `sp` at `bp + sp` and
its `pc` at `iseq_encoded + cont`; the error value in the word at that `sp`;
one new frame, in the slot below `F`, of kind block, running `catch_iseq`, with
`F`'s `self` and `lfp`, whose locals start one word above the error value and
whose scope cell holds the guarded `dfp` of `F`; no other frame and no word
below the error value changed; `th->state` 0 and `th->errinfo` nil. -/
theorem vm_exec_dispatch_pushes_handler (th : rb_thread_t) (f : rb_control_frame_t)
    (iseq : rb_iseq_t) (err : VALUE) (escape_dfp : Nat) (e : iseq_catch_table_entry)
    (catch_iseq : rb_iseq_t)
    (hF : th.frames[th.cfp]? = some f) (hc : th.cfp ≠ 0)
    (hez : e.iseq ≠ 0) (hci : th.iseqs e.iseq = some catch_iseq)
    (hls : 1 ≤ catch_iseq.local_size) (hlfp : f.lfp ≠ 0)
    (hroom : handler_dfp f e.sp catch_iseq < cfp_addr th (th.cfp - 1)) :
    ∃ th', dispatch_handler th f iseq err ⟨e.iseq, e.cont, e.sp⟩ =
        .ok (.exit (.vm_loop_start th')) ∧
      (first_covering raise_entry (frame_epc f iseq) iseq.catch_table = some e →
        handle_frame th f iseq TAG_RAISE err escape_dfp = .ok (.exit (.vm_loop_start th'))) ∧
      th'.cfp = th.cfp - 1 ∧
      th'.frames = (th.frames.set th.cfp
          { f with sp := f.bp + SIZEOF_VALUE * e.sp,
                   pc := iseq.iseq_encoded + SIZEOF_VALUE * e.cont }).set
        (th.cfp - 1) (handler_frame f e.sp catch_iseq) ∧
      th'.mem (f.bp + SIZEOF_VALUE * e.sp) = err ∧
      (∀ i, i < catch_iseq.local_size - 1 →
        th'.mem (f.bp + SIZEOF_VALUE * e.sp + SIZEOF_VALUE + SIZEOF_VALUE * i) = Qnil) ∧
      th'.mem (handler_dfp f e.sp catch_iseq) = GC_GUARDED_PTR f.dfp ∧
      (∀ a, a < f.bp + SIZEOF_VALUE * e.sp → th'.mem a = th.mem a) ∧
      th'.state = 0 ∧ th'.errinfo = Qnil := by
  have _ := hF
  have hcast : ((catch_iseq.local_size : Int) - 1) = ((catch_iseq.local_size - 1 : Nat) : Int) := by
    omega
  obtain ⟨th2, h2, hcfp, hfr, hnil, hspec, hmem, _⟩ :=
    vm_push_frame_spec
      { th with
          frames := th.frames.set th.cfp
            { f with sp := f.bp + SIZEOF_VALUE * e.sp,
                     pc := iseq.iseq_encoded + SIZEOF_VALUE * e.cont },
          mem := store th.mem (f.bp + SIZEOF_VALUE * e.sp) err }
      (.iseq catch_iseq) VM_FRAME_MAGIC_BLOCK f.self f.dfp catch_iseq.iseq_encoded
      (f.bp + SIZEOF_VALUE * e.sp + SIZEOF_VALUE) f.lfp (catch_iseq.local_size - 1) hc
      (by
        simp only [cfp_addr, RUBY_VM_END_CONTROL_FRAME, List.length_set]
        exact hroom)
  have hrun : dispatch_handler th f iseq err ⟨e.iseq, e.cont, e.sp⟩ =
      .ok (.exit (.vm_loop_start { th2 with state := 0, errinfo := Qnil })) := by
    simp only [dispatch_handler, hci, hcast]
    rw [h2]
  refine ⟨{ th2 with state := 0, errinfo := Qnil }, hrun, ?_, hcfp, ?_, ?_, hnil, hspec, ?_,
    rfl, rfl⟩
  · intro hfirst
    rw [handle_frame_raise, hfirst]
    simp only [if_pos hez]
    exact hrun
  · show th2.frames = _
    rw [hfr]
    simp only [handler_frame, handler_dfp, if_neg hlfp]
  · show th2.mem _ = err
    rw [hmem _ (Or.inl (by simp only [SIZEOF_VALUE]; omega))]
    exact store_same _ _ _
  · intro a ha
    show th2.mem a = th.mem a
    rw [hmem a (Or.inl (by omega))]
    exact store_other _ _ _ _ (by omega)

/-- C25, witness: a raise at offset 3 in `raise_thread` selects the ensure entry
(continuation 7, stack depth 2); the frame gets `sp = 1104` and `pc = 152`, the
error value 500 is stored at 1104, and the handler frame pushed in slot 0 has
its scope cell at 1112. -/
theorem vm_exec_dispatch_pushes_handler_witness :
    first_covering raise_entry
      (frame_epc (unwind_frame VM_FRAME_MAGIC_METHOD 1080 1080 [ensure_inner, rescue_outer])
        { type := 0, local_size := 1, stack_max := 4, iseq_encoded := 96,
          catch_table := [ensure_inner, rescue_outer], insn_info_table := [] })
      [ensure_inner, rescue_outer] = some ensure_inner ∧
    handler_dfp (unwind_frame VM_FRAME_MAGIC_METHOD 1080 1080 [ensure_inner, rescue_outer])
      ensure_inner.sp ensure_iseq = 1112 ∧
    ∃ th', dispatch_handler (raise_thread [ensure_inner, rescue_outer] ⟨42, 0, TAG_RAISE⟩)
        (unwind_frame VM_FRAME_MAGIC_METHOD 1080 1080 [ensure_inner, rescue_outer])
        { type := 0, local_size := 1, stack_max := 4, iseq_encoded := 96,
          catch_table := [ensure_inner, rescue_outer], insn_info_table := [] }
        500 ⟨ensure_inner.iseq, ensure_inner.cont, ensure_inner.sp⟩ =
        .ok (.exit (.vm_loop_start th')) ∧
      (first_covering raise_entry
          (frame_epc (unwind_frame VM_FRAME_MAGIC_METHOD 1080 1080 [ensure_inner, rescue_outer])
            { type := 0, local_size := 1, stack_max := 4, iseq_encoded := 96,
              catch_table := [ensure_inner, rescue_outer], insn_info_table := [] })
          ({ type := 0, local_size := 1, stack_max := 4, iseq_encoded := 96,
             catch_table := [ensure_inner, rescue_outer],
             insn_info_table := [] } : rb_iseq_t).catch_table = some ensure_inner →
        handle_frame (raise_thread [ensure_inner, rescue_outer] ⟨42, 0, TAG_RAISE⟩)
          (unwind_frame VM_FRAME_MAGIC_METHOD 1080 1080 [ensure_inner, rescue_outer])
          { type := 0, local_size := 1, stack_max := 4, iseq_encoded := 96,
            catch_table := [ensure_inner, rescue_outer], insn_info_table := [] }
          TAG_RAISE 500 0 = .ok (.exit (.vm_loop_start th'))) ∧
      th'.cfp = (raise_thread [ensure_inner, rescue_outer] ⟨42, 0, TAG_RAISE⟩).cfp - 1 ∧
      th'.frames = ((raise_thread [ensure_inner, rescue_outer] ⟨42, 0, TAG_RAISE⟩).frames.set
          (raise_thread [ensure_inner, rescue_outer] ⟨42, 0, TAG_RAISE⟩).cfp
          { unwind_frame VM_FRAME_MAGIC_METHOD 1080 1080 [ensure_inner, rescue_outer] with
            sp := (unwind_frame VM_FRAME_MAGIC_METHOD 1080 1080
                [ensure_inner, rescue_outer]).bp + SIZEOF_VALUE * ensure_inner.sp,
            pc := 96 + SIZEOF_VALUE * ensure_inner.cont }).set
        ((raise_thread [ensure_inner, rescue_outer] ⟨42, 0, TAG_RAISE⟩).cfp - 1)
        (handler_frame (unwind_frame VM_FRAME_MAGIC_METHOD 1080 1080
          [ensure_inner, rescue_outer]) ensure_inner.sp ensure_iseq) ∧
      th'.mem ((unwind_frame VM_FRAME_MAGIC_METHOD 1080 1080 [ensure_inner, rescue_outer]).bp
        + SIZEOF_VALUE * ensure_inner.sp) = 500 ∧
      (∀ i, i < ensure_iseq.local_size - 1 →
        th'.mem ((unwind_frame VM_FRAME_MAGIC_METHOD 1080 1080
          [ensure_inner, rescue_outer]).bp + SIZEOF_VALUE * ensure_inner.sp + SIZEOF_VALUE
            + SIZEOF_VALUE * i) = Qnil) ∧
      th'.mem (handler_dfp (unwind_frame VM_FRAME_MAGIC_METHOD 1080 1080
          [ensure_inner, rescue_outer]) ensure_inner.sp ensure_iseq) =
        GC_GUARDED_PTR (unwind_frame VM_FRAME_MAGIC_METHOD 1080 1080
          [ensure_inner, rescue_outer]).dfp ∧
      (∀ a, a < (unwind_frame VM_FRAME_MAGIC_METHOD 1080 1080 [ensure_inner, rescue_outer]).bp
          + SIZEOF_VALUE * ensure_inner.sp →
        th'.mem a = (raise_thread [ensure_inner, rescue_outer] ⟨42, 0, TAG_RAISE⟩).mem a) ∧
      th'.state = 0 ∧ th'.errinfo = Qnil :=
  ⟨by decide, by decide,
    vm_exec_dispatch_pushes_handler (raise_thread [ensure_inner, rescue_outer] ⟨42, 0, TAG_RAISE⟩)
      (unwind_frame VM_FRAME_MAGIC_METHOD 1080 1080 [ensure_inner, rescue_outer])
      { type := 0, local_size := 1, stack_max := 4, iseq_encoded := 96,
        catch_table := [ensure_inner, rescue_outer], insn_info_table := [] }
      500 0 ensure_inner ensure_iseq rfl (by decide) (by decide) rfl (by decide) (by decide)
      (by decide)⟩

/-! ### VM-specific storage and the pool of recycled stacks -/

theorem int_wrap_id (x : Int) (h1 : -2147483648 ≤ x) (h2 : x ≤ 2147483647) : int_wrap x = x := by
  unfold int_wrap
  have : (x + 2 ^ 31) % 2 ^ 32 = x + 2 ^ 31 := by
    apply Int.emod_eq_of_lt <;> norm_num <;> omega
  rw [this]
  ring

/-- C28, counterexample: for the key `INT_MAX` the sum `key + 8` does not fit an
`int`; the new length `(key + 8) & ~7` is then `INT_MIN`, not greater than the
key, and the call on the empty storage does not return normally. -/
theorem rb_vm_specific_ptr_counterexample :
    (0 : Int) ≤ INT_MAX ∧
    and_not_7 (int_wrap (INT_MAX + 8)) = -2147483648 ∧
    rb_vm_specific_ptr_for_specific_vm 4096 (fun _ => 55) ⟨0, 0, fun _ => 0⟩ INT_MAX =
      .undefined := by
  refine ⟨by decide, by decide, ?_⟩
  unfold rb_vm_specific_ptr_for_specific_vm
  simp only [true_or, if_true]
  rw [if_pos]
  right
  decide

/-- C28, amended: for every key with `0 ≤ key` and `key + 8 ≤ INT_MAX`, on a
storage with a non-negative length that is 0 if the pointer is null, the call
returns; afterwards the length is greater than the key and the pointer returned
is the address of slot `key`.  If the storage had to grow (null pointer or
length at most `key`), the new length is `(key + 8) & ~7`, the least multiple
of 8 greater than `key`, the slots below the old length keep their values and
the slots from the old length up to the new one are zero; otherwise the storage
is unchanged. -/
theorem rb_vm_specific_ptr_grows (newptr : Nat) (junk : Nat → VALUE) (st : specific_storage)
    (key : Int) (hkey : 0 ≤ key) (hmax : key + 8 ≤ INT_MAX) (hlen : 0 ≤ st.len)
    (hnull : st.ptr = 0 → st.len = 0) :
    ∃ (st' : specific_storage) (p : Int),
      rb_vm_specific_ptr_for_specific_vm newptr junk st key = .ok (st', p) ∧
      key < st'.len ∧ p = (st'.ptr : Int) + (SIZEOF_VALUE : Int) * key ∧
      ((st.ptr = 0 ∨ st.len ≤ key) →
        st'.ptr = newptr ∧ st'.len = and_not_7 (key + 8) ∧ st'.len % 8 = 0 ∧
        (∀ m : Int, m % 8 = 0 → key < m → st'.len ≤ m) ∧
        (∀ i : Nat, (i : Int) < st.len → st'.slots i = st.slots i) ∧
        (∀ i : Nat, st.len ≤ (i : Int) → (i : Int) < st'.len → st'.slots i = 0)) ∧
      (¬(st.ptr = 0 ∨ st.len ≤ key) → st' = st) := by
  have hw : int_wrap (key + 8) = key + 8 := by
    apply int_wrap_id <;> simp only [INT_MAX] at hmax <;> omega
  have hgt : key < and_not_7 (key + 8) := by
    unfold and_not_7; omega
  unfold rb_vm_specific_ptr_for_specific_vm
  by_cases hg : st.ptr = 0 ∨ st.len ≤ key
  · have hle : st.len ≤ key := by
      rcases hg with h | h
      · rw [hnull h]; exact hkey
      · exact h
    rw [if_pos hg, hw]
    simp only
    rw [if_neg (by omega)]
    refine ⟨_, _, rfl, hgt, rfl, ?_, fun h => absurd hg h⟩
    intro _
    refine ⟨rfl, rfl, ?_, ?_, ?_, ?_⟩
    · simp only [and_not_7]; omega
    · intro m hm hkm
      simp only [and_not_7]; omega
    · intro i hi
      have hp : st.ptr ≠ 0 := by
        intro h0
        have := hnull h0
        omega
      simp only
      rw [if_neg (by omega), if_pos ⟨hp, hi, by omega⟩]
    · intro i h1 h2
      simp only at h2 ⊢
      rw [if_pos ⟨h1, h2⟩]
  · rw [if_neg hg]
    refine ⟨st, _, rfl, by omega, rfl, fun h => absurd h hg, fun _ => rfl⟩

/-- C28, witness of the amended claim: key 11 on `sample_storage`, which has
eight slots, makes the storage grow to 16 slots at the new address; the old
slots keep their values and the new ones are zero. -/
theorem rb_vm_specific_ptr_grows_witness :
    and_not_7 (11 + 8) = 16 ∧
    ∃ (st' : specific_storage) (p : Int),
      rb_vm_specific_ptr_for_specific_vm 8192 (fun _ => 55) sample_storage 11 = .ok (st', p) ∧
      11 < st'.len ∧ p = (st'.ptr : Int) + (SIZEOF_VALUE : Int) * 11 ∧
      ((sample_storage.ptr = 0 ∨ sample_storage.len ≤ 11) →
        st'.ptr = 8192 ∧ st'.len = and_not_7 (11 + 8) ∧ st'.len % 8 = 0 ∧
        (∀ m : Int, m % 8 = 0 → 11 < m → st'.len ≤ m) ∧
        (∀ i : Nat, (i : Int) < sample_storage.len → st'.slots i = sample_storage.slots i) ∧
        (∀ i : Nat, sample_storage.len ≤ (i : Int) → (i : Int) < st'.len → st'.slots i = 0)) ∧
      (¬(sample_storage.ptr = 0 ∨ sample_storage.len ≤ 11) → st' = sample_storage) :=
  ⟨by decide,
    rb_vm_specific_ptr_grows 8192 (fun _ => 55) sample_storage 11 (by decide) (by decide)
      (by decide) (by decide)⟩

theorem pool_step_holds (malloc : Nat → VALUE) (pool : recycle_pool) (l : List VALUE)
    (h : pool_holds pool l) (op : pool_op) :
    ∃ pool1, pool_step malloc pool op = .ok (pool1, event_step malloc l op) ∧
      pool_holds pool1 (stored_step l op) := by
  obtain ⟨hlen, hcnt, hmax, hslots⟩ := h
  cases op with
  | recycle size =>
    cases l with
    | nil =>
      have hc : pool.thread_recycle_stack_count = 0 := by simpa using hcnt
      refine ⟨pool, ?_, ⟨hlen, hcnt, hmax, hslots⟩⟩
      simp [pool_step, thread_recycle_stack, hc, event_step]
    | cons s rest =>
      have hc : pool.thread_recycle_stack_count = (rest.length : Int) + 1 := by
        simpa using hcnt
      have hne : pool.thread_recycle_stack_count ≠ 0 := by omega
      have hsl : pool.thread_recycle_stack_slot[rest.length]? = some s := by
        rw [hslots rest.length (by simp)]
        simp [List.reverse_cons, List.getElem?_append_right]
      refine ⟨{ pool with thread_recycle_stack_count := pool.thread_recycle_stack_count - 1 },
        ?_, ?_⟩
      · have h1 : pool.thread_recycle_stack_count - 1 = (rest.length : Int) := by omega
        have h2 : ¬ (pool.thread_recycle_stack_count - 1 < 0) := by omega
        simp only [pool_step, thread_recycle_stack, hne, ne_eq, not_false_eq_true, if_true,
          h2, if_false, event_step]
        rw [h1]
        simp only [Int.toNat_ofNat, hsl]
      · refine ⟨hlen, ?_, ?_, ?_⟩
        · simp only [stored_step, List.tail_cons]; omega
        · simp only [stored_step, List.tail_cons]
          simp only [List.length_cons] at hmax
          omega
        · intro i hi
          simp only [stored_step, List.tail_cons] at hi ⊢
          rw [hslots i (by simp; omega)]
          simp only [List.reverse_cons]
          rw [List.getElem?_append_left (by simp; exact hi)]
  | release stack =>
    by_cases hl : l.length < RECYCLE_MAX
    · have hc1 : pool.thread_recycle_stack_count < (RECYCLE_MAX : Int) := by
        rw [hcnt]; exact_mod_cast hl
      have hc2 : ¬ (pool.thread_recycle_stack_count < 0 ∨
          pool.thread_recycle_stack_slot.length ≤ pool.thread_recycle_stack_count.toNat) := by
        rw [hcnt, hlen]
        simp only [Int.toNat_ofNat]
        omega
      refine ⟨⟨pool.thread_recycle_stack_slot.set pool.thread_recycle_stack_count.toNat stack,
          pool.thread_recycle_stack_count + 1⟩, ?_, ?_⟩
      · simp only [pool_step, rb_thread_recycle_stack_release, hc1, if_true, hc2, if_false,
          event_step, hl]
        rfl
      · refine ⟨?_, ?_, ?_, ?_⟩
        · simp only [List.length_set]; exact hlen
        · simp only [stored_step, hl, if_true, List.length_cons]
          rw [hcnt]; push_cast; ring
        · simp only [stored_step, hl, if_true, List.length_cons]; omega
        · intro i hi
          simp only [stored_step, hl, if_true, List.length_cons] at hi ⊢
          rw [hcnt]
          simp only [Int.toNat_ofNat, List.reverse_cons]
          by_cases hil : i = l.length
          · subst hil
            rw [List.getElem?_set_self (by omega)]
            simp [List.getElem?_append_right]
          · rw [List.getElem?_set_ne (by omega), hslots i (by omega),
              List.getElem?_append_left (by simp; omega)]
    · have hc1 : ¬ pool.thread_recycle_stack_count < (RECYCLE_MAX : Int) := by
        rw [hcnt]; exact_mod_cast hl
      refine ⟨pool, ?_, ?_⟩
      · simp only [pool_step, rb_thread_recycle_stack_release, hc1, if_false, event_step, hl]
        rfl
      · simp only [stored_step, hl, if_false]
        exact ⟨hlen, hcnt, hmax, hslots⟩

theorem pool_run_holds (malloc : Nat → VALUE) :
    ∀ (ops : List pool_op) (pool : recycle_pool) (l : List VALUE), pool_holds pool l →
      ∃ pool1, pool_run malloc ops pool = .ok (pool1, events_of malloc ops l) ∧
        pool_holds pool1 (stored_after ops l) := by
  intro ops
  induction ops with
  | nil => intro pool l h; exact ⟨pool, rfl, h⟩
  | cons op ops ih =>
    intro pool l h
    obtain ⟨pool1, h1, h2⟩ := pool_step_holds malloc pool l h op
    obtain ⟨pool2, h3, h4⟩ := ih pool1 _ h2
    refine ⟨pool2, ?_, h4⟩
    simp only [pool_run, h1, h3, events_of]

theorem empty_pool_holds : pool_holds empty_pool [] := by
  refine ⟨by simp [empty_pool], rfl, by simp, ?_⟩
  intro i hi
  simp at hi

/-- C30: every sequence of calls of `thread_recycle_stack` and
`rb_thread_recycle_stack_release` from the empty pool runs without an access
outside the slot array and does what the reference model says: a released
stack is stored exactly when fewer than `RECYCLE_MAX` stacks were in the pool
and otherwise freed, a recycle call on a non-empty pool returns the most
recently stored stack still in the pool.  Afterwards the count is the number of
stacks in the pool, between 0 and `RECYCLE_MAX`, and the slots below the count
hold them in the order in which they were stored. -/
theorem recycle_stack_pool_bounded (malloc : Nat → VALUE) (ops : List pool_op) :
    ∃ pool, pool_run malloc ops empty_pool = .ok (pool, events_of malloc ops []) ∧
      0 ≤ pool.thread_recycle_stack_count ∧
      pool.thread_recycle_stack_count ≤ (RECYCLE_MAX : Int) ∧
      pool.thread_recycle_stack_slot.length = RECYCLE_MAX ∧
      pool.thread_recycle_stack_count = ((stored_after ops []).length : Int) ∧
      (∀ i, i < (stored_after ops []).length →
        pool.thread_recycle_stack_slot[i]? = (stored_after ops []).reverse[i]?) ∧
      (∀ (stack : VALUE) (size : Nat),
        (pool.thread_recycle_stack_count < (RECYCLE_MAX : Int) →
          ∃ pool1, rb_thread_recycle_stack_release pool stack = .ok (pool1, false) ∧
            pool1.thread_recycle_stack_count = pool.thread_recycle_stack_count + 1 ∧
            pool1.thread_recycle_stack_slot[pool.thread_recycle_stack_count.toNat]? =
              some stack) ∧
        (¬ pool.thread_recycle_stack_count < (RECYCLE_MAX : Int) →
          rb_thread_recycle_stack_release pool stack = .ok (pool, true)) ∧
        (∀ s rest, stored_after ops [] = s :: rest →
          thread_recycle_stack malloc pool size =
            .ok ({ pool with
              thread_recycle_stack_count := pool.thread_recycle_stack_count - 1 }, s))) := by
  obtain ⟨pool, hrun, hh⟩ := pool_run_holds malloc ops empty_pool [] empty_pool_holds
  have hh' := hh
  obtain ⟨hlen, hcnt, hmax, hslots⟩ := hh
  refine ⟨pool, hrun, by omega, by rw [hcnt]; exact_mod_cast hmax, hlen, hcnt, hslots, ?_⟩
  intro stack size
  refine ⟨?_, ?_, ?_⟩
  · intro hlt
    have hl : (stored_after ops []).length < RECYCLE_MAX := by
      rw [hcnt] at hlt; exact_mod_cast hlt
    have hc2 : ¬ (pool.thread_recycle_stack_count < 0 ∨
        pool.thread_recycle_stack_slot.length ≤ pool.thread_recycle_stack_count.toNat) := by
      rw [hcnt, hlen]
      simp only [Int.toNat_ofNat]
      omega
    refine ⟨⟨pool.thread_recycle_stack_slot.set pool.thread_recycle_stack_count.toNat stack,
        pool.thread_recycle_stack_count + 1⟩,
      by simp only [rb_thread_recycle_stack_release, hlt, if_true, hc2, if_false], rfl, ?_⟩
    simp only
    rw [List.getElem?_set_self]
    rw [hcnt, hlen]
    simp only [Int.toNat_ofNat]
    exact hl
  · intro hge
    simp only [rb_thread_recycle_stack_release, hge, if_false]
  · intro s rest hs
    obtain ⟨pool1, h1, _⟩ := pool_step_holds malloc pool _ hh' (.recycle size)
    rw [hs] at hcnt hslots
    have hc : pool.thread_recycle_stack_count = (rest.length : Int) + 1 := by
      simpa using hcnt
    have hne : pool.thread_recycle_stack_count ≠ 0 := by omega
    have hsl : pool.thread_recycle_stack_slot[rest.length]? = some s := by
      rw [hslots rest.length (by simp)]
      simp [List.reverse_cons, List.getElem?_append_right]
    have h1 : pool.thread_recycle_stack_count - 1 = (rest.length : Int) := by omega
    have h2 : ¬ (pool.thread_recycle_stack_count - 1 < 0) := by omega
    simp only [thread_recycle_stack, hne, ne_eq, not_false_eq_true, if_true, h2, if_false]
    rw [h1]
    simp only [Int.toNat_ofNat, hsl]

/-! ### Promotion along the lexical chain (`vm_make_env_each`, `rb_vm_stack_to_heap`) -/

theorem vm_make_env_alloc_envs (th th' : rb_thread_t) (cfp envptr endptr : Nat)
    (penvval v : VALUE)
    (h : vm_make_env_alloc th cfp envptr endptr penvval = .ok (th', v)) :
    ∀ x, x ≠ v → th'.envs x = th.envs x := by
  unfold vm_make_env_alloc at h
  split at h
  · cases h
  · simp only [env_alloc, TypedData_Make_Struct_env, ALLOC_N, Res.ok.injEq, Prod.mk.injEq] at h
    obtain ⟨h1, h2⟩ := h
    subst h1 h2
    intro x hx
    simp only [if_neg hx]

theorem heap_of_brk_le (th : rb_thread_t) (a : Nat)
    (hheap : th.stack + SIZEOF_VALUE * th.stack_size ≤ th.brk) (h : th.brk ≤ a) :
    ENV_IN_HEAP_P th a = true :=
  ENV_IN_HEAP_P_of_le th a hheap h

theorem stack_pos (th : rb_thread_t) (a : Nat) (h : ENV_IN_HEAP_P th a = false) : 0 < a := by
  simp [ENV_IN_HEAP_P] at h
  omega

/-- The allocation half of `vm_make_env_each` rewrites the frame `i`. -/
theorem rewritten_alloc {th th2 th' : rb_thread_t} {i L : Nat} {f f2 : rb_control_frame_t}
    {pv v : VALUE}
    (hheap : th.stack + SIZEOF_VALUE * th.stack_size ≤ th.brk)
    (hb2 : th.brk ≤ th2.brk) (hal2 : th2.brk % 4 = 0)
    (hfl : f.lfp = L) (hst : ENV_IN_HEAP_P th f.dfp = false)
    (hf2 : th2.frames[i]? = some f2) (he : erase_ptrs f2 = erase_ptrs f)
    (hloc : ∀ idx, idx < frame_local_size f →
      th2.mem (f.dfp - SIZEOF_VALUE * (frame_local_size f - idx)) =
        th.mem (f.dfp - SIZEOF_VALUE * (frame_local_size f - idx)))
    (hl2 : f.dfp ≠ L → ENV_IN_HEAP_P th f2.lfp = true ∧ f2.lfp < th2.brk ∧
      (f2.lfp = L ∨ th.brk ≤ f2.lfp))
    (hmeth : f.dfp = L → pv = 0)
    (hsp : f.dfp ≠ L → ENV_IN_HEAP_P th (GC_GUARDED_PTR_REF (th.mem f.dfp)) = false →
      ∃ (j : Nat) (gj gj' : rb_control_frame_t), i < j ∧ th.frames[j]? = some gj ∧
        gj.dfp = GC_GUARDED_PTR_REF (th.mem f.dfp) ∧ th2.frames[j]? = some gj' ∧
        th.brk ≤ gj'.dfp ∧ gj'.dfp + SIZEOF_VALUE * 2 < th2.brk ∧
        th2.mem f.dfp = GC_GUARDED_PTR gj'.dfp ∧
        pv = ENV_VAL th2 gj'.dfp ∧ pv < th2.brk ∧ f2.lfp = gj'.lfp)
    (hhp : f.dfp ≠ L → ENV_IN_HEAP_P th (GC_GUARDED_PTR_REF (th.mem f.dfp)) = true →
      th2.mem f.dfp = th.mem f.dfp ∧
      pv = ENV_VAL th (GC_GUARDED_PTR_REF (th.mem f.dfp)) ∧ f2.lfp = L)
    (ha : vm_make_env_alloc th2 i f.dfp L pv = .ok (th', v)) :
    ∃ f', th'.frames[i]? = some f' ∧ rewritten th th' i L i f f' ∧
      v = ENV_VAL th' f'.dfp ∧ v = th2.brk ∧
      f'.dfp = th2.brk + SIZEOF_VALUE + SIZEOF_VALUE * frame_local_size f ∧
      th'.frames = th2.frames.set i f' ∧
      th'.brk = th2.brk + SIZEOF_VALUE + SIZEOF_VALUE * (frame_local_size f + 1 + 2) ∧
      th'.stack = th2.stack ∧ th'.stack_size = th2.stack_size ∧
      (∀ a, a < th2.brk → a ≠ f.dfp → th'.mem a = th2.mem a) ∧
      (∀ x, x ≠ v → th'.envs x = th2.envs x) := by
  obtain ⟨f2', hf2', hv, hs, hz, hb, hfr, ⟨env, hev, hee, hel, hep⟩, hm, hc, hv1, hv2⟩ :=
    vm_make_env_alloc_spec _ _ _ _ _ _ _ ha
  have henvs := vm_make_env_alloc_envs _ _ _ _ _ _ _ ha
  rw [hf2] at hf2'
  cases hf2'
  have hls : frame_local_size f2 = frame_local_size f := frame_local_size_congr he
  rw [hls] at hb hfr hel hc hv1 hv2
  have hdlt : f.dfp < th.brk := lt_brk_of_stack th _ hheap hst
  have hdpos : 0 < f.dfp := stack_pos th _ hst
  have hi2 : i < th2.frames.length := (List.getElem?_eq_some.mp hf2).1
  have hget : th'.frames[i]? = some
      { f2 with
          dfp := th2.brk + SIZEOF_VALUE + SIZEOF_VALUE * frame_local_size f,
          lfp := if f.dfp = L
            then th2.brk + SIZEOF_VALUE + SIZEOF_VALUE * frame_local_size f else f2.lfp } := by
    rw [hfr, List.getElem?_set_self hi2]
  have hval : ENV_VAL th'
      (th2.brk + SIZEOF_VALUE + SIZEOF_VALUE * frame_local_size f) = v := hv1
  refine ⟨_, hget, ?_, by simp only; rw [hval], hv, rfl, hfr, hb, hs, hz, hm, henvs⟩
  refine { index := le_refl _, lfp := hfl, stack := hst, shape := ?_, fresh := ?_,
           dfp_lt := ?_, align := by simp only [SIZEOF_VALUE]; omega, lfp_heap := ?_, lfp_lt := ?_, lfp_new := ?_, env := ?_,
           locals := ?_, parent := Or.inl rfl }
  · rw [← he]; rfl
  · simp only; rw [hval, hv]; exact hb2
  · simp only; rw [hb]; simp only [SIZEOF_VALUE]; omega
  · simp only
    split
    · apply ENV_IN_HEAP_P_of_le th _ hheap
      omega
    · rename_i hne
      exact (hl2 hne).1
  · simp only
    split
    · rw [hb]; simp only [SIZEOF_VALUE]; omega
    · rename_i hne
      have := (hl2 hne).2.1
      rw [hb]; omega
  · simp only
    split
    · exact Or.inr (by omega)
    · rename_i hne
      exact (hl2 hne).2.2
  · simp only
    rw [hval]
    refine ⟨env, hev, by rw [hee, hv], hel, by rw [hee, hel], ?_, ?_, ?_, ?_⟩
    · rw [hep]; exact hv2
    · intro hd
      rw [hep, if_pos hd]
      exact ⟨hmeth hd, rfl⟩
    · intro hd hp
      obtain ⟨j, gj, gj', hij, hgj, hgd, hgj2, hfresh, hlt, hmem, hpv, hpvlt, hlfp⟩ := hsp hd hp
      refine ⟨j, gj, gj', hij, hgj, hgd, ?_, hfresh, ?_, ?_, ?_, ?_, ?_⟩
      · rw [hfr, List.getElem?_set_ne (by omega)]; exact hgj2
      · rw [hb]; omega
      · have := hc (by omega) (frame_local_size f) (le_refl _)
        simp only [Nat.sub_self, Nat.mul_zero, Nat.sub_zero] at this
        rw [this]; exact hmem
      · rw [hep, hpv]
        simp only [ENV_VAL]
        rw [hm _ (by simp only [SIZEOF_VALUE] at hlt ⊢; omega)
          (by simp only [SIZEOF_VALUE]; omega)]
      · rw [hep, hv]; exact hpvlt
      · rw [if_neg hd]; exact hlfp
    · intro hd hp
      obtain ⟨hmem, hpv, hlfp⟩ := hhp hd hp
      refine ⟨?_, by rw [hep]; exact hpv, by rw [if_neg hd]; exact hlfp⟩
      have := hc (by omega) (frame_local_size f) (le_refl _)
      simp only [Nat.sub_self, Nat.mul_zero, Nat.sub_zero] at this
      rw [this]; exact hmem
  · intro idx hidx
    simp only
    have h1 := hc (by omega) idx (by omega)
    have haddr : th2.brk + SIZEOF_VALUE + SIZEOF_VALUE * frame_local_size f
        - SIZEOF_VALUE * (frame_local_size f - idx) = th2.brk + SIZEOF_VALUE + SIZEOF_VALUE * idx := by
      have : SIZEOF_VALUE * (frame_local_size f - idx) + SIZEOF_VALUE * idx
          = SIZEOF_VALUE * frame_local_size f := by
        rw [← Nat.mul_add]; congr 1; omega
      omega
    rw [haddr, h1]
    exact hloc idx hidx

/-- A frame rewritten by the recursive call of `vm_make_env_each` at the frame
`j` is a frame rewritten by the call at the frame `i`, whose enclosing scope
is that of `j`; `th'` differs from `th1` at the frame `i`, at stack cells and
above the frontier of `th1` only. -/
theorem rewritten_transfer {th th1 th' : rb_thread_t} {i j L k : Nat}
    {f f' g g' : rb_control_frame_t}
    (hr : rewritten th th1 j L k g g') (hij : i < j)
    (hbrk : th1.brk ≤ th'.brk)
    (hfr : ∀ m, m ≠ i → th'.frames[m]? = th1.frames[m]?)
    (hmem : ∀ a, th.brk ≤ a → a < th1.brk → th'.mem a = th1.mem a)
    (henv : ∀ x, x < th1.brk → th'.envs x = th1.envs x)
    (hf : th.frames[i]? = some f) (hfl : f.lfp = L) (hst : ENV_IN_HEAP_P th f.dfp = false)
    (hne : f.dfp ≠ L)
    (hf' : th'.frames[i]? = some f') (hfresh : th.brk ≤ f'.dfp)
    (hP : ∀ gj, th.frames[j]? = some gj → GC_GUARDED_PTR_REF (th.mem f.dfp) = gj.dfp)
    (hgk : th.frames[k]? = some g) :
    rewritten th th' i L k g g' := by
  obtain ⟨env, hev, hee, hel, hed, hep, hm0, hsp, hhp⟩ := hr.env
  have hfresh1 := hr.fresh
  have hlt1 := hr.dfp_lt
  have hd1 : g'.dfp ≥ ENV_VAL th1 g'.dfp + SIZEOF_VALUE := by
    omega
  have hval : ENV_VAL th' g'.dfp = ENV_VAL th1 g'.dfp := by
    simp only [ENV_VAL]
    apply hmem
    · simp only [ENV_VAL, SIZEOF_VALUE] at hd1 hfresh1 ⊢; omega
    · simp only [SIZEOF_VALUE] at hlt1 ⊢; omega
  have hdge : th.brk ≤ g'.dfp := by simp only [SIZEOF_VALUE] at hd1; omega
  refine { index := by have := hr.index; omega, lfp := hr.lfp, stack := hr.stack,
           shape := hr.shape, fresh := by rw [hval]; exact hfresh1,
           dfp_lt := by omega, align := hr.align, lfp_heap := hr.lfp_heap,
           lfp_lt := by have := hr.lfp_lt; omega, lfp_new := hr.lfp_new, env := ?_,
           locals := ?_, parent := ?_ }
  · rw [hval]
    refine ⟨env, ?_, hee, hel, hed, ?_, hm0, ?_, ?_⟩
    · rw [henv _ (by simp only [SIZEOF_VALUE] at hd1 hlt1 ⊢; omega)]
      exact hev
    · rw [hmem _ (by omega) (by omega)]
      exact hep
    · intro hd hp
      obtain ⟨j2, gj, gj', hkj, hgj, hgd, hgj1, hgf, hglt, hgm, hgp, hgpl, hgl⟩ := hsp hd hp
      have hj2 : j2 ≠ i := by have := hr.index; omega
      refine ⟨j2, gj, gj', hkj, hgj, hgd, by rw [hfr j2 hj2]; exact hgj1, hgf, by omega, ?_,
        ?_, hgpl, hgl⟩
      · rw [hmem _ hdge (by omega)]
        exact hgm
      · rw [hgp]
        simp only [ENV_VAL]
        rw [hmem _ (by omega) (by simp only [SIZEOF_VALUE] at hglt ⊢; omega)]
    · intro hd hp
      obtain ⟨a, b, c⟩ := hhp hd hp
      refine ⟨?_, b, c⟩
      rw [hmem _ hdge (by omega)]
      exact a
  · intro idx hidx
    rw [← hr.locals idx hidx]
    apply hmem
    · rw [hed, hee, hel]
      have : SIZEOF_VALUE * (frame_local_size g - idx) ≤ SIZEOF_VALUE * frame_local_size g :=
        Nat.mul_le_mul_left _ (Nat.sub_le _ _)
      omega
    · omega
  · by_cases hkj : k = j
    · subst hkj
      exact Or.inr ⟨i, f, f', le_refl _, hij, hf, hf', hfl, hst, hne, hP g hgk, hfresh⟩
    · rcases hr.parent with h | ⟨m, gm, gm', hjm, hmk, hgm, hgm1, hml, hms, hmne, hmp, hmf⟩
      · exact absurd h hkj
      · exact Or.inr ⟨m, gm, gm', by omega, hmk, hgm,
          by rw [hfr m (by omega)]; exact hgm1, hml, hms, hmne, hmp, hmf⟩

theorem rewritten_dfp_ge {th th' : rb_thread_t} {i L k : Nat} {g g' : rb_control_frame_t}
    (hr : rewritten th th' i L k g g') : th.brk ≤ g'.dfp ∧ ENV_VAL th' g'.dfp < g'.dfp := by
  obtain ⟨env, _, hee, _, hed, _⟩ := hr.env
  have := hr.fresh
  have h8 : 0 < SIZEOF_VALUE := by decide
  constructor
  · omega
  · have h : g'.dfp ≥ ENV_VAL th' g'.dfp + SIZEOF_VALUE := by omega
    exact Nat.lt_of_lt_of_le (Nat.lt_add_of_pos_right h8) h

theorem promotion_refl (th : rb_thread_t) (i L : Nat) (halign : th.brk % 4 = 0) :
    promotion th i L th :=
  { stack := rfl, size := rfl, brk := le_refl _, align := halign, length := rfl,
    frames := fun _ g' hg => ⟨g', hg, Or.inl rfl⟩,
    mem := fun _ _ _ => rfl, envs := fun _ _ => rfl }

/-- A frame that a promotion left with a fresh `dfp` has been rewritten. -/
theorem promotion_rewritten {th th' : rb_thread_t} {i L k : Nat} {g g' : rb_control_frame_t}
    (hheap : th.stack + SIZEOF_VALUE * th.stack_size ≤ th.brk)
    (hp : promotion th i L th') (hg : th.frames[k]? = some g) (hg' : th'.frames[k]? = some g')
    (hst : ENV_IN_HEAP_P th g.dfp = false) (hfresh : th.brk ≤ g'.dfp) :
    rewritten th th' i L k g g' := by
  obtain ⟨g0, hg0, h⟩ := hp.frames k g' hg'
  rw [hg] at hg0
  cases hg0
  rcases h with h | h
  · subst h
    have := lt_brk_of_stack th _ hheap hst
    omega
  · exact h

/-- The promotion made by the allocation half alone, at a frame whose enclosing
scope needs no promotion. -/
theorem promotion_single {th th' : rb_thread_t} {i L : Nat} {f f' : rb_control_frame_t}
    {v : VALUE}
    (halign : th.brk % 4 = 0)
    (hf : th.frames[i]? = some f)
    (hrew : rewritten th th' i L i f f')
    (hv : v = th.brk)
    (hfr : th'.frames = th.frames.set i f')
    (hb : th'.brk = th.brk + SIZEOF_VALUE + SIZEOF_VALUE * (frame_local_size f + 1 + 2))
    (hs : th'.stack = th.stack) (hz : th'.stack_size = th.stack_size)
    (hm : ∀ a, a < th.brk → a ≠ f.dfp → th'.mem a = th.mem a)
    (henv : ∀ x, x ≠ v → th'.envs x = th.envs x) :
    promotion th i L th' := by
  have hi : i < th.frames.length := (List.getElem?_eq_some.mp hf).1
  have hf' : th'.frames[i]? = some f' := by rw [hfr, List.getElem?_set_self hi]
  refine { stack := hs, size := hz, brk := by omega,
           align := by rw [hb]; simp only [SIZEOF_VALUE]; omega,
           length := by rw [hfr, List.length_set], frames := ?_, mem := ?_, envs := ?_ }
  · intro k g' hg'
    by_cases hk : k = i
    · subst hk
      rw [hf'] at hg'
      cases hg'
      exact ⟨f, hf, Or.inr hrew⟩
    · rw [hfr, List.getElem?_set_ne (Ne.symm hk)] at hg'
      exact ⟨g', hg', Or.inl rfl⟩
  · intro a ha hc
    exact hm a ha (hc i f f' hf hf' hrew.stack (rewritten_dfp_ge hrew).1).symm
  · intro x hx
    exact henv x (by rw [hv]; exact Nat.ne_of_lt hx)

theorem promotion_before {th th1 : rb_thread_t} {i j L : Nat} {f : rb_control_frame_t}
    (hp : promotion th j L th1) (hij : i < j) (hf : th.frames[i]? = some f) :
    th1.frames[i]? = some f := by
  have hi : i < th.frames.length := (List.getElem?_eq_some.mp hf).1
  have hi1 : i < th1.frames.length := by rw [hp.length]; exact hi
  have hg' : th1.frames[i]? = some th1.frames[i] := List.getElem?_eq_getElem hi1
  obtain ⟨g, hg, h⟩ := hp.frames i _ hg'
  rw [hf] at hg
  cases hg
  rcases h with h | h
  · rw [hg', h]
  · have := h.index
    omega

/-- A promotion that changes the frame `i` only rewrites a frame satisfying
`S` if the frame `i` satisfies it. -/
theorem single_rewrite_on {S : rb_control_frame_t → Prop} {th th' : rb_thread_t} {i : Nat}
    {f f' : rb_control_frame_t}
    (hheap : th.stack + SIZEOF_VALUE * th.stack_size ≤ th.brk)
    (hf : th.frames[i]? = some f) (hS : S f) (hfr : th'.frames = th.frames.set i f') :
    ∀ (k : Nat) (g g' : rb_control_frame_t), th.frames[k]? = some g →
      th'.frames[k]? = some g' → ENV_IN_HEAP_P th g.dfp = false → th.brk ≤ g'.dfp → S g := by
  intro k g g' hg hg' hs hfresh
  by_cases hk : k = i
  · subst hk
    rw [hf] at hg
    cases hg
    exact hS
  · rw [hfr, List.getElem?_set_ne (Ne.symm hk), hg] at hg'
    cases hg'
    have := lt_brk_of_stack th _ hheap hs
    omega

/-- On a lexical chain that is well formed for the frames satisfying `S`,
`vm_make_env_each` returns for such a frame and makes a promotion that rewrites
such frames only. -/
theorem vm_make_env_each_promotes_on (S : rb_control_frame_t → Prop) (th : rb_thread_t)
    (L p : Nat) (hwf : promote_wf_on S th L p) :
    ∀ (n i : Nat) (f : rb_control_frame_t), th.frames.length - i ≤ n → p ≤ i →
      th.frames[i]? = some f → S f → f.lfp = L →
      ∃ (th' : rb_thread_t) (v : VALUE),
        vm_make_env_each (n + 1) th i f.dfp L = .ok (th', v) ∧ promotion th i L th' ∧
        (ENV_IN_HEAP_P th f.dfp = true → th' = th ∧ v = ENV_VAL th f.dfp) ∧
        (ENV_IN_HEAP_P th f.dfp = false →
          ∃ f', th'.frames[i]? = some f' ∧ rewritten th th' i L i f f' ∧
            v = ENV_VAL th' f'.dfp) ∧
        (∀ (k : Nat) (g g' : rb_control_frame_t), th.frames[k]? = some g →
          th'.frames[k]? = some g' → ENV_IN_HEAP_P th g.dfp = false → th.brk ≤ g'.dfp →
          S g) := by
  have hheap := hwf.heap
  intro n
  induction n with
  | zero =>
    intro i f hn _ hf _ _
    have := (List.getElem?_eq_some.mp hf).1
    omega
  | succ n ih =>
    intro i f hn hpi hf hSf hfl
    have hi : i < th.frames.length := (List.getElem?_eq_some.mp hf).1
    unfold vm_make_env_each
    by_cases hh : ENV_IN_HEAP_P th f.dfp = true
    · rw [if_pos hh]
      refine ⟨th, _, rfl, promotion_refl th i L hwf.align, fun _ => ⟨rfl, rfl⟩, ?_, ?_⟩
      · intro h
        rw [hh] at h
        cases h
      · intro k g g' hg hg' hs hfresh
        rw [hg] at hg'
        cases hg'
        have := lt_brk_of_stack th _ hheap hs
        omega
    · rw [if_neg hh]
      have hst : ENV_IN_HEAP_P th f.dfp = false := by simpa using hh
      have hdlt : f.dfp < th.brk := lt_brk_of_stack th _ hheap hst
      by_cases he : f.dfp ≠ L
      · rw [if_pos he]
        simp only
        by_cases hp : ENV_IN_HEAP_P th (GC_GUARDED_PTR_REF (th.mem f.dfp)) = true
        · rw [if_pos hp]
          obtain ⟨⟨th', v⟩, ha⟩ := vm_make_env_alloc_ok th i f.dfp L
            (ENV_VAL th (GC_GUARDED_PTR_REF (th.mem f.dfp))) f hf
          obtain ⟨f', hf', hrew, hv, hvb, _, hfr, hb, hs, hz, hm, henv⟩ :=
            @rewritten_alloc th th th' i L f f _ v hheap (le_refl _) hwf.align hfl hst hf rfl
              (fun _ _ => rfl)
              (fun _ => ⟨by rw [hfl]; exact (hwf.heap_lfp i f hpi hf hSf hfl).2 hst he hp,
                by rw [hfl]; exact hwf.lfp_lt, Or.inl hfl⟩)
              (fun h => absurd h he)
              (fun _ h => by rw [hp] at h; cases h)
              (fun _ _ => ⟨rfl, rfl, hfl⟩) ha
          refine ⟨th', v, ha, promotion_single hwf.align hf hrew hvb hfr hb hs hz hm henv, ?_, ?_,
            single_rewrite_on hheap hf hSf hfr⟩
          · intro h
            rw [hst] at h
            cases h
          · intro _
            exact ⟨f', hf', hrew, hv⟩
        · rw [if_neg hp]
          have hpst : ENV_IN_HEAP_P th (GC_GUARDED_PTR_REF (th.mem f.dfp)) = false := by
            simpa using hp
          rcases hwf.chain i f hpi hf hSf hfl hst he with
            h | ⟨j, g, hij, hg, hSg, hgd, hgL, hne, hnz⟩
          · exact absurd h hp
          · have hj : j < th.frames.length := (List.getElem?_eq_some.mp hg).1
            rw [find_pcfp_finds th.frames _ j g hg hgd (th.frames.length + 1) i (by omega)
              (by omega) hne hnz]
            simp only
            have hgst : ENV_IN_HEAP_P th g.dfp = false := by rw [hgd]; exact hpst
            obtain ⟨th1, pv, hrec, hp1, _, hrw1, hS1⟩ := ih j g (by omega) (by omega) hg hSg hgL
            obtain ⟨g1, hg1, hrewj, hpv⟩ := hrw1 hgst
            rw [hgd] at hrec
            rw [hrec]
            simp only
            have hf1 : th1.frames[i]? = some f := promotion_before hp1 hij hf
            simp only [hg1, hf1]
            have hi1 : i < th1.frames.length := (List.getElem?_eq_some.mp hf1).1
            have hf2 : ({ th1 with
                frames := th1.frames.set i { f with lfp := g1.lfp },
                mem := store th1.mem f.dfp (GC_GUARDED_PTR g1.dfp) } : rb_thread_t).frames[i]?
                = some { f with lfp := g1.lfp } := by
              simp only
              rw [List.getElem?_set_self hi1]
            obtain ⟨⟨th', v⟩, ha⟩ := vm_make_env_alloc_ok _ i f.dfp L pv _ hf2
            rw [ha]
            have hb1 := hp1.brk
            obtain ⟨hg1ge, hg1v⟩ := rewritten_dfp_ge hrewj
            have hg1lt := hrewj.dfp_lt
            have hne1 : g1.dfp + SIZEOF_VALUE * 1 ≠ f.dfp := by omega
            -- the memory below the old frontier is as before at the locals of `f`
            have hold : ∀ a, a < th.brk → a ≠ f.dfp →
                (∀ (k : Nat) (h : rb_control_frame_t), p ≤ k → th.frames[k]? = some h → S h →
                  h.lfp = L → ENV_IN_HEAP_P th h.dfp = false → h.dfp ≠ a) →
                th1.mem a = th.mem a := by
              intro a ha1 _ hc
              apply hp1.mem a ha1
              intro k gk gk' hgk hgk' hgs hgf
              have hr := promotion_rewritten hheap hp1 hgk hgk' hgs hgf
              exact hc k gk (by have := hr.index; omega) hgk (hS1 k gk gk' hgk hgk' hgs hgf)
                hr.lfp hgs
            obtain ⟨f', hf', hrew, hv, hvb, _, hfr, hb, hs, hz, hm, henv⟩ :=
              @rewritten_alloc th
                { th1 with
                    frames := th1.frames.set i { f with lfp := g1.lfp },
                    mem := store th1.mem f.dfp (GC_GUARDED_PTR g1.dfp) }
                th' i L f { f with lfp := g1.lfp } pv v hheap hb1 hp1.align hfl hst hf2
                rfl
                (by
                  intro idx hidx
                  simp only
                  have hx : f.dfp - SIZEOF_VALUE * (frame_local_size f - idx) ≠ f.dfp := by
                    have := stack_pos th _ hst
                    simp only [SIZEOF_VALUE]
                    omega
                  rw [store_other _ _ _ _ hx]
                  apply hold _ (by omega) hx
                  intro k h hpk hh hSh hhl hhs
                  exact hwf.sep i f k h hpi hf hSf hfl hst hpk hh hSh hhl hhs idx hidx)
                (fun _ => ⟨hrewj.lfp_heap, hrewj.lfp_lt, hrewj.lfp_new⟩)
                (fun h => absurd h he)
                (fun _ _ => ⟨j, g, g1, hij, hg, hgd, by
                    simp only
                    rw [List.getElem?_set_ne (by omega)]
                    exact hg1, hg1ge, hg1lt, by simp only; rw [store_same], by
                    simp only [ENV_VAL]
                    rw [store_other _ _ _ _ hne1]
                    exact hpv, by
                    rw [hpv]
                    exact Nat.lt_of_lt_of_le hg1v (by show g1.dfp ≤ th1.brk; omega), rfl⟩)
                (fun _ h => by rw [hpst] at h; cases h) ha
            simp only at hvb hb hs hz hm henv hfr
            have hfr' : ∀ m, m ≠ i → th'.frames[m]? = th1.frames[m]? := by
              intro m hm'
              rw [hfr, List.getElem?_set_ne (Ne.symm hm'), List.getElem?_set_ne (Ne.symm hm')]
            have hmem' : ∀ a, a < th1.brk → a ≠ f.dfp → th'.mem a = th1.mem a := by
              intro a ha1 hne'
              rw [hm a ha1 hne', store_other _ _ _ _ hne']
            have henv' : ∀ x, x < th1.brk → th'.envs x = th1.envs x := by
              intro x hx
              exact henv x (by rw [hvb]; exact Nat.ne_of_lt hx)
            have hfresh : th.brk ≤ f'.dfp := (rewritten_dfp_ge hrew).1
            refine ⟨th', v, rfl, ?_, ?_, ?_, ?_⟩
            · refine { stack := by rw [hs]; exact hp1.stack, size := by rw [hz]; exact hp1.size,
                       brk := by omega,
                       align := by have := hp1.align; rw [hb]; simp only [SIZEOF_VALUE]; omega,
                       length := by
                         rw [hfr, List.length_set, List.length_set]; exact hp1.length,
                       frames := ?_, mem := ?_, envs := ?_ }
              · intro k g' hg'
                by_cases hk : k = i
                · subst hk
                  rw [hf'] at hg'
                  cases hg'
                  exact ⟨f, hf, Or.inr hrew⟩
                · rw [hfr' k hk] at hg'
                  obtain ⟨g0, hg0, h⟩ := hp1.frames k g' hg'
                  refine ⟨g0, hg0, ?_⟩
                  rcases h with h | h
                  · exact Or.inl h
                  · refine Or.inr (rewritten_transfer h hij (by omega) hfr'
                      (fun a ha1 ha2 => hmem' a ha2 (by omega)) henv' hf hfl hst he hf' hfresh
                      ?_ hg0)
                    intro gj hgj
                    rw [hg] at hgj
                    cases hgj
                    exact hgd.symm
              · intro a ha1 hc
                have hne' : a ≠ f.dfp := (hc i f f' hf hf' hst hfresh).symm
                rw [hmem' a (by omega) hne']
                apply hp1.mem a ha1
                intro k gk gk' hgk hgk' hgs hgf
                have hk : k ≠ i := by
                  intro hk
                  subst hk
                  rw [hf1] at hgk'
                  cases hgk'
                  omega
                exact hc k gk gk' hgk (by rw [hfr' k hk]; exact hgk') hgs hgf
              · intro x hx
                rw [henv' x (by omega)]
                exact hp1.envs x hx
            · intro h
              rw [hst] at h
              cases h
            · intro _
              exact ⟨f', hf', hrew, hv⟩
            · intro k gk gk' hgk hgk' hgs hgf
              by_cases hk : k = i
              · subst hk
                rw [hf] at hgk
                cases hgk
                exact hSf
              · rw [hfr' k hk] at hgk'
                exact hS1 k gk gk' hgk hgk' hgs hgf
      · rw [if_neg he]
        have he' : f.dfp = L := by
          by_contra h
          exact he h
        obtain ⟨⟨th', v⟩, ha⟩ := vm_make_env_alloc_ok th i f.dfp L 0 f hf
        obtain ⟨f', hf', hrew, hv, hvb, _, hfr, hb, hs, hz, hm, henv⟩ :=
          @rewritten_alloc th th th' i L f f _ v hheap (le_refl _) hwf.align hfl hst hf rfl
            (fun _ _ => rfl)
            (fun h => absurd he' h)
            (fun _ => rfl)
            (fun h => absurd he' h)
            (fun h => absurd he' h) ha
        refine ⟨th', v, ha, promotion_single hwf.align hf hrew hvb hfr hb hs hz hm henv, ?_, ?_,
          single_rewrite_on hheap hf hSf hfr⟩
        · intro h
          rw [hst] at h
          cases h
        · intro _
          exact ⟨f', hf', hrew, hv⟩

theorem promote_wf_on_all {th : rb_thread_t} {L p : Nat} (hwf : promote_wf th L p) :
    promote_wf_on (fun _ => True) th L p :=
  { heap := hwf.heap, align := hwf.align, lfp_lt := hwf.lfp_lt,
    chain := fun i f hi hf _ hl hs hd => by
      rcases hwf.chain i f hi hf hl hs hd with h | ⟨j, g, a1, a2, a3, a4, a5, a6⟩
      · exact Or.inl h
      · exact Or.inr ⟨j, g, a1, a2, trivial, a3, a4, a5, a6⟩,
    heap_lfp := fun i f hi hf _ hl => hwf.heap_lfp i f hi hf hl,
    sep := fun i g k h hi hg _ hgl hgs hk hh _ hhl hhs =>
      hwf.sep i g k h hi hg hgl hgs hk hh hhl hhs }

/-- On a well-formed lexical chain `vm_make_env_each` returns and makes a
promotion. -/
theorem vm_make_env_each_promotes (th : rb_thread_t) (L p : Nat) (hwf : promote_wf th L p) :
    ∀ (n i : Nat) (f : rb_control_frame_t), th.frames.length - i ≤ n → p ≤ i →
      th.frames[i]? = some f → f.lfp = L →
      ∃ (th' : rb_thread_t) (v : VALUE),
        vm_make_env_each (n + 1) th i f.dfp L = .ok (th', v) ∧ promotion th i L th' ∧
        (ENV_IN_HEAP_P th f.dfp = true → th' = th ∧ v = ENV_VAL th f.dfp) ∧
        (ENV_IN_HEAP_P th f.dfp = false →
          ∃ f', th'.frames[i]? = some f' ∧ rewritten th th' i L i f f' ∧
            v = ENV_VAL th' f'.dfp) := by
  intro n i f hn hpi hf hfl
  obtain ⟨th', v, h1, h2, h3, h4, _⟩ :=
    vm_make_env_each_promotes_on (fun _ => True) th L p (promote_wf_on_all hwf) n i f hn hpi hf
      trivial hfl
  exact ⟨th', v, h1, h2, h3, h4⟩

theorem ENV_IN_HEAP_P_congr {th th' : rb_thread_t} (hs : th'.stack = th.stack)
    (hz : th'.stack_size = th.stack_size) (a : Nat) :
    ENV_IN_HEAP_P th' a = ENV_IN_HEAP_P th a := by
  simp only [ENV_IN_HEAP_P, hs, hz]

/-- On a well-formed lexical chain `rb_vm_make_env_object` returns for a frame
that is not a finish frame and makes a promotion. -/
theorem rb_vm_make_env_object_promotes (th : rb_thread_t) (i n : Nat) (f : rb_control_frame_t)
    (hf : th.frames[i]? = some f) (hnf : VM_FRAME_TYPE f ≠ VM_FRAME_MAGIC_FINISH)
    (hwf : promote_wf th f.lfp i) (hn : th.frames.length - i ≤ n) :
    ∃ (th' : rb_thread_t) (v : VALUE),
      rb_vm_make_env_object (n + 1) th i = .ok (th', v) ∧ promotion th i f.lfp th' ∧
      (ENV_IN_HEAP_P th f.dfp = true → th' = th ∧ v = ENV_VAL th f.dfp) ∧
      (ENV_IN_HEAP_P th f.dfp = false →
        ∃ f', th'.frames[i]? = some f' ∧ rewritten th th' i f.lfp i f f' ∧
          v = ENV_VAL th' f'.dfp) := by
  simp only [rb_vm_make_env_object, hf, if_neg hnf]
  exact vm_make_env_each_promotes th f.lfp i hwf n i f hn (le_refl _) hf rfl

/-- A rewritten frame has its scope pointers in the heap and reads its locals
through the buffer of its environment. -/
theorem rewritten_reads {th th' : rb_thread_t} {i L k : Nat} {g g' : rb_control_frame_t}
    (hheap : th.stack + SIZEOF_VALUE * th.stack_size ≤ th.brk)
    (hs : th'.stack = th.stack) (hz : th'.stack_size = th.stack_size)
    (hr : rewritten th th' i L k g g') :
    ENV_IN_HEAP_P th' g'.dfp = true ∧ ENV_IN_HEAP_P th' g'.lfp = true ∧
    ∃ env : rb_env_t, th'.envs (ENV_VAL th' g'.dfp) = some env ∧
      ∀ idx, idx < frame_local_size g →
        th'.mem (g'.dfp - SIZEOF_VALUE * (frame_local_size g - idx)) =
          th.mem (g.dfp - SIZEOF_VALUE * (frame_local_size g - idx)) ∧
        th'.mem (env.env + SIZEOF_VALUE * idx) =
          th'.mem (g'.dfp - SIZEOF_VALUE * (frame_local_size g - idx)) := by
  refine ⟨?_, ?_, ?_⟩
  · rw [ENV_IN_HEAP_P_congr hs hz]
    exact heap_of_brk_le th _ hheap (rewritten_dfp_ge hr).1
  · rw [ENV_IN_HEAP_P_congr hs hz]
    exact hr.lfp_heap
  · obtain ⟨env, hev, _, hel, hed, _⟩ := hr.env
    refine ⟨env, hev, fun idx hidx => ⟨hr.locals idx hidx, ?_⟩⟩
    rw [hed, hel]
    congr 1
    simp only [SIZEOF_VALUE]
    omega

theorem sample_thread_promote_wf : promote_wf sample_thread 1040 0 := by
  have hcases : ∀ (i : Nat) (f : rb_control_frame_t), sample_thread.frames[i]? = some f →
      (i = 0 ∧ f = sample_frame VM_FRAME_MAGIC_BLOCK 1080 1040 2) ∨
      (i = 1 ∧ f = sample_frame VM_FRAME_MAGIC_METHOD 1040 1040 2) := by
    intro i f hf
    have hi : i < 2 := (List.getElem?_eq_some.mp hf).1
    have hi' : i = 0 ∨ i = 1 := by omega
    rcases hi' with hi' | hi' <;> subst hi' <;> cases hf
    · exact Or.inl ⟨rfl, rfl⟩
    · exact Or.inr ⟨rfl, rfl⟩
  refine { heap := by decide, align := by decide, lfp_lt := by decide, chain := ?_,
           heap_lfp := ?_, sep := ?_ }
  · intro i f _ hf _ hs he
    rcases hcases i f hf with ⟨hi, hf'⟩ | ⟨hi, hf'⟩ <;> subst hi <;> subst hf'
    · refine Or.inr ⟨1, _, by decide, rfl, by decide, rfl, ?_, ?_⟩
      · intro k h a b c
        have : k = 0 := by omega
        subst this
        cases c
        decide
      · intro k h a b c
        have : k = 1 := by omega
        subst this
        cases c
        decide
    · exact absurd rfl he
  · intro i f _ hf _
    rcases hcases i f hf with ⟨hi, hf'⟩ | ⟨hi, hf'⟩ <;> subst hi <;> subst hf'
    · exact ⟨fun h => by revert h; decide, fun _ _ h => by revert h; decide⟩
    · exact ⟨fun h => by revert h; decide, fun _ h => absurd rfl h⟩
  · intro i g k h _ hg _ _ _ hh _ _ idx hidx
    have hidx2 : idx = 0 ∨ idx = 1 := by
      have hidx' : idx < 2 := by
        rcases hcases i g hg with ⟨_, hg'⟩ | ⟨_, hg'⟩ <;> subst hg' <;> exact hidx
      omega
    rcases hcases i g hg with ⟨hi, hg'⟩ | ⟨hi, hg'⟩ <;> subst hi <;> subst hg' <;>
      rcases hcases k h hh with ⟨hk, hh'⟩ | ⟨hk, hh'⟩ <;> subst hk <;> subst hh' <;>
      rcases hidx2 with h2 | h2 <;> subst h2 <;> decide

/-- C21, counterexample: promoting the scope of the method frame of
`sample_thread` (frame 1, scope at 1040) returns and moves that frame to the
heap, but the block frame on top of it, whose `lfp` pointed at the promoted
scope, keeps its `lfp` 1040 and its `dfp` 1080 in the stack. -/
theorem rb_vm_make_env_object_rewrite_counterexample :
    sample_thread.frames[0]? = some (sample_frame VM_FRAME_MAGIC_BLOCK 1080 1040 2) ∧
    sample_thread.frames[1]? = some (sample_frame VM_FRAME_MAGIC_METHOD 1040 1040 2) ∧
    ∃ (th' : rb_thread_t) (v : VALUE),
      rb_vm_make_env_object 2 sample_thread 1 = .ok (th', v) ∧
      th'.frames[1]? =
        some { sample_frame VM_FRAME_MAGIC_METHOD 1040 1040 2 with dfp := 2024, lfp := 2024 } ∧
      ENV_IN_HEAP_P th' 2024 = true ∧
      th'.frames[0]? = some (sample_frame VM_FRAME_MAGIC_BLOCK 1080 1040 2) ∧
      ENV_IN_HEAP_P th' 1040 = false ∧ ENV_IN_HEAP_P th' 1080 = false :=
  ⟨rfl, rfl, _, _, rfl, rfl, rfl, rfl, rfl, rfl⟩

/-- C21 (amended): on a well-formed lexical chain `rb_vm_make_env_object`
returns for a frame with a stack-resident scope, and the frames it changes are
rewritten: the frame `cfp` itself and, for every rewritten frame whose
enclosing scope was on the stack, the frame owning that scope.  Every other
frame is left as it was.  A rewritten frame has `dfp` and `lfp` in the heap, and
each of its locals reads through the new `dfp` and through the buffer of its new
environment what it read through the old `dfp` before the call. -/
theorem rb_vm_make_env_object_rewrites_chain (th : rb_thread_t) (i n : Nat)
    (f : rb_control_frame_t)
    (hf : th.frames[i]? = some f) (hnf : VM_FRAME_TYPE f ≠ VM_FRAME_MAGIC_FINISH)
    (hwf : promote_wf th f.lfp i) (hst : ENV_IN_HEAP_P th f.dfp = false)
    (hn : th.frames.length - i ≤ n) :
    ∃ (th' : rb_thread_t) (v : VALUE) (f' : rb_control_frame_t),
      rb_vm_make_env_object (n + 1) th i = .ok (th', v) ∧
      th'.frames[i]? = some f' ∧ rewritten th th' i f.lfp i f f' ∧ v = ENV_VAL th' f'.dfp ∧
      (∀ (k : Nat) (g' : rb_control_frame_t), th'.frames[k]? = some g' →
        ∃ g, th.frames[k]? = some g ∧ (g' = g ∨ rewritten th th' i f.lfp k g g')) ∧
      (∀ (k : Nat) (g g' : rb_control_frame_t), rewritten th th' i f.lfp k g g' →
        ENV_IN_HEAP_P th' g'.dfp = true ∧ ENV_IN_HEAP_P th' g'.lfp = true ∧
        ∃ env : rb_env_t, th'.envs (ENV_VAL th' g'.dfp) = some env ∧
          ∀ idx, idx < frame_local_size g →
            th'.mem (g'.dfp - SIZEOF_VALUE * (frame_local_size g - idx)) =
              th.mem (g.dfp - SIZEOF_VALUE * (frame_local_size g - idx)) ∧
            th'.mem (env.env + SIZEOF_VALUE * idx) =
              th'.mem (g'.dfp - SIZEOF_VALUE * (frame_local_size g - idx))) ∧
      (∀ (k : Nat) (g g' : rb_control_frame_t), rewritten th th' i f.lfp k g g' →
        g.dfp ≠ f.lfp → ENV_IN_HEAP_P th (GC_GUARDED_PTR_REF (th.mem g.dfp)) = false →
        ∃ (j : Nat) (gj gj' : rb_control_frame_t), k < j ∧ th.frames[j]? = some gj ∧
          gj.dfp = GC_GUARDED_PTR_REF (th.mem g.dfp) ∧ th'.frames[j]? = some gj' ∧
          rewritten th th' i f.lfp j gj gj') := by
  obtain ⟨th', v, hr, hp, _, hrw⟩ := rb_vm_make_env_object_promotes th i n f hf hnf hwf hn
  obtain ⟨f', hf', hrew, hv⟩ := hrw hst
  refine ⟨th', v, f', hr, hf', hrew, hv, hp.frames, ?_, ?_⟩
  · intro k g g' hg
    exact rewritten_reads hwf.heap hp.stack hp.size hg
  · intro k g g' hg hne hps
    obtain ⟨env, _, _, _, _, _, _, hsp, _⟩ := hg.env
    obtain ⟨j, gj, gj', hkj, hgj, hgd, hgj', hge, _⟩ := hsp hne hps
    exact ⟨j, gj, gj', hkj, hgj, hgd, hgj',
      promotion_rewritten hwf.heap hp hgj hgj' (by rw [hgd]; exact hps) hge⟩

/-- C21, witness of the amended claim: promoting the scope of the block frame
of `sample_thread`, whose lexical chain leads to the method frame below it. -/
theorem rb_vm_make_env_object_rewrites_chain_witness :
    promote_wf sample_thread 1040 0 ∧
    ∃ (th' : rb_thread_t) (v : VALUE) (f' : rb_control_frame_t),
      rb_vm_make_env_object 3 sample_thread 0 = .ok (th', v) ∧
      th'.frames[0]? = some f' ∧
      rewritten sample_thread th' 0 1040 0 (sample_frame VM_FRAME_MAGIC_BLOCK 1080 1040 2) f' ∧
      v = ENV_VAL th' f'.dfp ∧
      (∀ (k : Nat) (g' : rb_control_frame_t), th'.frames[k]? = some g' →
        ∃ g, sample_thread.frames[k]? = some g ∧
          (g' = g ∨ rewritten sample_thread th' 0 1040 k g g')) ∧
      (∀ (k : Nat) (g g' : rb_control_frame_t), rewritten sample_thread th' 0 1040 k g g' →
        ENV_IN_HEAP_P th' g'.dfp = true ∧ ENV_IN_HEAP_P th' g'.lfp = true ∧
        ∃ env : rb_env_t, th'.envs (ENV_VAL th' g'.dfp) = some env ∧
          ∀ idx, idx < frame_local_size g →
            th'.mem (g'.dfp - SIZEOF_VALUE * (frame_local_size g - idx)) =
              sample_thread.mem (g.dfp - SIZEOF_VALUE * (frame_local_size g - idx)) ∧
            th'.mem (env.env + SIZEOF_VALUE * idx) =
              th'.mem (g'.dfp - SIZEOF_VALUE * (frame_local_size g - idx))) ∧
      (∀ (k : Nat) (g g' : rb_control_frame_t), rewritten sample_thread th' 0 1040 k g g' →
        g.dfp ≠ 1040 →
        ENV_IN_HEAP_P sample_thread (GC_GUARDED_PTR_REF (sample_thread.mem g.dfp)) = false →
        ∃ (j : Nat) (gj gj' : rb_control_frame_t), k < j ∧
          sample_thread.frames[j]? = some gj ∧
          gj.dfp = GC_GUARDED_PTR_REF (sample_thread.mem g.dfp) ∧ th'.frames[j]? = some gj' ∧
          rewritten sample_thread th' 0 1040 j gj gj') :=
  ⟨sample_thread_promote_wf,
    rb_vm_make_env_object_rewrites_chain sample_thread 0 2
      (sample_frame VM_FRAME_MAGIC_BLOCK 1080 1040 2) rfl (by decide)
      sample_thread_promote_wf (by decide) (by decide)⟩

/-- A heap word below the old frontier keeps its value in a promotion. -/
theorem promotion_heap_mem {th th' : rb_thread_t} {i L : Nat} (hp : promotion th i L th')
    (a : Nat) (hh : ENV_IN_HEAP_P th a = true) (hlt : a < th.brk) : th'.mem a = th.mem a := by
  apply hp.mem a hlt
  intro k g g' _ _ hs _ heq
  rw [heq, hh] at hs
  cases hs

theorem scope_chain_heap_transfer {th th' : rb_thread_t} {i L0 : Nat}
    (hp : promotion th i L0 th') :
    ∀ (n p L : Nat), scope_chain_heap th n p L = true → scope_chain_heap th' n p L = true := by
  intro n
  induction n with
  | zero => intro p L h; cases h
  | succ n ih =>
    intro p L h
    simp only [scope_chain_heap, Bool.and_eq_true, Bool.or_eq_true, decide_eq_true_eq] at h ⊢
    obtain ⟨⟨hh, hlt⟩, hr⟩ := h
    have hb := hp.brk
    refine ⟨⟨by rw [ENV_IN_HEAP_P_congr hp.stack hp.size]; exact hh, by omega⟩, ?_⟩
    rcases hr with hr | hr
    · exact Or.inl hr
    · right
      rw [promotion_heap_mem hp p hh hlt]
      exact ih _ _ hr

/-- After a promotion the lexical chain of every rewritten frame is
heap-resident. -/
theorem rewritten_chain_heap {th th' : rb_thread_t} {i L : Nat}
    (hheap : th.stack + SIZEOF_VALUE * th.stack_size ≤ th.brk)
    (hp : promotion th i L th') (hhp : heap_parent_wf th L i) :
    ∀ (n k : Nat) (g g' : rb_control_frame_t), th.frames.length - k ≤ n →
      th.frames[k]? = some g → rewritten th th' i L k g g' →
      ∃ m, scope_chain_heap th' m g'.dfp g'.lfp = true := by
  intro n
  induction n with
  | zero =>
    intro k g g' hn hg _
    have := (List.getElem?_eq_some.mp hg).1
    omega
  | succ n ih =>
    intro k g g' hn hg hr
    have hk : k < th.frames.length := (List.getElem?_eq_some.mp hg).1
    obtain ⟨hdh, _, _⟩ := rewritten_reads hheap hp.stack hp.size hr
    have hdlt : g'.dfp < th'.brk := by have := hr.dfp_lt; omega
    obtain ⟨env, _, _, _, _, _, hm0, hsp, hhh⟩ := hr.env
    by_cases he : g.dfp = L
    · refine ⟨1, ?_⟩
      rw [(hm0 he).2]
      simp only [scope_chain_heap, Bool.and_eq_true, Bool.or_eq_true, decide_eq_true_eq,
        beq_self_eq_true, true_or, and_true]
      exact ⟨hdh, hdlt⟩
    · by_cases hps : ENV_IN_HEAP_P th (GC_GUARDED_PTR_REF (th.mem g.dfp)) = true
      · obtain ⟨hmem, _, hl⟩ := hhh he hps
        obtain ⟨_, _, _, _, m, hm⟩ := hhp.parent k g hr.index hg hr.lfp hr.stack he hps
        refine ⟨m + 1, ?_⟩
        simp only [scope_chain_heap, Bool.and_eq_true, Bool.or_eq_true, decide_eq_true_eq]
        refine ⟨⟨hdh, hdlt⟩, Or.inr ?_⟩
        rw [hmem, hl]
        exact scope_chain_heap_transfer hp m _ _ hm
      · have hps' : ENV_IN_HEAP_P th (GC_GUARDED_PTR_REF (th.mem g.dfp)) = false := by
          simpa using hps
        obtain ⟨j, gj, gj', hkj, hgj, hgd, hgj', hge, _, hmem, _, _, hl⟩ := hsp he hps'
        have hrj := promotion_rewritten hheap hp hgj hgj' (by rw [hgd]; exact hps') hge
        obtain ⟨m, hm⟩ := ih j gj gj' (by omega) hgj hrj
        refine ⟨m + 1, ?_⟩
        simp only [scope_chain_heap, Bool.and_eq_true, Bool.or_eq_true, decide_eq_true_eq]
        refine ⟨⟨hdh, hdlt⟩, Or.inr ?_⟩
        rw [hmem, GC_GUARDED_PTR_REF_GUARDED _ hrj.align, hl]
        exact hm

/-- C22: when `rb_vm_make_env_object` promotes the stack-resident scope of a
frame on a well-formed lexical chain, it returns, and the previous-environment
link of the new environment is recorded in `prev_envval` and in the trailer
word `dfp[2]`: it is null for a method-level scope (`dfp == lfp`); for a nested
scope it is the handle, older than the new one, of an environment whose buffer
holds the heap-resident enclosing scope, `ENV_VAL` of that scope: the scope of
an older frame that the recursion has moved to the heap in this call if it was
on the stack, and the enclosing scope as it was if it was in the heap.
Afterwards every scope on the lexical chain from the frame's `dfp` out to its
`lfp` is heap-resident. -/
theorem rb_vm_make_env_object_prev_link (th : rb_thread_t) (i n : Nat) (f : rb_control_frame_t)
    (hf : th.frames[i]? = some f) (hnf : VM_FRAME_TYPE f ≠ VM_FRAME_MAGIC_FINISH)
    (hwf : promote_wf th f.lfp i) (hhp : heap_parent_wf th f.lfp i)
    (hst : ENV_IN_HEAP_P th f.dfp = false) (hn : th.frames.length - i ≤ n) :
    ∃ (th' : rb_thread_t) (v : VALUE) (f' : rb_control_frame_t) (env : rb_env_t),
      rb_vm_make_env_object (n + 1) th i = .ok (th', v) ∧
      th'.frames[i]? = some f' ∧ ENV_VAL th' f'.dfp = v ∧ th'.envs v = some env ∧
      th'.mem (f'.dfp + SIZEOF_VALUE * 2) = env.prev_envval ∧
      (f.dfp = f.lfp → env.prev_envval = 0) ∧
      (f.dfp ≠ f.lfp →
        ENV_IN_HEAP_P th' (GC_GUARDED_PTR_REF (th'.mem f'.dfp)) = true ∧
        env.prev_envval = ENV_VAL th' (GC_GUARDED_PTR_REF (th'.mem f'.dfp)) ∧
        env.prev_envval < v ∧
        (∃ penv : rb_env_t, th'.envs env.prev_envval = some penv ∧
          penv.env + SIZEOF_VALUE * penv.local_size = GC_GUARDED_PTR_REF (th'.mem f'.dfp)) ∧
        (ENV_IN_HEAP_P th (GC_GUARDED_PTR_REF (th.mem f.dfp)) = false →
          th.brk ≤ env.prev_envval ∧
          ∃ (j : Nat) (gj gj' : rb_control_frame_t), i < j ∧ th.frames[j]? = some gj ∧
            gj.dfp = GC_GUARDED_PTR_REF (th.mem f.dfp) ∧ th'.frames[j]? = some gj' ∧
            gj'.dfp = GC_GUARDED_PTR_REF (th'.mem f'.dfp)) ∧
        (ENV_IN_HEAP_P th (GC_GUARDED_PTR_REF (th.mem f.dfp)) = true →
          env.prev_envval = ENV_VAL th (GC_GUARDED_PTR_REF (th.mem f.dfp)) ∧
          GC_GUARDED_PTR_REF (th'.mem f'.dfp) = GC_GUARDED_PTR_REF (th.mem f.dfp))) ∧
      ∃ m, scope_chain_heap th' m f'.dfp f'.lfp = true := by
  obtain ⟨th', v, hr, hp, _, hrw⟩ := rb_vm_make_env_object_promotes th i n f hf hnf hwf hn
  obtain ⟨f', hf', hrew, hv⟩ := hrw hst
  have hheap := hwf.heap
  obtain ⟨env, hev, hee, hel, hed, hep, hm0, hsp, hhh⟩ := hrew.env
  refine ⟨th', v, f', env, hr, hf', hv.symm, by rw [hv]; exact hev, hep,
    fun h => (hm0 h).1, ?_, rewritten_chain_heap hheap hp hhp _ i f f' (le_refl _) hf hrew⟩
  intro hne
  by_cases hps : ENV_IN_HEAP_P th (GC_GUARDED_PTR_REF (th.mem f.dfp)) = true
  · obtain ⟨hmem, hpv, _⟩ := hhh hne hps
    obtain ⟨h1, h2, h3, ⟨penv, hpe, hpb⟩, _⟩ := hhp.parent i f (le_refl _) hf rfl hst hne hps
    have hval : ENV_VAL th' (GC_GUARDED_PTR_REF (th.mem f.dfp)) =
        ENV_VAL th (GC_GUARDED_PTR_REF (th.mem f.dfp)) := by
      simp only [ENV_VAL]
      exact promotion_heap_mem hp _ h1 h2
    rw [hmem]
    refine ⟨by rw [ENV_IN_HEAP_P_congr hp.stack hp.size]; exact hps, by rw [hval]; exact hpv,
      ?_, ⟨penv, ?_, hpb⟩, (fun h => by rw [hps] at h; cases h), fun _ => ⟨hpv, rfl⟩⟩
    · rw [hpv, hv]
      exact Nat.lt_of_lt_of_le h3 hrew.fresh
    · rw [hpv, hp.envs _ h3]
      exact hpe
  · have hps' : ENV_IN_HEAP_P th (GC_GUARDED_PTR_REF (th.mem f.dfp)) = false := by
      simpa using hps
    obtain ⟨j, gj, gj', hij, hgj, hgd, hgj', hge, _, hmem, hpv, hlt, _⟩ := hsp hne hps'
    have hrj := promotion_rewritten hheap hp hgj hgj' (by rw [hgd]; exact hps') hge
    obtain ⟨penv, hpe, _, _, hpd, _⟩ := hrj.env
    have href : GC_GUARDED_PTR_REF (th'.mem f'.dfp) = gj'.dfp := by
      rw [hmem, GC_GUARDED_PTR_REF_GUARDED _ hrj.align]
    rw [href]
    refine ⟨(rewritten_reads hheap hp.stack hp.size hrj).1, hpv, by rw [hv]; exact hlt,
      ⟨penv, by rw [hpv]; exact hpe, hpd.symm⟩, fun _ => ⟨by rw [hpv]; exact hrj.fresh,
        j, gj, gj', hij, hgj, hgd, hgj', rfl⟩, fun h => by rw [hps'] at h; cases h⟩

theorem sample_thread_heap_parent_wf : heap_parent_wf sample_thread 1040 0 := by
  constructor
  intro i f _ hf _ _ he hp
  have hi : i < 2 := (List.getElem?_eq_some.mp hf).1
  have hi' : i = 0 ∨ i = 1 := by omega
  rcases hi' with hi' | hi' <;> subst hi' <;> cases hf
  · have hq : ENV_IN_HEAP_P sample_thread
        (GC_GUARDED_PTR_REF (sample_thread.mem
          (sample_frame VM_FRAME_MAGIC_BLOCK 1080 1040 2).dfp)) = false := by decide
    exact absurd (hq.symm.trans hp) (by decide)
  · exact absurd rfl he

/-- C22, witness: promoting the scope of the block frame of `sample_thread`,
whose enclosing scope is on the stack and is promoted first. -/
theorem rb_vm_make_env_object_prev_link_witness :
    promote_wf sample_thread 1040 0 ∧ heap_parent_wf sample_thread 1040 0 ∧
    ENV_IN_HEAP_P sample_thread 1080 = false ∧
    ∃ (th' : rb_thread_t) (v : VALUE) (f' : rb_control_frame_t) (env : rb_env_t),
      rb_vm_make_env_object 3 sample_thread 0 = .ok (th', v) ∧
      th'.frames[0]? = some f' ∧ ENV_VAL th' f'.dfp = v ∧ th'.envs v = some env ∧
      th'.mem (f'.dfp + SIZEOF_VALUE * 2) = env.prev_envval ∧
      ((1080 : Nat) = 1040 → env.prev_envval = 0) ∧
      ((1080 : Nat) ≠ 1040 →
        ENV_IN_HEAP_P th' (GC_GUARDED_PTR_REF (th'.mem f'.dfp)) = true ∧
        env.prev_envval = ENV_VAL th' (GC_GUARDED_PTR_REF (th'.mem f'.dfp)) ∧
        env.prev_envval < v ∧
        (∃ penv : rb_env_t, th'.envs env.prev_envval = some penv ∧
          penv.env + SIZEOF_VALUE * penv.local_size = GC_GUARDED_PTR_REF (th'.mem f'.dfp)) ∧
        (ENV_IN_HEAP_P sample_thread (GC_GUARDED_PTR_REF (sample_thread.mem 1080)) = false →
          sample_thread.brk ≤ env.prev_envval ∧
          ∃ (j : Nat) (gj gj' : rb_control_frame_t), 0 < j ∧
            sample_thread.frames[j]? = some gj ∧
            gj.dfp = GC_GUARDED_PTR_REF (sample_thread.mem 1080) ∧ th'.frames[j]? = some gj' ∧
            gj'.dfp = GC_GUARDED_PTR_REF (th'.mem f'.dfp)) ∧
        (ENV_IN_HEAP_P sample_thread (GC_GUARDED_PTR_REF (sample_thread.mem 1080)) = true →
          env.prev_envval = ENV_VAL sample_thread (GC_GUARDED_PTR_REF (sample_thread.mem 1080)) ∧
          GC_GUARDED_PTR_REF (th'.mem f'.dfp) =
            GC_GUARDED_PTR_REF (sample_thread.mem 1080))) ∧
      ∃ m, scope_chain_heap th' m f'.dfp f'.lfp = true :=
  ⟨sample_thread_promote_wf, sample_thread_heap_parent_wf, by decide,
    rb_vm_make_env_object_prev_link sample_thread 0 2
      (sample_frame VM_FRAME_MAGIC_BLOCK 1080 1040 2) rfl (by decide)
      sample_thread_promote_wf sample_thread_heap_parent_wf (by decide) (by decide)⟩

end RubyVM
